import Mathlib

/-!
# Verification of `gdb/valprint.c`

A shallow embedding of the value-printing routines of `gdb/valprint.c`
(array element printing with repeat compression, string fetching from the
inferior, the printing of wide integers and of floating-point NaNs, the
radix commands and `value_print`) together with theorems about the embedded
functions.

Conventions of the embedding:

* `unsigned int` values are natural numbers; the two operations that could
  leave the 32-bit range (`things_printed += repeat_count_threshold` and the
  offset product `i * eltlen`) are reduced by `uint`;
* addresses in the inferior and offsets into host buffers are natural numbers;
  the one pointer sum that can leave its buffer, `buffer + fetchlimit` in the
  loop test of `val_print_string`, is taken modulo `2 ^ pointer_bits`;
* a `long` is the pattern of its `sizeof (long)` bytes (`Config.sizeof_long`),
  read in the byte order of the host;
* the output stream is the list of the writes made to it, in order (`Out`);
* the globals read by the printers are gathered in `Policy`;
* `QUIT` is the cancellation check; the embedding describes runs in which no
  cancellation is pending, so `QUIT` does nothing;
* a C loop is `while_loop`/`do_while` with an iteration bound (fuel).  A run
  that would need more iterations than the bound yields `none`; every theorem
  about a result therefore also shows that the bound was sufficient.
-/

namespace Valprint

/-! ## Machine integers -/

/-- The constant `UINT_MAX` for a 32-bit `unsigned int`. -/
def UINT_MAX : Nat := 4294967295

/-- Conversion of a natural number to `unsigned int` (reduction modulo 2^32). -/
def uint (n : Nat) : Nat := n % 4294967296

/-- The constant `PRINT_MAX_DEFAULT` (`#define PRINT_MAX_DEFAULT 200`). -/
def PRINT_MAX_DEFAULT : Nat := 200

/-- The `errno` value `EIO` of `<errno.h>`. -/
def EIO : Int := 5

/-! ## Print policy: the globals consulted by the printers -/

/-- The global variables `print_max`, `repeat_count_threshold`,
`prettyprint_arrays` and `addressprint`. -/
structure Policy where
  print_max : Nat
  repeat_count_threshold : Nat
  prettyprint_arrays : Bool
  addressprint : Bool
deriving DecidableEq, Repr

/-! ## Output stream -/

/-- One write to the output stream.

* `text s`: `fprintf_filtered (stream, s)` or `fputs_filtered (s, stream)` of
  a literal;
* `spaces n`: `print_spaces_filtered (n, stream)`;
* `wrap_here n`: `wrap_here (n_spaces (n))`, a line-wrap hint that writes no
  character;
* `val_print off address deref_ref recurse`: the call
  `val_print (elttype, valaddr + off, address, stream, format, deref_ref,
  recurse, pretty)` that renders one element (type, stream, format and pretty
  are passed on unchanged);
* `repeats reps filtered`: the text `" <repeats %u times>"` with `reps`,
  written with `fprintf_filtered` (`filtered = true`) or plain `fprintf`;
* `print_string chars force_ellipsis`: `LA_PRINT_STRING (stream, buffer,
  length, force_ellipsis)` where `chars` are the `length` bytes of the buffer;
* `out_of_bounds addr`: the text `" <Address 0x%x out of bounds>"` with `addr`.
-/
inductive Out where
  | text (s : String)
  | spaces (n : Int)
  | wrap_here (n : Int)
  | val_print (off : Nat) (address : Nat) (deref_ref : Int) (recurse : Int)
  | repeats (reps : Nat) (filtered : Bool)
  | print_string (chars : List Nat) (force_ellipsis : Bool)
  | out_of_bounds (addr : Nat)
deriving DecidableEq, Repr

/-! ## Loops -/

/-- The loop `while (cond) body`, run for at most `fuel` iterations; `none`
when the condition still holds after `fuel` iterations. -/
def while_loop {σ : Type} (cond : σ → Bool) (body : σ → Option σ) : Nat → σ → Option σ
  | 0, s => if cond s then none else some s
  | fuel + 1, s => if cond s then (body s).bind (while_loop cond body fuel) else some s

/-- The loop `do body while (cond)`: the body runs once, then `while_loop`. -/
def do_while {σ : Type} (body : σ → Option σ) (cond : σ → Bool) (fuel : Nat) (s : σ) :
    Option σ :=
  (body s).bind (while_loop cond body fuel)

/-! ## `memcmp` -/

/-- The library function `memcmp (valaddr + a, valaddr + b, n)` on the byte
block `valaddr`: zero when the two `n`-byte blocks are equal, otherwise the
difference of the first pair of differing bytes. -/
def memcmp (valaddr : Nat → Nat) (a b : Nat) : Nat → Int
  | 0 => 0
  | n + 1 =>
    if valaddr a = valaddr b then memcmp valaddr (a + 1) (b + 1) n
    else (valaddr a : Int) - (valaddr b : Int)

/-! ## `val_print_array_elements` -/

/-- The locals `i` and `things_printed` of `val_print_array_elements`, and the
writes made to the stream so far. -/
structure ArrState where
  i : Nat
  things_printed : Nat
  out : List Out
deriving DecidableEq, Repr

/-- The inner loop
`while ((rep1 < len) && !memcmp (valaddr + i * eltlen, valaddr + rep1 * eltlen, eltlen))
   { ++reps; ++rep1; }` on the pair `(rep1, reps)`, started at `(i + 1, 1)`. -/
def count_reps (valaddr : Nat → Nat) (eltlen len i : Nat) : Option (Nat × Nat) :=
  while_loop
    (fun p => decide (p.1 < len) &&
      decide (memcmp valaddr (uint (i * eltlen)) (uint (p.1 * eltlen)) eltlen = 0))
    (fun p => some (p.1 + 1, p.2 + 1))
    len (i + 1, 1)

/-- The separator written before every element but the one at index 0. -/
def separator (G : Policy) (recurse : Int) (i : Nat) : List Out :=
  if i ≠ 0 then
    if G.prettyprint_arrays then [Out.text ",\n", Out.spaces (2 + 2 * recurse)]
    else [Out.text ", "]
  else []

/-- One iteration of the `for` loop of `val_print_array_elements`, including
the increment `i++`. -/
def array_body (G : Policy) (valaddr : Nat → Nat) (eltlen len : Nat)
    (deref_ref recurse : Int) (s : ArrState) : Option ArrState :=
  let out1 := s.out ++ separator G recurse s.i ++ [Out.wrap_here (2 + 2 * recurse)]
  (count_reps valaddr eltlen len s.i).bind fun p =>
    let rep1 := p.1
    let reps := p.2
    if reps > G.repeat_count_threshold then
      some { i := (rep1 - 1) + 1,
             things_printed := uint (s.things_printed + G.repeat_count_threshold),
             out := out1 ++ [Out.val_print (uint (s.i * eltlen)) 0 deref_ref (recurse + 1),
                             Out.repeats reps true] }
    else
      some { i := s.i + 1,
             things_printed := s.things_printed + 1,
             out := out1 ++ [Out.val_print (uint (s.i * eltlen)) 0 deref_ref (recurse + 1)] }

/-- The condition `i < len && things_printed < print_max` of the `for` loop. -/
def array_cond (G : Policy) (len : Nat) (s : ArrState) : Bool :=
  decide (s.i < len) && decide (s.things_printed < G.print_max)

/-- The function `val_print_array_elements (type, valaddr, address, stream,
format, deref_ref, recurse, pretty, i)`, where `type_length` is
`TYPE_LENGTH (type)` and `eltlen` is `TYPE_LENGTH (TYPE_TARGET_TYPE (type))`.
The result holds the writes made to the stream and the final values of the
locals `i` and `things_printed`.  The loop is given `len` iterations: each
one raises `i`, and the loop stops once `i` reaches `len`.  The increments
`i++`, `++rep1`, `++reps` and `things_printed++` act on values below `len` or
`print_max` and cannot leave the range of `unsigned int`. -/
def val_print_array_elements (G : Policy) (type_length eltlen : Nat) (valaddr : Nat → Nat)
    (deref_ref recurse : Int) (i : Nat) : Option ArrState :=
  let len := type_length / eltlen
  (while_loop (array_cond G len)
    (array_body G valaddr eltlen len deref_ref recurse)
    len { i := i, things_printed := 0, out := [] }).map fun s =>
      if s.i < len then { s with out := s.out ++ [Out.text "..."] } else s

/-- The bytes of element `j` of the array stored at `valaddr`. -/
def elt (valaddr : Nat → Nat) (eltlen j : Nat) : List Nat :=
  (List.range eltlen).map fun k => valaddr (j * eltlen + k)

/-- The writes made for element `j` when it is printed individually: the
separator (none at index 0), the wrap hint and the rendering of the element. -/
def element_out (G : Policy) (eltlen : Nat) (deref_ref recurse : Int) (j : Nat) : List Out :=
  separator G recurse j ++
    [Out.wrap_here (2 + 2 * recurse), Out.val_print (j * eltlen) 0 deref_ref (recurse + 1)]

/-- The writes made when the `count` elements from index `first` on are each
printed individually, in index order. -/
def individual_out (G : Policy) (eltlen : Nat) (deref_ref recurse : Int)
    (first count : Nat) : List Out :=
  ((List.range' first count).map (element_out G eltlen deref_ref recurse)).flatten

/-- The test of the repeat scan: `memcmp` finds element `j` equal to element
`i`. -/
def same_elt (valaddr : Nat → Nat) (eltlen i j : Nat) : Prop :=
  memcmp valaddr (uint (i * eltlen)) (uint (j * eltlen)) eltlen = 0

/-! ## `val_print_string` -/

/-- The memory access primitives of the inferior (defined in `target.c`),
taken as parameters.

* `partial_read memaddr len` is the call `target_read_memory_partial
  (memaddr, myaddr, len, &errcode)`: the bytes it stored at `myaddr` (their
  number is the value returned; the primitive delivers at most `len` bytes, so
  only the first `len` are used) and the value it left in `errcode`;
* `exact_read memaddr len` is the call `target_read_memory (memaddr, myaddr,
  len)`: the status returned (zero on success) and the bytes stored at
  `myaddr`, by index. -/
structure Target where
  partial_read : Nat → Nat → List Nat × Int
  exact_read : Nat → Nat → Int × (Nat → Nat)

/-- What the fetch loop of `val_print_string` sees of the pointers and of the
storage allocator of the host (`xmalloc` and `xrealloc` are outside this
file):

* `pointer_bits` is the width of a `char *` in bits;
* `buffer_address n` is the address of the fetch buffer after the `n`-th
  allocation made by the loop (the first is `xmalloc`, every later one is
  `xrealloc`, which may move the buffer). -/
structure Heap where
  pointer_bits : Nat
  buffer_address : Nat → Nat

/-- The locals of `val_print_string` that the fetch loop updates.  `buffer` is
the content of the fetch buffer by offset (before any read it holds whatever
the allocator returned), `allocated` is `buffer != NULL`, and `bufptr` is the
offset `bufptr - buffer`.  `reads` is not a variable of the source: it counts
the iterations made so far, each of which allocates once and calls
`target_read_memory_partial` once. -/
structure FetchState where
  addr : Nat
  buffer : Nat → Nat
  allocated : Bool
  bufsize : Nat
  bufptr : Nat
  nfetch : Nat
  errcode : Int
  reads : Nat

/-- The scan `do { addr++; bufptr++; } while (bufptr < limit && *(bufptr - 1) != '\0');`
on the pair `(addr, bufptr)`. -/
def scan_chunk (buffer : Nat → Nat) (limit : Nat) (fuel : Nat) (addr bufptr : Nat) :
    Option (Nat × Nat) :=
  do_while (fun p => some (p.1 + 1, p.2 + 1))
    (fun p => decide (p.2 < limit) && decide (buffer (p.2 - 1) ≠ 0))
    fuel (addr, bufptr)

/-- The fetch buffer after the bytes `bytes` were stored from offset `bufptr` on. -/
def store (buffer : Nat → Nat) (bufptr : Nat) (bytes : List Nat) : Nat → Nat :=
  fun p => if bufptr ≤ p ∧ p < bufptr + bytes.length then bytes.getD (p - bufptr) 0 else buffer p

/-- One iteration of the fetch loop of `val_print_string`.  The subtraction
`fetchlimit - bufsize` is the unsigned one of the source: `bufsize` never
exceeds `fetchlimit` (see `fetch_body_spec`), so it does not wrap. -/
def fetch_body (T : Target) (len fetchlimit chunksize : Nat) (s : FetchState) :
    Option FetchState :=
  let nfetch := min chunksize (fetchlimit - s.bufsize)
  let bufsize := s.bufsize + nfetch
  let bufptr := if s.allocated then bufsize - nfetch else 0
  let r := T.partial_read s.addr nfetch
  let bytes := r.1.take nfetch
  if len ≠ 0 then
    some { addr := s.addr + bytes.length, buffer := store s.buffer bufptr bytes,
           allocated := true, bufsize := bufsize, bufptr := bufptr + bytes.length,
           nfetch := bytes.length, errcode := r.2, reads := s.reads + 1 }
  else
    (scan_chunk (store s.buffer bufptr bytes) (bufptr + bytes.length) bytes.length
        s.addr bufptr).map fun p =>
      { addr := p.1, buffer := store s.buffer bufptr bytes, allocated := true,
        bufsize := bufsize, bufptr := p.2, nfetch := bytes.length,
        errcode := r.2, reads := s.reads + 1 }

/-- The number of bytes requested by the iteration started in state `s`:
`min (chunksize, fetchlimit - bufsize)`. -/
def fetch_size (fetchlimit chunksize : Nat) (s : FetchState) : Nat :=
  min chunksize (fetchlimit - s.bufsize)

/-- The bytes delivered by the partial read of the iteration started in
state `s`. -/
def fetched (T : Target) (fetchlimit chunksize : Nat) (s : FetchState) : List Nat :=
  (T.partial_read s.addr (fetch_size fetchlimit chunksize s)).1.take
    (fetch_size fetchlimit chunksize s)

/-- The condition of the fetch loop:
`errcode == 0 && bufptr < buffer + fetchlimit && !(len == 0 && *(bufptr - 1) == '\0')`.
The second test compares two pointers.  `buffer` is the address that the
allocation of the iteration just made returned, the `reads`-th of the loop.
`bufptr` lies in the buffer or at most one byte past its end, so its address
is that of `buffer` plus its offset; the sum `buffer + fetchlimit` can lie
far outside the buffer and is taken modulo `2 ^ pointer_bits`, as pointer
arithmetic on the host computes it. -/
def fetch_cond (H : Heap) (len fetchlimit : Nat) (s : FetchState) : Bool :=
  decide (s.errcode = 0) &&
    decide (H.buffer_address s.reads + s.bufptr <
      (H.buffer_address s.reads + fetchlimit) % 2 ^ H.pointer_bits) &&
    !(decide (len = 0) && decide (s.buffer (s.bufptr - 1) = 0))

/-- How `val_print_string` ends: `returned n` is `return (bufptr - buffer)`,
`error addr errcode` is the call
`error ("Error reading memory address 0x%x: %s.", addr, safe_strerror (errcode))`,
which does not return. -/
inductive Exit where
  | returned (value : Nat)
  | error (addr : Nat) (errcode : Int)
deriving DecidableEq, Repr

/-- The outcome of `val_print_string`: the writes made to the stream, how the
function ended, and the final values of `bufptr - buffer` (`count`),
`force_ellipsis`, `errcode` and `addr`, and the number of partial reads. -/
structure StrResult where
  out : List Out
  exit : Exit
  count : Nat
  force_ellipsis : Bool
  errcode : Int
  addr : Nat
  reads : Nat
deriving DecidableEq, Repr

/-- The effective fetch ceiling
`fetchlimit = (len == 0 ? print_max : min (len, print_max))`. -/
def fetchlimit (G : Policy) (len : Nat) : Nat :=
  if len = 0 then G.print_max else min len G.print_max

/-- The size of one fetch
`chunksize = (len == 0 ? min (PRINT_MAX_DEFAULT, fetchlimit) : fetchlimit)`. -/
def chunksize (G : Policy) (len : Nat) : Nat :=
  if len = 0 then min PRINT_MAX_DEFAULT (fetchlimit G len) else fetchlimit G len

/-- The value of `force_ellipsis` after the fetch loop ended in state `s`:
in terminator-search mode without a terminator at `bufptr - 1`, the result of
peeking one byte at `addr`
(`target_read_memory (addr, &peekchar, 1) != 0 || peekchar != '\0'`);
otherwise `(len != 0 && errcode != 0) || (len > bufptr - buffer)`. -/
def force_ellipsis (T : Target) (len : Nat) (s : FetchState) : Bool :=
  if len = 0 ∧ s.buffer (s.bufptr - 1) ≠ 0 then
    decide ((T.exact_read s.addr 1).1 ≠ 0) || decide ((T.exact_read s.addr 1).2 0 ≠ 0)
  else
    decide ((len ≠ 0 ∧ s.errcode ≠ 0) ∨ len > s.bufptr)

/-- The writes made up to and including the call of `LA_PRINT_STRING`: a
blank when `addressprint` is set, then the string of the `count` bytes
`chars`. -/
def printed (G : Policy) (chars : List Nat) (ellipsis : Bool) : List Out :=
  (if G.addressprint then [Out.text " "] else []) ++ [Out.print_string chars ellipsis]

/-- The part of `val_print_string` after the fetch loop, from the state `s`
in which the loop ended. -/
def finish_string (T : Target) (G : Policy) (len : Nat) (s : FetchState) : StrResult :=
  let ellipsis := force_ellipsis T len s
  let out := printed G ((List.range s.bufptr).map s.buffer) ellipsis
  if s.errcode ≠ 0 ∧ ellipsis = true then
    if s.errcode = EIO then
      { out := out ++ [Out.out_of_bounds s.addr], exit := Exit.returned s.bufptr,
        count := s.bufptr, force_ellipsis := ellipsis, errcode := s.errcode,
        addr := s.addr, reads := s.reads }
    else
      { out := out, exit := Exit.error s.addr s.errcode,
        count := s.bufptr, force_ellipsis := ellipsis, errcode := s.errcode,
        addr := s.addr, reads := s.reads }
  else
    { out := out, exit := Exit.returned s.bufptr,
      count := s.bufptr, force_ellipsis := ellipsis, errcode := s.errcode,
      addr := s.addr, reads := s.reads }

/-- The state in which `val_print_string` enters its fetch loop. -/
def fetch_start (junk : Nat → Nat) (addr : Nat) : FetchState :=
  { addr := addr, buffer := junk, allocated := false, bufsize := 0, bufptr := 0,
    nfetch := 0, errcode := 0, reads := 0 }

/-- The function `val_print_string (addr, len, stream)` over the primitives
`T` and the host storage `H`, with `junk` the bytes found in freshly
allocated storage.  After its first iteration the fetch loop is given
`fetchlimit + 1` further iterations (`fetch_loop_total` shows that this is
enough for every behaviour of the primitives).  The `int` variable `bufsize`,
the offset `bufptr - buffer` and the value returned are natural numbers here;
they never exceed `fetchlimit + 1`, and they are the values of the source as
long as they are within the range of `int`. -/
def val_print_string (T : Target) (H : Heap) (G : Policy) (junk : Nat → Nat)
    (addr len : Nat) : Option StrResult :=
  (do_while (fetch_body T len (fetchlimit G len) (chunksize G len))
    (fetch_cond H len (fetchlimit G len)) (fetchlimit G len + 1)
    (fetch_start junk addr)).map (finish_string T G len)

/-- The contract of the partial read: it delivers fewer bytes than requested
only when it also reports a nonzero error code. -/
def short_read_reports_error (T : Target) : Prop :=
  ∀ memaddr len, (T.partial_read memaddr len).1.length < len →
    (T.partial_read memaddr len).2 ≠ 0

/-- The longest readable run of at most `n` bytes of the memory `mem` from
`memaddr` on (`mem a = none` where address `a` is not mapped). -/
def readable_run (mem : Nat → Option Nat) (memaddr : Nat) : Nat → List Nat
  | 0 => []
  | n + 1 =>
    match mem memaddr with
    | none => []
    | some b => b :: readable_run mem (memaddr + 1) n

/-- Modelled from the spec: the memory access primitives (`target.c` is not
part of the sources) over a target memory `mem`.  The partial read delivers
the readable bytes up to the first unmapped address and reports `EIO` when it
delivered fewer than requested; the exact read succeeds when all the
requested bytes are mapped and fails with `EIO` otherwise. -/
def memory_target (mem : Nat → Option Nat) : Target where
  partial_read := fun memaddr len =>
    (readable_run mem memaddr len,
      if (readable_run mem memaddr len).length = len then 0 else EIO)
  exact_read := fun memaddr len =>
    if (readable_run mem memaddr len).length = len then
      (0, fun k => (readable_run mem memaddr len).getD k 0)
    else ( EIO, fun _ => 0)


/-- A fully mapped target memory holding the bytes `'a'`, `0`, `'b'` at
addresses 4096 to 4098 and `'z'` everywhere else. -/
def embedded_null_memory : Nat → Option Nat :=
  fun a => some (if a = 4096 then 97 else if a = 4097 then 0 else if a = 4098 then 98 else 122)

/-- The bytes of the string `"abc\0xyz"` placed at address 4096, zero bytes
everywhere else. -/
def abc_bytes : Nat → Nat :=
  fun a => if 4096 ≤ a then [97, 98, 99, 0, 120, 121, 122].getD (a - 4096) 0 else 0

/-- A fully mapped target memory holding `abc_bytes`. -/
def abc_memory : Nat → Option Nat :=
  fun a => some (abc_bytes a)

/-- A target memory in which exactly the 500 addresses from 4096 on are
mapped, each holding the byte `'A'`. -/
def five_hundred_memory : Nat → Option Nat :=
  fun a => if 4096 ≤ a ∧ a < 4596 then some 65 else none

/-- A target memory in which no address is mapped. -/
def unmapped_memory : Nat → Option Nat :=
  fun _ => none

/-- A target memory in which every address is mapped and holds the byte
`'A'`. -/
def all_a_memory : Nat → Option Nat :=
  fun _ => some 65

/-- A fully mapped target memory holding a string of 300 bytes `'A'` at
address 4096, zero bytes everywhere else. -/
def three_hundred_memory : Nat → Option Nat :=
  fun a => some (if 4096 ≤ a ∧ a < 4396 then 65 else 0)

/-- A host with 32-bit pointers whose allocator places the fetch buffer at
address `0x10000`, wherever it is allocated or reallocated. -/
def low_heap : Heap :=
  { pointer_bits := 32, buffer_address := fun _ => 65536 }

/-- A host with 32-bit pointers whose allocator places the fetch buffer in
the upper half of the address space, at `0xBB800000`. -/
def high_heap : Heap :=
  { pointer_bits := 32, buffer_address := fun _ => 3145728000 }

/-! ## Radix settings -/

/-- The decimal, hexadecimal or octal digits of `n` (`base` 10, 16 or 8), as
`printf` writes them for `%u`, `%x`, `%o` (and `%lu`, `%lx`). -/
def digits (base n : Nat) : String :=
  String.mk (Nat.toDigits base n)

/-- The globals `input_radix`, `output_radix` and `output_format` (an `int`
holding 0 or a format letter). -/
structure RadixState where
  input_radix : Nat
  output_radix : Nat
  output_format : Nat
deriving DecidableEq, Repr

/-- The initial values `input_radix = 10`, `output_radix = 10`,
`output_format = 0`. -/
def initial_radix : RadixState :=
  { input_radix := 10, output_radix := 10, output_format := 0 }

/-- The outcome of a radix command: the globals afterwards, the text written
with `printf_filtered`, and the message when the command ended in a call of
`error` (which does not return; the globals are those at the time of the
call). -/
structure RadixResult where
  state : RadixState
  out : List Out
  error : Option String
deriving DecidableEq, Repr

/-- The text `"decimal %u, hex %x, octal %o.\n"` for `radix`. -/
def radix_text (radix : Nat) : String :=
  "decimal " ++ digits 10 radix ++ ", hex " ++ digits 16 radix ++ ", octal " ++
    digits 8 radix ++ ".\n"

/-- The function `set_input_radix_1 (from_tty, radix)`. -/
def set_input_radix_1 (from_tty : Bool) (radix : Nat) (s : RadixState) : RadixResult :=
  if radix < 2 then
    { state := s, out := [],
      error := some ("Nonsense input radix ``decimal " ++ digits 10 radix ++
        "''; input radix unchanged.") }
  else
    { state := { s with input_radix := radix },
      out := if from_tty then [Out.text ("Input radix now set to " ++ radix_text radix)] else [],
      error := none }

/-- The function `set_output_radix_1 (from_tty, radix)`. -/
def set_output_radix_1 (from_tty : Bool) (radix : Nat) (s : RadixState) : RadixResult :=
  let done (fmt : Nat) : RadixResult :=
    { state := { s with output_format := fmt, output_radix := radix },
      out := if from_tty then [Out.text ("Output radix now set to " ++ radix_text radix)] else [],
      error := none }
  if radix = 16 then done (Char.toNat 'x')
  else if radix = 10 then done 0
  else if radix = 8 then done (Char.toNat 'o')
  else
    { state := s, out := [],
      error := some ("Unsupported output radix ``decimal " ++ digits 10 radix ++
        "''; output radix unchanged.") }

/-- The function `set_radix (arg, from_tty)`.  `arg` is `none` for `arg ==
NULL` and otherwise holds the value that `parse_and_eval_address (arg)`
returns, which the assignment converts to `unsigned`. -/
def set_radix (arg : Option Nat) (from_tty : Bool) (s : RadixState) : RadixResult :=
  let radix := match arg with
    | none => 10
    | some v => uint v
  let r1 := set_output_radix_1 false radix s
  if r1.error.isSome then r1
  else
    let r2 := set_input_radix_1 false radix r1.state
    if r2.error.isSome then { r2 with out := r1.out ++ r2.out }
    else
      { state := r2.state,
        out := r1.out ++ r2.out ++
          (if from_tty then
            [Out.text ("Input and output radices now set to " ++ radix_text radix)]
          else []),
        error := none }

/-- The radix state after `set output-radix 16` from the initial state. -/
def hex_output_state : RadixState :=
  { input_radix := 10, output_radix := 16, output_format := Char.toNat 'x' }

/-- The radix state after `set radix 16`. -/
def hex_state : RadixState :=
  { input_radix := 16, output_radix := 16, output_format := Char.toNat 'x' }

/-! ## Scalar formatting: integers -/

/-- The compile-time configuration that the source reads through macros
defined in headers outside this file, and the two language hooks of the hex
dump.

* `big_endian`: `TARGET_BYTE_ORDER == BIG_ENDIAN`;
* `host_big_endian`: `HOST_BYTE_ORDER == BIG_ENDIAN`, which decides together
  with `big_endian` what `SWAP_TARGET_AND_HOST` does;
* `sizeof_longest`, `sizeof_long`: `sizeof (LONGEST)` and `sizeof (long)`;
* `cc_has_long_long`, `printf_has_long_long`: whether `CC_HAS_LONG_LONG` and
  `PRINTF_HAS_LONG_LONG` are defined;
* `ieee_float`: whether `IEEE_FLOAT` is defined;
* `hex_format_pre`, `hex_format_suf`: the strings returned by
  `local_hex_format_prefix ()` and `local_hex_format_suffix ()`. -/
structure Config where
  big_endian : Bool
  host_big_endian : Bool
  sizeof_longest : Nat
  sizeof_long : Nat
  cc_has_long_long : Bool
  printf_has_long_long : Bool
  ieee_float : Bool
  hex_format_pre : String
  hex_format_suf : String
deriving DecidableEq, Repr

/-- The hexadecimal digits of `n`, padded with zeros on the left to at least
`width` digits, as `printf` writes them for `%02x`, `%08x` and `%.8lx`. -/
def hex_padded (width n : Nat) : String :=
  String.mk (List.replicate (width - (Nat.toDigits 16 n).length) '0' ++ Nat.toDigits 16 n)

/-- The number denoted by a list of bytes, most significant byte first. -/
def be_value (bytes : List Nat) : Nat :=
  bytes.foldl (fun acc b => acc * 256 + b) 0

/-- The `n` bytes stored at `valaddr` from offset `first` on, in buffer order. -/
def bytes_at (valaddr : Nat → Nat) (first n : Nat) : List Nat :=
  (List.range n).map fun k => valaddr (first + k)

/-- The number that `n` bytes at offset `first` denote in target byte order. -/
def target_value (cfg : Config) (valaddr : Nat → Nat) (first n : Nat) : Nat :=
  if cfg.big_endian then be_value (bytes_at valaddr first n)
  else be_value (bytes_at valaddr first n).reverse

/-- The value of the two's complement pattern `v` of `bits` bits. -/
def to_signed (bits : Nat) (v : Nat) : Int :=
  if v % 2 ^ bits < 2 ^ (bits - 1) then (v % 2 ^ bits : Nat) else (v % 2 ^ bits : Nat) - 2 ^ bits

/-- Modelled from the spec: `unpack_long (type, valaddr + first)` of
`values.c`, which is not part of the sources, for an integer type of `n`
bytes: the value of the bytes in target byte order, as a `LONGEST` (sign
extended when the type is signed, and the pattern of a full-width unsigned
value read as signed). -/
def unpack_long (cfg : Config) (n : Nat) (is_unsigned : Bool) (valaddr : Nat → Nat)
    (first : Nat) : Int :=
  if is_unsigned ∧ n < cfg.sizeof_longest then (target_value cfg valaddr first n : Nat)
  else if is_unsigned then to_signed (8 * cfg.sizeof_longest) (target_value cfg valaddr first n)
  else to_signed (8 * n) (target_value cfg valaddr first n)

/-- The function `print_longest (stream, format, 0, val_long)` for the two
formats that `val_print_type_code_int` passes: `'u'` (`format_u = true`) and
`'d'`.  With `CC_HAS_LONG_LONG` and without `PRINTF_HAS_LONG_LONG` a value
outside the `int` range (for `'d'`) or above `UINT_MAX` (for `'u'`) is
written as `"0x%x%08x"` of its two halves; otherwise the value is written
with `%lld`/`%llu` or, cast to `long`, with `%ld`/`%lu`. -/
def print_longest (cfg : Config) (format_u : Bool) (val_long : Int) : List Out :=
  let vtop : Int := val_long / 2 ^ (8 * cfg.sizeof_long)
  let vbot : Int := val_long
  if cfg.cc_has_long_long ∧ ¬ cfg.printf_has_long_long ∧
      ((format_u = false ∧ (val_long < -2147483648 ∨ val_long > 2147483647)) ∨
       (format_u = true ∧ val_long > 4294967295)) then
    [Out.text ("0x" ++ digits 16 (vtop % 4294967296).toNat ++
      hex_padded 8 (vbot % 4294967296).toNat)]
  else if cfg.printf_has_long_long then
    if format_u then [Out.text (digits 10 (val_long % 2 ^ 64).toNat)]
    else [Out.text (toString val_long)]
  else
    if format_u then [Out.text (digits 10 (val_long % 2 ^ (8 * cfg.sizeof_long)).toNat)]
    else [Out.text (toString (to_signed (8 * cfg.sizeof_long)
      (val_long % 2 ^ (8 * cfg.sizeof_long)).toNat))]

/-- The function `print_hex_chars (stream, valaddr + first, len)`: the hex
prefix, then `"%02x"` of each of the `len` bytes, in buffer order on a
big-endian target and from the last byte down to the first on a
little-endian one, then the hex suffix. -/
def print_hex_chars (cfg : Config) (valaddr : Nat → Nat) (first len : Nat) : List Out :=
  [Out.text cfg.hex_format_pre] ++
    ((if cfg.big_endian then List.range len else (List.range len).reverse).map fun k =>
      Out.text (hex_padded 2 (valaddr (first + k)))) ++
    [Out.text cfg.hex_format_suf]

/-- The scan of `val_print_type_code_int` for zero bytes at the most
significant end of an unsigned value of `type_length` bytes, on the pair
`(p - valaddr, len)`.  The `break` of the loop body is part of the condition
here: the loop goes on while `*p == 0`.

Big-endian: `for (p = valaddr; len > sizeof (LONGEST) && p < valaddr +
TYPE_LENGTH (type); p++)`.  Little-endian: `for (p = valaddr + TYPE_LENGTH
(type); len > sizeof (LONGEST) && p >= valaddr; p--)`. -/
def scan_zero_bytes (cfg : Config) (type_length : Nat) (valaddr : Nat → Nat) :
    Option (Int × Nat) :=
  if cfg.big_endian then
    while_loop
      (fun s : Int × Nat => decide (s.2 > cfg.sizeof_longest) && decide (s.1 < type_length) &&
        decide (valaddr s.1.toNat = 0))
      (fun s => some (s.1 + 1, s.2 - 1))
      type_length (0, type_length)
  else
    while_loop
      (fun s : Int × Nat => decide (s.2 > cfg.sizeof_longest) && decide (s.1 ≥ 0) &&
        decide (valaddr s.1.toNat = 0))
      (fun s => some (s.1 - 1, s.2 - 1))
      type_length ((type_length : Int), type_length)

/-- The function `val_print_type_code_int (type, valaddr, stream)`, with
`type_length` for `TYPE_LENGTH (type)` and `type_unsigned` for
`TYPE_UNSIGNED (type)`, in the configuration without
`PRINT_TYPELESS_INTEGER`.  The scan is given `type_length` iterations: each
one lowers `len`. -/
def val_print_type_code_int (cfg : Config) (type_length : Nat) (type_unsigned : Bool)
    (valaddr : Nat → Nat) : Option (List Out) :=
  if type_length > cfg.sizeof_longest then
    if type_unsigned then
      (scan_zero_bytes cfg type_length valaddr).map fun s =>
        let first_addr : Nat := if cfg.big_endian then s.1.toNat else 0
        if s.2 ≤ cfg.sizeof_longest then
          print_longest cfg true (unpack_long cfg cfg.sizeof_longest false valaddr first_addr)
        else
          print_hex_chars cfg valaddr first_addr s.2
    else
      some (print_hex_chars cfg valaddr 0 type_length)
  else
    some (print_longest cfg type_unsigned
      (unpack_long cfg type_length type_unsigned valaddr 0))

/-- A little-endian configuration (target and host) with 8-byte `LONGEST`,
4-byte `long`, `printf` support for `long long`, IEEE floats and the C hex
prefix. -/
def little_endian_config : Config :=
  { big_endian := false, host_big_endian := false, sizeof_longest := 8, sizeof_long := 4, cc_has_long_long := true,
    printf_has_long_long := true, ieee_float := true, hex_format_pre := "0x",
    hex_format_suf := "" }

/-- The same configuration for a big-endian target and host. -/
def big_endian_config : Config :=
  { big_endian := true, host_big_endian := true, sizeof_longest := 8, sizeof_long := 4, cc_has_long_long := true,
    printf_has_long_long := true, ieee_float := true, hex_format_pre := "0x",
    hex_format_suf := "" }

/-- A 16-byte little-endian unsigned value 5 (only the least significant
byte, at offset 0, is nonzero), followed in memory at offset 16 by a byte 1
that is not part of the value. -/
def five_then_one : Nat → Nat :=
  fun k => if k = 0 then 5 else if k = 16 then 1 else 0

/-- A 16-byte little-endian unsigned value 2^64 + 5: the bytes at offsets 0
and 8 are 5 and 1, every other byte, also past the value, is 0. -/
def two_pow_64_plus_five : Nat → Nat :=
  fun k => if k = 0 then 5 else if k = 8 then 1 else 0

/-- A 16-byte little-endian unsigned value 2^72 + 5: the bytes at offsets 0
and 9 are 5 and 1, every other byte, also past the value, is 0. -/
def two_pow_72_plus_five : Nat → Nat :=
  fun k => if k = 0 then 5 else if k = 9 then 1 else 0

/-! ## Scalar formatting: floating point -/

/-- The routines that turn bytes into a host `double` and the `double` into
text, which are outside this file; `δ` stands for the host type `double`.

* `unpack_double len valaddr` is `unpack_double (type, valaddr, &inv)` for a
  type of `len` bytes: the value and the flag `inv`;
* `format_g n d` is the text written by `printf` for `"%.9g"` (`n = 9`) or
  `"%.17g"` (`n = 17`). -/
structure FloatOps (δ : Type) where
  unpack_double : Nat → (Nat → Nat) → δ × Bool
  format_g : Nat → δ → String

/-- The four bytes at offset `off` as a word in target byte order. -/
def target_word (cfg : Config) (valaddr : Nat → Nat) (off : Nat) : Nat :=
  target_value cfg valaddr off 4

/-- The number that the bytes of a host object denote: the first byte is the
most significant one on a big-endian host and the least significant one on a
little-endian host. -/
def host_value (cfg : Config) (bytes : List Nat) : Nat :=
  if cfg.host_big_endian then be_value bytes else be_value bytes.reverse

/-- Modelled from the spec: the macro `SWAP_TARGET_AND_HOST (buffer, len)` of
`defs.h`, which is not part of the sources, on the bytes of the object at
`buffer`.  It corrects for target-versus-host byte order: the first `len`
bytes are reversed when the two orders differ, and nothing is done when they
agree. -/
def swap_target_and_host (cfg : Config) (len : Nat) (bytes : List Nat) : List Nat :=
  if cfg.big_endian = cfg.host_big_endian then bytes
  else (bytes.take len).reverse ++ bytes.drop len

/-- The content of a `long x` after `memcpy (&x, valaddr + off, sizeof (x))`
and `SWAP_TARGET_AND_HOST (&x, len)`, as the unsigned pattern of its
`sizeof (long)` bytes.  The copy takes `sizeof (long)` bytes whatever the
length of the value at `valaddr + off` is. -/
def long_word (cfg : Config) (valaddr : Nat → Nat) (off len : Nat) : Nat :=
  host_value cfg (swap_target_and_host cfg len (bytes_at valaddr off cfg.sizeof_long))

/-- The locals `low`, `high`, `nonnegative` and `is_nan` of `print_floating`
after the bit tests (`low` and `high` as masked by `low &= 0x7fffff` or
`high &= 0xfffff`). -/
structure FloatBits where
  low : Nat
  high : Nat
  nonnegative : Bool
  is_nan : Bool
deriving DecidableEq, Repr

/-- The bit tests of `print_floating` for a type of `len` bytes: the
single-precision branch when `len == sizeof (float)` (4 bytes), where `low`
is swapped over `sizeof (float)` bytes, and the double-precision branch for
every other length, where `low` and `high` are swapped over `sizeof (long)`
bytes.  `low` and `high` are the patterns of a signed `long`: the test
`x >= 0` holds when the pattern is below `2 ^ (8 * sizeof (long) - 1)`, and
the shifts and masks read bits below the sign bit. -/
def float_bits (cfg : Config) (valaddr : Nat → Nat) (len : Nat) : FloatBits :=
  if len = 4 then
    let low := long_word cfg valaddr 0 4
    { nonnegative := decide (low < 2 ^ (8 * cfg.sizeof_long - 1)),
      is_nan := decide ((low >>> 23) &&& 0xFF = 0xFF) && decide (0 ≠ low &&& 0x7FFFFF),
      low := low &&& 0x7fffff,
      high := 0 }
  else
    let low := long_word cfg valaddr (if cfg.big_endian then 4 else 0) cfg.sizeof_long
    let high := long_word cfg valaddr (if cfg.big_endian then 0 else 4) cfg.sizeof_long
    { nonnegative := decide (high < 2 ^ (8 * cfg.sizeof_long - 1)),
      is_nan := decide ((high >>> 20) &&& 0x7ff = 0x7ff) &&
        !(decide (high &&& 0xfffff = 0) && decide (low = 0)),
      low := low,
      high := high &&& 0xfffff }

/-- The text written for a NaN: `"-NaN(0x%lx%.8lx)" + nonnegative` of `high`
and `low` when `high` is nonzero, `"-NaN(0x%lx)" + nonnegative` of `low`
otherwise. -/
def nan_text (b : FloatBits) : String :=
  (if b.nonnegative then "" else "-") ++
    (if b.high ≠ 0 then "NaN(0x" ++ digits 16 b.high ++ hex_padded 8 b.low ++ ")"
     else "NaN(0x" ++ digits 16 b.low ++ ")")

/-- The part of `print_floating` after the NaN test: the value is unpacked
and written with 9 or 17 significant digits, or as a placeholder when the
unpacking reports an invalid value. -/
def unpack_out {δ : Type} (ops : FloatOps δ) (valaddr : Nat → Nat) (len : Nat) : List Out :=
  if (ops.unpack_double len valaddr).2 then [Out.text "<invalid float value>"]
  else [Out.text (ops.format_g (if len ≤ 4 then 9 else 17) (ops.unpack_double len valaddr).1)]

/-- The function `print_floating (valaddr, type, stream)` for a type of `len`
bytes. -/
def print_floating {δ : Type} (cfg : Config) (ops : FloatOps δ) (valaddr : Nat → Nat)
    (len : Nat) : List Out :=
  if cfg.ieee_float ∧ (float_bits cfg valaddr len).is_nan = true then
    [Out.text (nan_text (float_bits cfg valaddr len))]
  else
    unpack_out ops valaddr len

/-- Float routines used where the unpack path is not reached: they report
every value as invalid. -/
def no_float_ops : FloatOps Unit :=
  { unpack_double := fun _ _ => ((), true), format_g := fun _ _ => "" }

/-- The bytes `7F C0 00 00` (the single-precision pattern `0x7FC00000` in
big-endian order), zero bytes after them. -/
def quiet_nan_bytes : Nat → Nat :=
  fun k => if k = 0 then 127 else if k = 1 then 192 else 0

/-- The bytes `7F 80 00 00` (the single-precision pattern of +infinity in
big-endian order), zero bytes after them. -/
def infinity_bytes : Nat → Nat :=
  fun k => if k = 0 then 127 else if k = 1 then 128 else 0

/-- A little-endian configuration (target and host) in which `long` has 8
bytes, as on an LP64 host. -/
def lp64_config : Config :=
  { big_endian := false, host_big_endian := false, sizeof_longest := 8, sizeof_long := 8,
    cc_has_long_long := true, printf_has_long_long := true, ieee_float := true,
    hex_format_pre := "0x", hex_format_suf := "" }

/-- The bytes `00 00 C0 FF` (the single-precision pattern `0xFFC00000`, a NaN
with sign bit 1, in little-endian order), zero bytes after them. -/
def negative_nan_bytes : Nat → Nat :=
  fun k => if k = 2 then 192 else if k = 3 then 255 else 0

/-- The bytes `00 00 00 00 00 00 F0 7F` (the double-precision pattern of
+infinity in little-endian order), zero bytes after them. -/
def double_infinity_bytes : Nat → Nat :=
  fun k => if k = 6 then 240 else if k = 7 then 127 else 0

/-! ## `value_print` -/

/-- The type codes `TYPE_CODE_*` of `gdbtypes.h` that the printers test;
`TYPE_CODE_OTHER` stands for every other code. -/
inductive TypeCode where
  | TYPE_CODE_PTR
  | TYPE_CODE_REF
  | TYPE_CODE_INT
  | TYPE_CODE_FLT
  | TYPE_CODE_ARRAY
  | TYPE_CODE_STRUCT
  | TYPE_CODE_UNION
  | TYPE_CODE_ENUM
  | TYPE_CODE_OTHER
deriving DecidableEq, Repr

/-- What `value_print` reads of the type `TYPE_TARGET_TYPE (type)`:
`TYPE_CODE`, `TYPE_LENGTH` and `TYPE_UNSIGNED`. -/
structure TargetType where
  code : TypeCode
  length : Nat
  is_unsigned : Bool
deriving DecidableEq, Repr

/-- What the printers read of a `struct type`: `TYPE_CODE`, `TYPE_LENGTH`,
`TYPE_UNSIGNED` and the target type (of a pointer, reference or array). -/
structure GdbType where
  code : TypeCode
  length : Nat
  is_unsigned : Bool
  target_type : TargetType
deriving DecidableEq, Repr

/-- What `value_print` reads of a `value`: `VALUE_TYPE`, `VALUE_CONTENTS`
(the bytes by offset), `VALUE_ADDRESS`, `VALUE_REPEATED`,
`VALUE_REPETITIONS` and `VALUE_OPTIMIZED_OUT`. -/
structure Value where
  type : GdbType
  contents : Nat → Nat
  address : Nat
  repeated : Bool
  repetitions : Nat
  optimized_out : Bool

/-- The inner loop of `value_print_array_elements`:
`while (rep1 < n && !memcmp (VALUE_CONTENTS (val) + typelen * i,
VALUE_CONTENTS (val) + typelen * rep1, typelen)) { ++reps; ++rep1; }`
on the pair `(rep1, reps)`, started at `(i + 1, 1)`. -/
def value_count_reps (contents : Nat → Nat) (typelen n i : Nat) : Option (Nat × Nat) :=
  while_loop
    (fun p => decide (p.1 < n) &&
      decide (memcmp contents (uint (typelen * i)) (uint (typelen * p.1)) typelen = 0))
    (fun p => some (p.1 + 1, p.2 + 1))
    n (i + 1, 1)

/-- One iteration of the `for` loop of `value_print_array_elements`,
including the increment `i++`.  The hint `wrap_here ("")` is `wrap_here 0`;
the elements are rendered with `deref_ref = 1` and `recurse = 0` at the
address `VALUE_ADDRESS (val) + typelen * i`; the repeat annotation is written
with plain `fprintf`. -/
def value_array_body (G : Policy) (val : Value) (s : ArrState) : Option ArrState :=
  let typelen := val.type.length
  let out1 := s.out ++ (if s.i ≠ 0 then [Out.text ", "] else []) ++ [Out.wrap_here 0]
  (value_count_reps val.contents typelen val.repetitions s.i).bind fun p =>
    let rep1 := p.1
    let reps := p.2
    if reps > G.repeat_count_threshold then
      some { i := (rep1 - 1) + 1,
             things_printed := uint (s.things_printed + G.repeat_count_threshold),
             out := out1 ++ [Out.val_print (uint (typelen * s.i))
                               (val.address + uint (typelen * s.i)) 1 0,
                             Out.repeats reps false] }
    else
      some { i := s.i + 1,
             things_printed := s.things_printed + 1,
             out := out1 ++ [Out.val_print (uint (typelen * s.i))
                               (val.address + uint (typelen * s.i)) 1 0] }

/-- The function `value_print_array_elements (val, stream, format, pretty)`.
The result holds the writes made to the stream and the final values of `i`
and `things_printed`; the loop is given `n` iterations, each of which raises
`i`. -/
def value_print_array_elements (G : Policy) (val : Value) : Option ArrState :=
  let n := val.repetitions
  (while_loop (array_cond G n) (value_array_body G val)
    n { i := 0, things_printed := 0, out := [] }).map fun s =>
      if s.i < n then { s with out := s.out ++ [Out.text "..."] } else s

/-- The outcome of `value_print`: the writes made to `stream`, the writes
made with `printf_filtered` (to the standard output), and the value
returned. -/
structure PrintResult where
  out : List Out
  stdout : List Out
  ret : Int
deriving DecidableEq, Repr

/-- The function `value_print (val, stream, format, pretty)`.  `val = none`
is the null pointer; `type_name` is the text that `type_print (type, "",
stream, -1)` writes and `val_print_ret` the value that `val_print` returns
for the value.  The product `n * typelen` is computed in `unsigned int` and
returned as `int`. -/
def value_print (G : Policy) (type_name : String) (val_print_ret : Int) (val : Option Value)
    (format : Int) : Option PrintResult :=
  match val with
  | none => some { out := [], stdout := [Out.text "<address of value unknown>"], ret := 0 }
  | some v =>
    if v.optimized_out then
      some { out := [], stdout := [Out.text "<value optimized out>"], ret := 0 }
    else if v.repeated then
      let n := v.repetitions
      let typelen := v.type.length
      let elements : Option (List Out) :=
        if typelen = 1 ∧ v.type.code = TypeCode.TYPE_CODE_INT ∧ format = 0 then
          some [Out.print_string ((List.range n).map v.contents) false]
        else
          (value_print_array_elements G v).map fun s => s.out
      elements.map fun mid =>
        { out := [Out.text "\x7b"] ++ mid ++ [Out.text "\x7d"], stdout := [],
          ret := to_signed 32 (uint (n * typelen)) }
    else
      let type_shown : List Out :=
        if v.type.code = TypeCode.TYPE_CODE_PTR ∨ v.type.code = TypeCode.TYPE_CODE_REF then
          if v.type.code = TypeCode.TYPE_CODE_PTR ∧ v.type.target_type.length = 1 ∧
              v.type.target_type.code = TypeCode.TYPE_CODE_INT ∧
              ¬ v.type.target_type.is_unsigned then
            []
          else
            [Out.text "(", Out.text type_name, Out.text ") "]
        else []
      some { out := type_shown ++ [Out.val_print 0 v.address 1 0], stdout := [],
             ret := val_print_ret }

/-- The type `signed char`. -/
def signed_char : TargetType :=
  { code := TypeCode.TYPE_CODE_INT, length := 1, is_unsigned := false }

/-- A value of type reference to `signed char`, 4 bytes at address 4096. -/
def char_reference : Value :=
  { type := { code := TypeCode.TYPE_CODE_REF, length := 4, is_unsigned := false,
              target_type := signed_char },
    contents := fun _ => 0, address := 4096, repeated := false, repetitions := 1,
    optimized_out := false }

/-- A value of type pointer to `signed char`, 4 bytes at address 4096. -/
def char_pointer : Value :=
  { type := { code := TypeCode.TYPE_CODE_PTR, length := 4, is_unsigned := false,
              target_type := signed_char },
    contents := fun _ => 0, address := 4096, repeated := false, repetitions := 1,
    optimized_out := false }

/-- A repeated value: three 4-byte integers 7, 7, 9 at address 4096. -/
def three_ints : Value :=
  { type := { code := TypeCode.TYPE_CODE_INT, length := 4, is_unsigned := false,
              target_type := signed_char },
    contents := fun k => if k % 4 = 0 then (if k < 8 then 7 else 9) else 0,
    address := 4096, repeated := true, repetitions := 3, optimized_out := false }

/-- A 16-byte little-endian unsigned value 5 with zero bytes after it. -/
def five_alone : Nat → Nat :=
  fun k => if k = 0 then 5 else 0

/-- A 16-byte big-endian unsigned value 5 (the least significant byte is at
offset 15), followed in memory at offset 16 by a byte 1. -/
def big_endian_five_then_one : Nat → Nat :=
  fun k => if k = 15 then 5 else if k = 16 then 1 else 0

/-- A 16-byte big-endian unsigned value 2^64 + 5: the bytes at offsets 7 and
15 are 1 and 5, every other byte is 0. -/
def big_endian_two_pow_64_plus_five : Nat → Nat :=
  fun k => if k = 15 then 5 else if k = 7 then 1 else 0

/-! ## Definitions for the claims on budgets, lengths and invariants -/

/-- The pair `(output_radix, output_format)` is one of `(10, 0)`,
`(16, 'x')`, `(8, 'o')`. -/
def radix_ok (s : RadixState) : Prop :=
  (s.output_radix = 10 ∧ s.output_format = 0) ∨
  (s.output_radix = 16 ∧ s.output_format = Char.toNat 'x') ∨
  (s.output_radix = 8 ∧ s.output_format = Char.toNat 'o')

/-- The state after `set output-radix 8` from the initial state. -/
def octal_output_state : RadixState :=
  { input_radix := 10, output_radix := 8, output_format := Char.toNat 'o' }

/-- Sixteen bytes `7F F8 00 ... 00` of a 16-byte floating type on a
big-endian target, zero bytes after them.  The first eight bytes alone are
the pattern of a double-precision NaN. -/
def sixteen_byte_float : Nat → Nat :=
  fun k => if k = 0 then 127 else if k = 1 then 248 else 0

/-- Modelled from the spec: the value that a `set` command of kind
`var_uinteger` (the commands `set print elements` and `set print repeats`;
their code, in `command.c`, is not part of the sources) stores for the
user's setting `n`.  The setting 0 means "unlimited" and is stored as the
maximum representable count, never as literal zero. -/
def var_uinteger (n : Nat) : Nat :=
  if n = 0 then UINT_MAX else uint n

/-- The writes made for element `j` of a repeated value when it is printed
individually by `value_print_array_elements`: the separator (none at index
0), the wrap hint and the rendering of the element. -/
def value_element_out (val : Value) (j : Nat) : List Out :=
  (if j ≠ 0 then [Out.text ", "] else []) ++
    [Out.wrap_here 0,
     Out.val_print (val.type.length * j) (val.address + val.type.length * j) 1 0]

/-- The writes made when the `count` elements of a repeated value from index
`first` on are each printed individually, in index order. -/
def value_individual_out (val : Value) (first count : Nat) : List Out :=
  ((List.range' first count).map (value_element_out val)).flatten

/-- The state at the top of a loop after `k` completed iterations started in
`s0`; `none` when the loop ended (or its body failed) before that. -/
def loop_steps {σ : Type} (cond : σ → Bool) (body : σ → Option σ) (s0 : σ) : Nat → Option σ
  | 0 => some s0
  | k + 1 => (loop_steps cond body s0 k).bind fun s => if cond s then body s else none

/-- Among the `N` elements stored at `valaddr`, the `reps` elements from index
`i` on are byte-identical to element `i`, and the run cannot be extended:
it ends at `N` or the element after it differs. -/
def maximal_run (valaddr : Nat → Nat) (eltlen N i reps : Nat) : Prop :=
  1 ≤ reps ∧ i + reps ≤ N ∧
  (∀ j, i ≤ j → j < i + reps → elt valaddr eltlen j = elt valaddr eltlen i) ∧
  (i + reps < N → elt valaddr eltlen (i + reps) ≠ elt valaddr eltlen i)

/-- The state of the array loop after its first iteration over the three
integers 7, 7, 9 with threshold 1: the run of two was compressed. -/
def after_first_run : ArrState :=
  { i := 2, things_printed := 1,
    out := [Out.wrap_here 2, Out.val_print 0 0 1 1, Out.repeats 2 true] }

/-- What a write shows of the work of the sequence printer, apart from the
arguments that its call site fixes: of a rendered element the offset of its
bytes (not the address, `deref_ref` and `recurse` handed to `val_print`), of
a wrap hint its presence (not the indentation), of a repeat annotation the
count (not the output routine); separators and the ellipsis are kept. -/
def skeleton : Out → Out
  | Out.val_print off _ _ _ => Out.val_print off 0 0 0
  | Out.wrap_here _ => Out.wrap_here 0
  | Out.repeats reps _ => Out.repeats reps true
  | o => o

/-- A state of a sequence printer with its writes reduced to `skeleton`: the
index, the budget charged, and the elements selected with their separators,
repeat annotations and ellipsis. -/
def selection (s : ArrState) : ArrState :=
  { s with out := s.out.map skeleton }

/-! ## Loop rules -/

theorem while_loop_of_cond_false {σ : Type} (cond : σ → Bool) (body : σ → Option σ)
    (fuel : Nat) (s : σ) (h : cond s = false) : while_loop cond body fuel s = some s := by
  cases fuel <;> simp [while_loop, h]

theorem while_loop_step {σ : Type} (cond : σ → Bool) (body : σ → Option σ)
    (fuel : Nat) (s s' : σ) (h : cond s = true) (hb : body s = some s') :
    while_loop cond body (fuel + 1) s = while_loop cond body fuel s' := by
  simp [while_loop, h, hb]

/-- Invariant rule: an invariant kept by the body holds of the final state,
where the loop condition is false. -/
theorem while_loop_inv {σ : Type} (cond : σ → Bool) (body : σ → Option σ) (I : σ → Prop)
    (hI : ∀ s s', I s → cond s = true → body s = some s' → I s') :
    ∀ fuel s r, I s → while_loop cond body fuel s = some r → I r ∧ cond r = false := by
  intro fuel
  induction fuel with
  | zero =>
    intro s r hs h
    by_cases hc : cond s = true
    · simp [while_loop, hc] at h
    · simp [while_loop, hc] at h
      subst h
      exact ⟨hs, by simpa using hc⟩
  | succ fuel ih =>
    intro s r hs h
    by_cases hc : cond s = true
    · simp only [while_loop, hc, if_true] at h
      cases hb : body s with
      | none => simp [hb] at h
      | some s' =>
        simp only [hb, Option.some_bind] at h
        exact ih s' r (hI s s' hs hc hb) h
    · simp [while_loop, hc] at h
      subst h
      exact ⟨hs, by simpa using hc⟩

/-- Termination rule: when the body decreases a measure, fuel bounded below by
the measure is sufficient. -/
theorem while_loop_total {σ : Type} (cond : σ → Bool) (body : σ → Option σ) (I : σ → Prop)
    (μ : σ → Nat)
    (h : ∀ s, I s → cond s = true → ∃ s', body s = some s' ∧ I s' ∧ μ s' < μ s) :
    ∀ fuel s, I s → μ s ≤ fuel → ∃ r, while_loop cond body fuel s = some r := by
  intro fuel
  induction fuel with
  | zero =>
    intro s hs hμ
    by_cases hc : cond s = true
    · obtain ⟨s', -, -, hlt⟩ := h s hs hc
      omega
    · exact ⟨s, while_loop_of_cond_false cond body 0 s (by simpa using hc)⟩
  | succ fuel ih =>
    intro s hs hμ
    by_cases hc : cond s = true
    · obtain ⟨s', hb, hs', hlt⟩ := h s hs hc
      rw [while_loop_step cond body fuel s s' hc hb]
      exact ih s' hs' (by omega)
    · exact ⟨s, while_loop_of_cond_false cond body _ s (by simpa using hc)⟩

/-! ## Facts about `memcmp` and the repeat scan -/

theorem uint_le (n : Nat) : uint n ≤ n := Nat.mod_le _ _

theorem uint_of_lt {n : Nat} (h : n < 4294967296) : uint n = n := Nat.mod_eq_of_lt h

theorem memcmp_eq_zero_iff (valaddr : Nat → Nat) (n : Nat) :
    ∀ a b, memcmp valaddr a b n = 0 ↔ ∀ k, k < n → valaddr (a + k) = valaddr (b + k) := by
  induction n with
  | zero => intro a b; simp [memcmp]
  | succ n ih =>
    intro a b
    by_cases hab : valaddr a = valaddr b
    · simp only [memcmp, hab, if_true, ih]
      constructor
      · intro h k hk
        cases k with
        | zero => simpa using hab
        | succ k =>
          have := h k (by omega)
          simpa [Nat.add_assoc, Nat.add_comm 1 k] using this
      · intro h k hk
        have := h (k + 1) (by omega)
        simpa [Nat.add_assoc, Nat.add_comm 1 k] using this
    · simp only [memcmp, hab, if_false]
      constructor
      · intro h
        exact absurd (by omega) hab
      · intro h
        exact absurd (by simpa using h 0 (by omega)) hab

theorem elt_eq_iff (valaddr : Nat → Nat) (eltlen i j : Nat) :
    elt valaddr eltlen i = elt valaddr eltlen j ↔
      ∀ k, k < eltlen → valaddr (i * eltlen + k) = valaddr (j * eltlen + k) := by
  unfold elt
  constructor
  · intro h k hk
    have := congrArg (fun l => l[k]?) h
    simpa [List.getElem?_map, List.getElem?_range hk] using this
  · intro h
    apply List.map_congr_left
    intro k hk
    exact h k (List.mem_range.1 hk)

theorem mul_eltlen_lt {type_length eltlen j : Nat} (hL : type_length < 4294967296)
    (hj : j < type_length / eltlen) : j * eltlen < 4294967296 := by
  have h1 : j * eltlen ≤ (type_length / eltlen) * eltlen := Nat.mul_le_mul_right _ (le_of_lt hj)
  have h2 : (type_length / eltlen) * eltlen ≤ type_length := Nat.div_mul_le_self _ _
  omega



theorem same_elt_iff {valaddr : Nat → Nat} {type_length eltlen i j : Nat}
    (hL : type_length < 4294967296) (hi : i < type_length / eltlen)
    (hj : j < type_length / eltlen) :
    same_elt valaddr eltlen i j ↔ elt valaddr eltlen i = elt valaddr eltlen j := by
  unfold same_elt
  rw [uint_of_lt (mul_eltlen_lt hL hi), uint_of_lt (mul_eltlen_lt hL hj),
    memcmp_eq_zero_iff, elt_eq_iff]

/-- The repeat scan ends, and its result `(rep1, reps)` delimits a run of
elements equal to element `i` that cannot be extended. -/
theorem count_reps_spec (valaddr : Nat → Nat) (eltlen len i : Nat) :
    ∃ p, count_reps valaddr eltlen len i = some p ∧ p.1 = i + p.2 ∧ 1 ≤ p.2 ∧
      (i < len → p.1 ≤ len) ∧
      (∀ j, i < j → j < p.1 → same_elt valaddr eltlen i j) ∧
      (p.1 < len → ¬ same_elt valaddr eltlen i p.1) := by
  obtain ⟨p, hp⟩ := while_loop_total
    (fun p : Nat × Nat => decide (p.1 < len) &&
      decide (memcmp valaddr (uint (i * eltlen)) (uint (p.1 * eltlen)) eltlen = 0))
    (fun p => some (p.1 + 1, p.2 + 1)) (fun _ => True) (fun p => len - p.1)
    (by
      intro s _ hc
      simp only [Bool.and_eq_true, decide_eq_true_eq] at hc
      exact ⟨_, rfl, trivial, by simp only; omega⟩)
    len (i + 1, 1) trivial (by simp only; omega)
  have hinv := while_loop_inv
    (fun p : Nat × Nat => decide (p.1 < len) &&
      decide (memcmp valaddr (uint (i * eltlen)) (uint (p.1 * eltlen)) eltlen = 0))
    (fun p => some (p.1 + 1, p.2 + 1))
    (fun p => p.1 = i + p.2 ∧ 1 ≤ p.2 ∧ (i < len → p.1 ≤ len) ∧
      ∀ j, i < j → j < p.1 → same_elt valaddr eltlen i j)
    (by
      intro s s' hs hc hb
      simp only [Bool.and_eq_true, decide_eq_true_eq] at hc
      simp only [Option.some.injEq] at hb
      subst hb
      obtain ⟨h1, h2, h3, h4⟩ := hs
      refine ⟨by simp only; omega, by simp only; omega, fun _ => by simp only; omega, ?_⟩
      intro j hij hj
      simp only at hj
      by_cases hjs : j < s.1
      · exact h4 j hij hjs
      · have : j = s.1 := by omega
        subst this
        exact hc.2)
    len (i + 1, 1) p
    ⟨by simp only, le_refl 1, fun h => by simp only; omega,
      fun j h1 h2 => by simp only at h2; omega⟩ hp
  obtain ⟨⟨h1, h2, h3, h4⟩, hc⟩ := hinv
  refine ⟨p, hp, h1, h2, h3, h4, ?_⟩
  intro hlt hsame
  have : (decide (p.1 < len) &&
      decide (memcmp valaddr (uint (i * eltlen)) (uint (p.1 * eltlen)) eltlen = 0)) = true := by
    simp only [Bool.and_eq_true, decide_eq_true_eq]
    exact ⟨hlt, hsame⟩
  have hc' : (decide (p.1 < len) &&
      decide (memcmp valaddr (uint (i * eltlen)) (uint (p.1 * eltlen)) eltlen = 0)) = false := hc
  rw [this] at hc'
  exact Bool.noConfusion hc'

theorem count_reps_all_same {valaddr : Nat → Nat} {eltlen len i : Nat} (hi : i < len)
    (h : ∀ j, i < j → j < len → same_elt valaddr eltlen i j) :
    count_reps valaddr eltlen len i = some (len, len - i) := by
  obtain ⟨p, hp, h1, _, h3, _, h5⟩ := count_reps_spec valaddr eltlen len i
  have hle := h3 hi
  have hp1 : p.1 = len := by
    by_contra hne
    have hlt : p.1 < len := by omega
    exact h5 hlt (h p.1 (by omega) hlt)
  have hp2 : p.2 = len - i := by omega
  rw [hp]
  congr 1
  exact Prod.ext hp1 hp2

theorem count_reps_next_differs {valaddr : Nat → Nat} {eltlen len i : Nat}
    (h : i + 1 < len → ¬ same_elt valaddr eltlen i (i + 1)) :
    count_reps valaddr eltlen len i = some (i + 1, 1) := by
  obtain ⟨p, hp, h1, h2, h3, h4, _⟩ := count_reps_spec valaddr eltlen len i
  have hp2 : p.2 = 1 := by
    by_contra hne
    have hgt : i + 1 < p.1 := by omega
    by_cases hlen : i + 1 < len
    · exact h hlen (h4 (i + 1) (by omega) hgt)
    · by_cases hi : i < len
      · have := h3 hi
        omega
      · -- the scan cannot start when `rep1 = i + 1` is not below `len`
        have hc : count_reps valaddr eltlen len i = some (i + 1, 1) := by
          unfold count_reps
          apply while_loop_of_cond_false
          simp only [Bool.and_eq_false_iff, decide_eq_false_iff_not]
          left
          omega
        rw [hc] at hp
        simp only [Option.some.injEq] at hp
        rw [← hp] at hne
        exact hne rfl
  rw [hp]
  have hp1 : p.1 = i + 1 := by omega
  congr 1
  exact Prod.ext hp1 hp2

theorem array_body_individual (G : Policy) {valaddr : Nat → Nat} {eltlen len : Nat}
    (deref_ref recurse : Int) (s : ArrState) {p : Nat × Nat}
    (hp : count_reps valaddr eltlen len s.i = some p)
    (hT : p.2 ≤ G.repeat_count_threshold) (hoff : s.i * eltlen < 4294967296) :
    array_body G valaddr eltlen len deref_ref recurse s =
      some { i := s.i + 1, things_printed := s.things_printed + 1,
             out := s.out ++ element_out G eltlen deref_ref recurse s.i } := by
  unfold array_body
  simp only [hp, Option.some_bind, gt_iff_lt, not_lt.2 hT, if_false, uint_of_lt hoff,
    element_out, List.append_assoc, List.cons_append, List.nil_append]

theorem array_body_repeat (G : Policy) {valaddr : Nat → Nat} {eltlen len : Nat}
    (deref_ref recurse : Int) (s : ArrState) {p : Nat × Nat}
    (hp : count_reps valaddr eltlen len s.i = some p)
    (hT : G.repeat_count_threshold < p.2) (hp1 : 1 ≤ p.1) :
    array_body G valaddr eltlen len deref_ref recurse s =
      some { i := p.1, things_printed := uint (s.things_printed + G.repeat_count_threshold),
             out := s.out ++ separator G recurse s.i ++ [Out.wrap_here (2 + 2 * recurse)] ++
               [Out.val_print (uint (s.i * eltlen)) 0 deref_ref (recurse + 1),
                Out.repeats p.2 true] } := by
  unfold array_body
  simp only [hp, Option.some_bind, gt_iff_lt, hT, if_true, Nat.sub_add_cancel hp1]


theorem individual_out_succ (G : Policy) (eltlen : Nat) (deref_ref recurse : Int)
    (first count : Nat) :
    individual_out G eltlen deref_ref recurse first (count + 1) =
      element_out G eltlen deref_ref recurse first ++
        individual_out G eltlen deref_ref recurse (first + 1) count := by
  simp [individual_out, List.range'_succ]

/-- A stretch of `n` indices at which no run exceeds the threshold, within the
budget, is printed element by element. -/
theorem array_loop_individual (G : Policy) (valaddr : Nat → Nat) (eltlen len : Nat)
    (deref_ref recurse : Int) (n : Nat) :
    ∀ (fuel a t : Nat) (out : List Out),
      a + n ≤ len → t + n ≤ G.print_max →
      (∀ j, j < len → j * eltlen < 4294967296) →
      (∀ j, a ≤ j → j < a + n → ∃ p, count_reps valaddr eltlen len j = some p ∧
        p.2 ≤ G.repeat_count_threshold) →
      while_loop (array_cond G len) (array_body G valaddr eltlen len deref_ref recurse)
          (fuel + n) { i := a, things_printed := t, out := out } =
        while_loop (array_cond G len) (array_body G valaddr eltlen len deref_ref recurse)
          fuel { i := a + n, things_printed := t + n,
                 out := out ++ individual_out G eltlen deref_ref recurse a n } := by
  induction n with
  | zero =>
    intro fuel a t out _ _ _ _
    simp [individual_out]
  | succ n ih =>
    intro fuel a t out hlen hbud hoff hreps
    obtain ⟨p, hp, hpT⟩ := hreps a (le_refl a) (by omega)
    have hbody := array_body_individual G deref_ref recurse
      { i := a, things_printed := t, out := out } hp hpT (hoff a (by omega))
    have hcond : array_cond G len { i := a, things_printed := t, out := out } = true := by
      simp only [array_cond, Bool.and_eq_true, decide_eq_true_eq]
      omega
    rw [show fuel + (n + 1) = (fuel + n) + 1 by omega,
      while_loop_step _ _ _ _ _ hcond hbody,
      ih fuel (a + 1) (t + 1) _ (by omega) (by omega) hoff
        (fun j hj1 hj2 => hreps j (by omega) (by omega)),
      individual_out_succ, List.append_assoc]
    have e1 : a + 1 + n = a + (n + 1) := by omega
    have e2 : t + 1 + n = t + (n + 1) := by omega
    rw [e1, e2]

theorem individual_out_plain (G : Policy) (eltlen : Nat) (deref_ref recurse : Int) (n : Nat)
    (hpretty : G.prettyprint_arrays = false) :
    individual_out G eltlen deref_ref recurse 0 n =
      ((List.range n).map fun j =>
        (if j ≠ 0 then [Out.text ", "] else []) ++
          [Out.wrap_here (2 + 2 * recurse),
           Out.val_print (j * eltlen) 0 deref_ref (recurse + 1)]).flatten := by
  unfold individual_out
  rw [List.range_eq_range']
  congr 1
  apply List.map_congr_left
  intro j _
  simp [element_out, separator, hpretty]

theorem text_not_mem_element_out (G : Policy) (eltlen : Nat) (deref_ref recurse : Int)
    (j : Nat) : Out.text "..." ∉ element_out G eltlen deref_ref recurse j := by
  unfold element_out separator
  by_cases hj : j ≠ 0 <;> by_cases hp : G.prettyprint_arrays = true <;>
    simp [hj, hp]


/-! ## Claims about `val_print_array_elements` -/

/-- C1: for an element length of at least 1, an array of `N` byte-identical
elements with `N` above the repeat threshold `T`, and a print budget of at
least 1, `val_print_array_elements` started at index 0 writes the rendering
of element 0 followed by `" <repeats N times>"` and nothing else (no
separator, no ellipsis), and `things_printed` ends at `T`. -/
theorem val_print_array_elements_uniform_run (G : Policy) (type_length eltlen : Nat)
    (valaddr : Nat → Nat) (deref_ref recurse : Int)
    (he : 1 ≤ eltlen) (hL : type_length < 4294967296)
    (hT : G.repeat_count_threshold < type_length / eltlen)
    (hB : 1 ≤ G.print_max)
    (hsame : ∀ j, j < type_length / eltlen → elt valaddr eltlen j = elt valaddr eltlen 0) :
    val_print_array_elements G type_length eltlen valaddr deref_ref recurse 0 =
      some { i := type_length / eltlen,
             things_printed := G.repeat_count_threshold,
             out := [Out.wrap_here (2 + 2 * recurse),
                     Out.val_print 0 0 deref_ref (recurse + 1),
                     Out.repeats (type_length / eltlen) true] } := by
  have hN : 0 < type_length / eltlen := by omega
  have hNle : type_length / eltlen ≤ type_length := Nat.div_le_self _ _
  have hreps : count_reps valaddr eltlen (type_length / eltlen) 0 =
      some (type_length / eltlen, type_length / eltlen - 0) :=
    count_reps_all_same hN (fun j _ hj => (same_elt_iff hL hN hj).2 (hsame j hj).symm)
  have hbody := array_body_repeat G deref_ref recurse
    { i := 0, things_printed := 0, out := [] } hreps (by simpa using hT)
    (by simpa using hN)
  have hcond : array_cond G (type_length / eltlen)
      { i := 0, things_printed := 0, out := [] } = true := by
    simp only [array_cond, Bool.and_eq_true, decide_eq_true_eq]
    omega
  unfold val_print_array_elements
  simp only
  obtain ⟨m, hm⟩ : ∃ m, type_length / eltlen = m + 1 := ⟨type_length / eltlen - 1, by omega⟩
  conv =>
    lhs
    arg 2
    arg 3
    rw [hm]
  rw [while_loop_step _ _ _ _ _ hcond hbody, while_loop_of_cond_false]
  · have hu : uint G.repeat_count_threshold = G.repeat_count_threshold :=
      uint_of_lt (by omega)
    have hz : uint 0 = 0 := rfl
    simp [separator, hz, hu]
  · simp [array_cond]

/-- Witness for C1: five identical two-byte elements, threshold 3, budget 200. -/
theorem val_print_array_elements_uniform_run_witness :
    val_print_array_elements ⟨200, 3, false, true⟩ 10 2 (fun k => 7 + k % 2) 1 0 0 =
      some { i := 5, things_printed := 3,
             out := [Out.wrap_here 2, Out.val_print 0 0 1 1, Out.repeats 5 true] } :=
  val_print_array_elements_uniform_run ⟨200, 3, false, true⟩ 10 2 (fun k => 7 + k % 2) 1 0
    (by decide) (by decide) (by decide) (by decide) (by decide)


/-- When every index up to `n` is printed individually and the loop then
stops at index `n`, the whole call yields the `n` individual renderings,
followed by the ellipsis when `n` is below the element count. -/
theorem val_print_array_elements_individual (G : Policy) {type_length eltlen : Nat}
    (valaddr : Nat → Nat) (deref_ref recurse : Int) (n : Nat)
    (hL : type_length < 4294967296) (hn : n ≤ type_length / eltlen)
    (hbud : n ≤ G.print_max) (hstop : n = type_length / eltlen ∨ n = G.print_max)
    (hreps : ∀ j, j < n → ∃ p, count_reps valaddr eltlen (type_length / eltlen) j = some p ∧
      p.2 ≤ G.repeat_count_threshold) :
    val_print_array_elements G type_length eltlen valaddr deref_ref recurse 0 =
      some { i := n, things_printed := n,
             out := individual_out G eltlen deref_ref recurse 0 n ++
               (if n < type_length / eltlen then [Out.text "..."] else []) } := by
  unfold val_print_array_elements
  simp only
  have hfuel : type_length / eltlen = (type_length / eltlen - n) + n := by omega
  have hrun := array_loop_individual G valaddr eltlen (type_length / eltlen)
    deref_ref recurse n
    (type_length / eltlen - n) 0 0 [] (by omega) (by omega)
    (fun j hj => mul_eltlen_lt hL hj) (fun j _ hj => hreps j (by omega))
  rw [← hfuel] at hrun
  rw [hrun, while_loop_of_cond_false]
  · by_cases hlt : n < type_length / eltlen <;> simp [hlt]
  · simp only [array_cond, Bool.and_eq_false_iff, decide_eq_false_iff_not]
    omega

/-- C2: for an array of `N` elements with `N` at most the repeat threshold and
at most the print budget, and array pretty-printing off,
`val_print_array_elements` started at index 0 writes the `N` elements one by
one in index order, each but the first preceded by `", "`, with no
`<repeats ... times>` annotation and no ellipsis, whatever the bytes are. -/
theorem val_print_array_elements_below_threshold (G : Policy) (type_length eltlen : Nat)
    (valaddr : Nat → Nat) (deref_ref recurse : Int)
    (he : 1 ≤ eltlen) (hL : type_length < 4294967296)
    (hT : type_length / eltlen ≤ G.repeat_count_threshold)
    (hB : type_length / eltlen ≤ G.print_max)
    (hpretty : G.prettyprint_arrays = false) :
    val_print_array_elements G type_length eltlen valaddr deref_ref recurse 0 =
      some { i := type_length / eltlen, things_printed := type_length / eltlen,
             out := ((List.range (type_length / eltlen)).map fun j =>
               (if j ≠ 0 then [Out.text ", "] else []) ++
                 [Out.wrap_here (2 + 2 * recurse),
                  Out.val_print (j * eltlen) 0 deref_ref (recurse + 1)]).flatten } := by
  have h := val_print_array_elements_individual G valaddr
    deref_ref recurse (type_length / eltlen) hL (le_refl _) hB
    (Or.inl rfl) (by
      intro j hj
      obtain ⟨p, hp, h1, _, h3, _, _⟩ :=
        count_reps_spec valaddr eltlen (type_length / eltlen) j
      have := h3 hj
      exact ⟨p, hp, by omega⟩)
  rw [h, individual_out_plain G eltlen deref_ref recurse _ hpretty]
  simp

/-- Witness for C2: three identical one-byte elements, threshold 10, budget 200. -/
theorem val_print_array_elements_below_threshold_witness :
    val_print_array_elements ⟨200, 10, false, true⟩ 3 1 (fun _ => 65) 1 0 0 =
      some { i := 3, things_printed := 3,
             out := ((List.range 3).map fun j =>
               (if j ≠ 0 then [Out.text ", "] else []) ++
                 [Out.wrap_here (2 + 2 * 0),
                  Out.val_print (j * 1) 0 1 (0 + 1)]).flatten } :=
  val_print_array_elements_below_threshold ⟨200, 10, false, true⟩ 3 1 (fun _ => 65) 1 0
    (by decide) (by decide) (by decide) (by decide) rfl

/-- Adjacent elements that differ give a run of length 1 at every index. -/
theorem count_reps_of_adjacent_ne {valaddr : Nat → Nat} {type_length eltlen : Nat}
    (hL : type_length < 4294967296)
    (hadj : ∀ j, j + 1 < type_length / eltlen →
      elt valaddr eltlen j ≠ elt valaddr eltlen (j + 1)) (j : Nat) :
    count_reps valaddr eltlen (type_length / eltlen) j = some (j + 1, 1) :=
  count_reps_next_differs (fun hj hs =>
    hadj j hj ((same_elt_iff hL (by omega) hj).1 hs))

/-- C3: for a print budget `B` of at least 1, an array of more than `B`
elements in which no two adjacent elements are byte-identical, and a repeat
threshold of at least 1, `val_print_array_elements` started at index 0
renders exactly the first `B` elements, in order, and then writes `"..."`. -/
theorem val_print_array_elements_budget_exhausted (G : Policy) (type_length eltlen : Nat)
    (valaddr : Nat → Nat) (deref_ref recurse : Int)
    (he : 1 ≤ eltlen) (hL : type_length < 4294967296)
    (hT : 1 ≤ G.repeat_count_threshold) (hB : 1 ≤ G.print_max)
    (hN : G.print_max < type_length / eltlen)
    (hadj : ∀ j, j + 1 < type_length / eltlen →
      elt valaddr eltlen j ≠ elt valaddr eltlen (j + 1)) :
    val_print_array_elements G type_length eltlen valaddr deref_ref recurse 0 =
      some { i := G.print_max, things_printed := G.print_max,
             out := ((List.range G.print_max).map
               (element_out G eltlen deref_ref recurse)).flatten ++ [Out.text "..."] } := by
  have h := val_print_array_elements_individual G valaddr
    deref_ref recurse G.print_max hL (le_of_lt hN) (le_refl _)
    (Or.inr rfl) (fun j _ => ⟨_, count_reps_of_adjacent_ne hL hadj j, hT⟩)
  rw [h]
  simp [hN, individual_out, List.range_eq_range']

/-- Witness for C3: budget 5 and ten distinct one-byte elements. -/
theorem val_print_array_elements_budget_exhausted_witness :
    val_print_array_elements ⟨5, 10, false, true⟩ 10 1 (fun k => k) 1 0 0 =
      some { i := 5, things_printed := 5,
             out := ((List.range 5).map
               (element_out ⟨5, 10, false, true⟩ 1 1 0)).flatten ++ [Out.text "..."] } :=
  val_print_array_elements_budget_exhausted ⟨5, 10, false, true⟩ 10 1 (fun k => k) 1 0
    (by decide) (by decide) (by decide) (by decide) (by decide)
    (by intro j _; simp [elt])


/-- One iteration of the array loop, at an index below `len`: the index grows,
stays within `len`, the budget charged stays within the index, and no
ellipsis is written. -/
theorem array_body_progress (G : Policy) (valaddr : Nat → Nat) (eltlen len : Nat)
    (deref_ref recurse : Int) (s : ArrState) (hi : s.i < len)
    (htp : s.things_printed ≤ s.i) (hout : Out.text "..." ∉ s.out) :
    ∃ s', array_body G valaddr eltlen len deref_ref recurse s = some s' ∧
      s.i < s'.i ∧ s'.i ≤ len ∧ s'.things_printed ≤ s'.i ∧ Out.text "..." ∉ s'.out := by
  obtain ⟨p, hp, h1, h2, h3, _, _⟩ := count_reps_spec valaddr eltlen len s.i
  have hle := h3 hi
  have hsep : Out.text "..." ∉ separator G recurse s.i := by
    unfold separator
    by_cases hj : s.i ≠ 0 <;> by_cases hpp : G.prettyprint_arrays = true <;> simp [hj, hpp]
  by_cases hT : G.repeat_count_threshold < p.2
  · refine ⟨_, array_body_repeat G deref_ref recurse s hp hT (by omega), by simp only; omega, by simp only; omega,
      ?_, ?_⟩
    · have := uint_le (s.things_printed + G.repeat_count_threshold)
      simp only
      omega
    · simp [hout, hsep]
  · refine ⟨{ i := s.i + 1, things_printed := s.things_printed + 1,
              out := s.out ++ separator G recurse s.i ++ [Out.wrap_here (2 + 2 * recurse)] ++
                [Out.val_print (uint (s.i * eltlen)) 0 deref_ref (recurse + 1)] }, ?_,
      by simp only; omega, by simp only; omega, by simp only; omega, ?_⟩
    · unfold array_body
      simp only [hp, Option.some_bind, gt_iff_lt, hT, if_false]
    · simp [hout, hsep]

/-- C4: with a print budget of at least the element count `N` (in particular
`UINT_MAX`, the stored form of "unlimited"), `val_print_array_elements`
started at index 0 ends with its index at `N`, having charged no more budget
than the number of elements covered, and writes no ellipsis, for every
content and threshold; when moreover no two adjacent elements are
byte-identical and the threshold is at least 1, all `N` elements are rendered
individually, in order. -/
theorem val_print_array_elements_within_budget (G : Policy) (type_length eltlen : Nat)
    (valaddr : Nat → Nat) (deref_ref recurse : Int)
    (he : 1 ≤ eltlen) (hB : type_length / eltlen ≤ G.print_max) :
    (∃ r, val_print_array_elements G type_length eltlen valaddr deref_ref recurse 0 = some r ∧
      r.i = type_length / eltlen ∧ r.things_printed ≤ r.i ∧ Out.text "..." ∉ r.out) ∧
    (type_length < 4294967296 → 1 ≤ G.repeat_count_threshold →
      (∀ j, j + 1 < type_length / eltlen →
        elt valaddr eltlen j ≠ elt valaddr eltlen (j + 1)) →
      val_print_array_elements G type_length eltlen valaddr deref_ref recurse 0 =
        some { i := type_length / eltlen, things_printed := type_length / eltlen,
               out := ((List.range (type_length / eltlen)).map
                 (element_out G eltlen deref_ref recurse)).flatten }) := by
  constructor
  · obtain ⟨r, hr⟩ := while_loop_total (array_cond G (type_length / eltlen))
      (array_body G valaddr eltlen (type_length / eltlen) deref_ref recurse)
      (fun s => s.things_printed ≤ s.i ∧ Out.text "..." ∉ s.out)
      (fun s => type_length / eltlen - s.i)
      (by
        intro s hs hc
        simp only [array_cond, Bool.and_eq_true, decide_eq_true_eq] at hc
        obtain ⟨s', hb, h1, h2, h3, h4⟩ := array_body_progress G valaddr eltlen
          (type_length / eltlen) deref_ref recurse s hc.1 hs.1 hs.2
        exact ⟨s', hb, ⟨h3, h4⟩, by simp only; omega⟩)
      (type_length / eltlen) { i := 0, things_printed := 0, out := [] }
      ⟨le_refl 0, by simp⟩ (by simp)
    obtain ⟨⟨h1, h2, h3⟩, hc⟩ := while_loop_inv (array_cond G (type_length / eltlen))
      (array_body G valaddr eltlen (type_length / eltlen) deref_ref recurse)
      (fun s => s.things_printed ≤ s.i ∧ s.i ≤ type_length / eltlen ∧ Out.text "..." ∉ s.out)
      (by
        intro s s' hs hc hb
        simp only [array_cond, Bool.and_eq_true, decide_eq_true_eq] at hc
        obtain ⟨s'', hb', _, h2, h3, h4⟩ := array_body_progress G valaddr eltlen
          (type_length / eltlen) deref_ref recurse s hc.1 hs.1 hs.2.2
        rw [hb] at hb'
        simp only [Option.some.injEq] at hb'
        subst hb'
        exact ⟨h3, h2, h4⟩)
      (type_length / eltlen) { i := 0, things_printed := 0, out := [] } r
      ⟨le_refl 0, Nat.zero_le _, by simp⟩ hr
    simp only [array_cond, Bool.and_eq_false_iff, decide_eq_false_iff_not] at hc
    have hi : r.i = type_length / eltlen := by omega
    refine ⟨r, ?_, hi, h1, h3⟩
    unfold val_print_array_elements
    simp only [hr, Option.map_some', hi, lt_irrefl, if_false]
  · intro hL hT hadj
    have h := val_print_array_elements_individual G valaddr
      deref_ref recurse (type_length / eltlen) hL (le_refl _) hB
      (Or.inl rfl) (fun j _ => ⟨_, count_reps_of_adjacent_ne hL hadj j, hT⟩)
    rw [h]
    simp [individual_out, List.range_eq_range']

/-- Witness for C4: 10,000 one-byte elements with no two adjacent ones equal,
under the budget `UINT_MAX`. -/
theorem val_print_array_elements_within_budget_witness :
    (∃ r, val_print_array_elements ⟨UINT_MAX, 10, false, true⟩ 10000 1 (fun k => k % 2) 1 0 0 =
        some r ∧
      r.i = 10000 / 1 ∧ r.things_printed ≤ r.i ∧ Out.text "..." ∉ r.out) ∧
    val_print_array_elements ⟨UINT_MAX, 10, false, true⟩ 10000 1 (fun k => k % 2) 1 0 0 =
      some { i := 10000 / 1, things_printed := 10000 / 1,
             out := ((List.range (10000 / 1)).map
               (element_out ⟨UINT_MAX, 10, false, true⟩ 1 1 0)).flatten } :=
  have h := val_print_array_elements_within_budget ⟨UINT_MAX, 10, false, true⟩ 10000 1
    (fun k => k % 2) 1 0 (by decide) (by decide)
  ⟨h.1, h.2 (by decide) (by decide) (by
    intro j _ hj
    have h0 := (elt_eq_iff (fun k => k % 2) 1 j (j + 1)).1 hj 0 (by decide)
    simp only at h0
    omega)⟩


/-! ## Facts about the fetch loop of `val_print_string` -/

theorem do_while_exit {σ : Type} (body : σ → Option σ) (cond : σ → Bool) (fuel : Nat)
    (s s' : σ) (hb : body s = some s') (hc : cond s' = false) :
    do_while body cond fuel s = some s' := by
  unfold do_while
  rw [hb, Option.some_bind, while_loop_of_cond_false _ _ _ _ hc]

theorem do_while_continue {σ : Type} (body : σ → Option σ) (cond : σ → Bool) (fuel : Nat)
    (s s' : σ) (hb : body s = some s') (hc : cond s' = true) :
    do_while body cond (fuel + 1) s = do_while body cond fuel s' := by
  unfold do_while
  rw [hb, Option.some_bind]
  simp only [while_loop, hc, if_true]

/-- The scan stops after `j + 1` steps when the continuation test holds after
each of the first `j` steps and fails after step `j + 1`. -/
theorem scan_chunk_eq (buffer : Nat → Nat) (limit fuel addr bufptr j : Nat) (hfuel : j ≤ fuel)
    (hbefore : ∀ u, u < j → bufptr + u + 1 < limit ∧ buffer (bufptr + u) ≠ 0)
    (hstop : ¬ (bufptr + j + 1 < limit ∧ buffer (bufptr + j) ≠ 0)) :
    scan_chunk buffer limit fuel addr bufptr = some (addr + j + 1, bufptr + j + 1) := by
  have key : ∀ d t fuel, d ≤ fuel → t + d = j →
      while_loop (fun p : Nat × Nat => decide (p.2 < limit) && decide (buffer (p.2 - 1) ≠ 0))
        (fun p => some (p.1 + 1, p.2 + 1)) fuel (addr + t + 1, bufptr + t + 1) =
      some (addr + j + 1, bufptr + j + 1) := by
    intro d
    induction d with
    | zero =>
      intro t fuel _ ht
      have ht' : t = j := by omega
      subst ht'
      apply while_loop_of_cond_false
      simp only [Nat.add_sub_cancel, Bool.and_eq_false_iff, decide_eq_false_iff_not]
      by_cases h1 : bufptr + t + 1 < limit
      · right
        exact fun h2 => hstop ⟨h1, h2⟩
      · left
        exact h1
    | succ d ih =>
      intro t fuel hf ht
      obtain ⟨fuel', rfl⟩ : ∃ fuel', fuel = fuel' + 1 := ⟨fuel - 1, by omega⟩
      have hc := hbefore t (by omega)
      rw [while_loop_step
        (fun p : Nat × Nat => decide (p.2 < limit) && decide (buffer (p.2 - 1) ≠ 0))
        (fun p => some (p.1 + 1, p.2 + 1)) fuel' (addr + t + 1, bufptr + t + 1)
        (addr + (t + 1) + 1, bufptr + (t + 1) + 1)
        (by simp only [Nat.add_sub_cancel, Bool.and_eq_true, decide_eq_true_eq]; exact hc) rfl]
      exact ih (t + 1) fuel' (by omega) (by omega)
  unfold scan_chunk do_while
  rw [Option.some_bind]
  exact key j 0 fuel hfuel (by omega)

/-- The scan of a chunk of `n` delivered bytes always ends, after at least one
and at most `max n 1` steps. -/
theorem scan_chunk_total (buffer : Nat → Nat) (n addr bufptr : Nat) :
    ∃ j, (j + 1 ≤ n ∨ j = 0) ∧
      scan_chunk buffer (bufptr + n) n addr bufptr = some (addr + j + 1, bufptr + j + 1) := by
  have hex : ∃ j, ¬ (bufptr + j + 1 < bufptr + n ∧ buffer (bufptr + j) ≠ 0) :=
    ⟨n, fun h => by omega⟩
  classical
  refine ⟨Nat.find hex, ?_, ?_⟩
  · by_cases hn : n = 0
    · right
      have : Nat.find hex ≤ 0 := Nat.find_min' hex (fun h => by omega)
      omega
    · left
      have : Nat.find hex ≤ n - 1 := Nat.find_min' hex (fun h => by omega)
      omega
  · apply scan_chunk_eq
    · exact Nat.find_min' hex (fun h => by omega)
    · intro u hu
      have := Nat.find_min hex hu
      exact not_not.1 this
    · exact Nat.find_spec hex


theorem fetch_bufptr_start (s : FetchState) (n : Nat)
    (hI : s.allocated = false → s.bufsize = 0) :
    (if s.allocated = true then s.bufsize + n - n else 0) = s.bufsize := by
  cases ha : s.allocated
  · simp [hI ha]
  · simp

/-- One iteration of the fetch loop in fixed-length mode. -/
theorem fetch_body_fixed (T : Target) (len fetchlimit chunksize : Nat) (s : FetchState)
    (hI : s.allocated = false → s.bufsize = 0) (hlen : len ≠ 0) :
    fetch_body T len fetchlimit chunksize s =
      some { addr := s.addr + (fetched T fetchlimit chunksize s).length,
             buffer := store s.buffer s.bufsize (fetched T fetchlimit chunksize s),
             allocated := true,
             bufsize := s.bufsize + fetch_size fetchlimit chunksize s,
             bufptr := s.bufsize + (fetched T fetchlimit chunksize s).length,
             nfetch := (fetched T fetchlimit chunksize s).length,
             errcode := (T.partial_read s.addr (fetch_size fetchlimit chunksize s)).2,
             reads := s.reads + 1 } := by
  simp only [fetch_body, fetch_bufptr_start s _ hI, hlen, ne_eq, not_false_eq_true, if_true,
    fetched, fetch_size]

/-- One iteration of the fetch loop in terminator-search mode, given the
result `p` of the scan of the delivered bytes. -/
theorem fetch_body_search (T : Target) (fetchlimit chunksize : Nat) (s : FetchState)
    (hI : s.allocated = false → s.bufsize = 0) (p : Nat × Nat)
    (hp : scan_chunk (store s.buffer s.bufsize (fetched T fetchlimit chunksize s))
      (s.bufsize + (fetched T fetchlimit chunksize s).length)
      (fetched T fetchlimit chunksize s).length s.addr s.bufsize = some p) :
    fetch_body T 0 fetchlimit chunksize s =
      some { addr := p.1,
             buffer := store s.buffer s.bufsize (fetched T fetchlimit chunksize s),
             allocated := true,
             bufsize := s.bufsize + fetch_size fetchlimit chunksize s,
             bufptr := p.2,
             nfetch := (fetched T fetchlimit chunksize s).length,
             errcode := (T.partial_read s.addr (fetch_size fetchlimit chunksize s)).2,
             reads := s.reads + 1 } := by
  simp only [fetched, fetch_size] at hp
  simp only [fetch_body, fetch_bufptr_start s _ hI, ne_eq, not_true_eq_false, if_false, hp,
    Option.map_some', fetched, fetch_size]

/-- One iteration of the fetch loop always completes: the buffer grows by the
size of the fetch and stays within `fetchlimit`, the cursor does not move
below the old end of the buffer, and in fixed-length mode it stays within the
new one. -/
theorem fetch_body_spec (T : Target) (len fetchlimit chunksize : Nat) (s : FetchState)
    (hI : s.allocated = false → s.bufsize = 0) :
    ∃ s', fetch_body T len fetchlimit chunksize s = some s' ∧
      s'.bufsize = s.bufsize + min chunksize (fetchlimit - s.bufsize) ∧
      s'.allocated = true ∧ s.bufsize ≤ s'.bufptr ∧
      (len ≠ 0 → s'.bufptr ≤ s'.bufsize) ∧ s'.reads = s.reads + 1 := by
  by_cases hlen : len = 0
  · subst hlen
    obtain ⟨j, _, hj⟩ := scan_chunk_total
      (store s.buffer s.bufsize (fetched T fetchlimit chunksize s))
      (fetched T fetchlimit chunksize s).length s.addr s.bufsize
    refine ⟨_, fetch_body_search T fetchlimit chunksize s hI _ hj, rfl, rfl, ?_,
      fun h => absurd rfl h, rfl⟩
    simp only
    omega
  · refine ⟨_, fetch_body_fixed T len fetchlimit chunksize s hI hlen, rfl, rfl,
      by simp only; omega, fun _ => ?_, rfl⟩
    have := List.length_take_le (fetch_size fetchlimit chunksize s)
      (T.partial_read s.addr (fetch_size fetchlimit chunksize s)).1
    simp only [fetched]
    omega

/-- When the loop condition holds, the error code is zero, the cursor is
below the fetch ceiling and, in terminator-search mode, the byte before the
cursor is not zero. -/
theorem fetch_cond_offsets {H : Heap} {len fetchlimit : Nat} {s : FetchState}
    (h : fetch_cond H len fetchlimit s = true) :
    s.errcode = 0 ∧ s.bufptr < fetchlimit ∧ ¬ (len = 0 ∧ s.buffer (s.bufptr - 1) = 0) := by
  simp only [fetch_cond, Bool.and_eq_true, decide_eq_true_eq, Bool.not_eq_true',
    Bool.and_eq_false_iff, decide_eq_false_iff_not] at h
  obtain ⟨⟨h1, h2⟩, h3⟩ := h
  have hmod := Nat.mod_le (H.buffer_address s.reads + fetchlimit) (2 ^ H.pointer_bits)
  refine ⟨h1, by omega, ?_⟩
  rintro ⟨h4, h5⟩
  rcases h3 with h3 | h3
  · exact h3 h4
  · exact h3 h5

theorem fetch_cond_bufptr {H : Heap} {len fetchlimit : Nat} {s : FetchState}
    (h : fetch_cond H len fetchlimit s = true) : s.bufptr < fetchlimit :=
  (fetch_cond_offsets h).2.1

/-- The loop ends on an error code, when the cursor has reached the fetch
ceiling, and in terminator-search mode after a zero byte, whatever the
addresses are. -/
theorem fetch_cond_eq_false (H : Heap) {len fetchlimit : Nat} {s : FetchState}
    (h : s.errcode ≠ 0 ∨ fetchlimit ≤ s.bufptr ∨ (len = 0 ∧ s.buffer (s.bufptr - 1) = 0)) :
    fetch_cond H len fetchlimit s = false := by
  cases hc : fetch_cond H len fetchlimit s with
  | false => rfl
  | true =>
    obtain ⟨h1, h2, h3⟩ := fetch_cond_offsets hc
    rcases h with h | h | h
    · exact absurd h1 h
    · omega
    · exact absurd h h3

/-- The loop goes on when there is no error, the cursor is below the fetch
ceiling, no terminator was found and the sum `buffer + fetchlimit` does not
leave the range of a pointer. -/
theorem fetch_cond_eq_true (H : Heap) {len fetchlimit : Nat} {s : FetchState}
    (hno : H.buffer_address s.reads + fetchlimit < 2 ^ H.pointer_bits)
    (he : s.errcode = 0) (hlt : s.bufptr < fetchlimit)
    (hb : ¬ (len = 0 ∧ s.buffer (s.bufptr - 1) = 0)) :
    fetch_cond H len fetchlimit s = true := by
  simp only [fetch_cond, Bool.and_eq_true, decide_eq_true_eq, Bool.not_eq_true',
    Bool.and_eq_false_iff, decide_eq_false_iff_not, Nat.mod_eq_of_lt hno]
  refine ⟨⟨he, by omega⟩, ?_⟩
  by_cases h0 : len = 0
  · exact Or.inr (fun h => hb ⟨h0, h⟩)
  · exact Or.inl h0

/-- The fetch loop ends within `fetchlimit + 1` further iterations, whatever
the read primitive delivers; when it ends the buffer size is within
`fetchlimit` and, in fixed-length mode, the cursor is within the buffer. -/
theorem fetch_loop_total (T : Target) (H : Heap) (len fetchlimit chunksize : Nat)
    (hc : chunksize = 0 → fetchlimit = 0) (s0 : FetchState)
    (h0 : s0.allocated = false → s0.bufsize = 0) (hle : s0.bufsize ≤ fetchlimit) :
    ∃ s, do_while (fetch_body T len fetchlimit chunksize) (fetch_cond H len fetchlimit)
        (fetchlimit + 1) s0 = some s ∧
      s.bufsize ≤ fetchlimit ∧ (len ≠ 0 → s.bufptr ≤ s.bufsize) ∧
      fetch_cond H len fetchlimit s = false := by
  obtain ⟨s1, hb1, hsz1, hal1, _, hfix1, _⟩ :=
    fetch_body_spec T len fetchlimit chunksize s0 h0
  have hsz1' : s1.bufsize ≤ fetchlimit := by
    rw [hsz1]
    omega
  obtain ⟨s, hs⟩ := while_loop_total (fetch_cond H len fetchlimit)
    (fetch_body T len fetchlimit chunksize)
    (fun s => s.bufsize ≤ fetchlimit ∧ s.allocated = true)
    (fun s => if fetch_cond H len fetchlimit s = true then fetchlimit - s.bufsize + 1 else 0)
    (by
      intro s hI hcond
      obtain ⟨s', hb, hsz, hal, hptr, _, _⟩ :=
        fetch_body_spec T len fetchlimit chunksize s (fun h => by simp [hI.2] at h)
      refine ⟨s', hb, ⟨by rw [hsz]; omega, hal⟩, ?_⟩
      simp only [hcond, if_true]
      by_cases hc' : fetch_cond H len fetchlimit s' = true
      · have hlt := fetch_cond_bufptr hc'
        rw [if_pos hc']
        have hcs : chunksize ≠ 0 := fun h => by
          have := hc h
          omega
        rw [hsz]
        omega
      · rw [if_neg hc']
        omega)
    (fetchlimit + 1) s1 ⟨hsz1', hal1⟩ (by
      simp only
      split <;> omega)
  obtain ⟨⟨h1, _, h3⟩, hcf⟩ := while_loop_inv (fetch_cond H len fetchlimit)
    (fetch_body T len fetchlimit chunksize)
    (fun s => s.bufsize ≤ fetchlimit ∧ s.allocated = true ∧ (len ≠ 0 → s.bufptr ≤ s.bufsize))
    (by
      intro s s' hI _ hb
      obtain ⟨s'', hb', hsz, hal, _, hfix, _⟩ :=
        fetch_body_spec T len fetchlimit chunksize s (fun h => by simp [hI.2.1] at h)
      rw [hb] at hb'
      simp only [Option.some.injEq] at hb'
      subst hb'
      exact ⟨by rw [hsz]; omega, hal, hfix⟩)
    (fetchlimit + 1) s1 s ⟨hsz1', hal1, hfix1⟩ hs
  refine ⟨s, ?_, h1, h3, hcf⟩
  unfold do_while
  rw [hb1, Option.some_bind, hs]

theorem chunksize_eq_zero (G : Policy) (len : Nat) (h : chunksize G len = 0) :
    fetchlimit G len = 0 := by
  unfold chunksize at h
  by_cases hl : len = 0
  · rw [if_pos hl] at h
    unfold PRINT_MAX_DEFAULT at h
    rw [Nat.min_def] at h
    split at h <;> omega
  · rw [if_neg hl] at h
    exact h

/-- The function `val_print_string` always produces a result: it is the
outcome `finish_string` of a state in which the fetch loop ended. -/
theorem val_print_string_total (T : Target) (H : Heap) (G : Policy) (junk : Nat → Nat) (addr len : Nat) :
    ∃ s, val_print_string T H G junk addr len = some (finish_string T G len s) ∧
      s.bufsize ≤ fetchlimit G len ∧ (len ≠ 0 → s.bufptr ≤ s.bufsize) ∧
      fetch_cond H len (fetchlimit G len) s = false := by
  obtain ⟨s, hs, h1, h2, h3⟩ := fetch_loop_total T H len (fetchlimit G len) (chunksize G len)
    (chunksize_eq_zero G len) (fetch_start junk addr) (fun _ => rfl) (Nat.zero_le _)
  refine ⟨s, ?_, h1, h2, h3⟩
  unfold val_print_string
  rw [hs, Option.map_some']


/-- The three ways `val_print_string` can end, by the final error code and
ellipsis flag. -/
theorem finish_string_cases (T : Target) (G : Policy) (len : Nat) (s : FetchState) :
    (finish_string T G len s).count = s.bufptr ∧
    (finish_string T G len s).errcode = s.errcode ∧
    (finish_string T G len s).addr = s.addr ∧
    (finish_string T G len s).force_ellipsis = force_ellipsis T len s ∧
    (finish_string T G len s).exit =
      (if s.errcode ≠ 0 ∧ s.errcode ≠ EIO ∧ force_ellipsis T len s = true then
        Exit.error s.addr s.errcode else Exit.returned s.bufptr) ∧
    (finish_string T G len s).out =
      printed G ((List.range s.bufptr).map s.buffer) (force_ellipsis T len s) ++
        (if s.errcode = EIO ∧ force_ellipsis T len s = true then [Out.out_of_bounds s.addr]
         else []) := by
  have hE : EIO ≠ 0 := by decide
  unfold finish_string
  by_cases h1 : s.errcode ≠ 0 ∧ force_ellipsis T len s = true
  · by_cases h2 : s.errcode = EIO
    · simp [h1, h2, hE]
    · simp [h1, h2]
  · by_cases h2 : s.errcode = EIO
    · have h3 : force_ellipsis T len s = false := by
        by_contra hne
        exact h1 ⟨by rw [h2]; exact hE, by simpa using hne⟩
      simp [h2, h3]
    · have h3 : ¬ (s.errcode ≠ 0 ∧ s.errcode ≠ EIO ∧ force_ellipsis T len s = true) :=
        fun h => h1 ⟨h.1, h.2.2⟩
      simp only [h1, h2, h3, if_false, false_and, List.append_nil, and_self]

theorem map_range_eq (f : Nat → Nat) (l : List Nat)
    (h : ∀ p, p < l.length → f p = l.getD p 0) : (List.range l.length).map f = l := by
  apply List.ext_getElem
  · simp
  · intro p h1 h2
    simp only [List.getElem_map, List.getElem_range]
    rw [h p h2, List.getD_eq_getElem?_getD, List.getElem?_eq_getElem h2, Option.getD_some]

theorem map_store (buffer : Nat → Nat) (bytes : List Nat) :
    (List.range bytes.length).map (store buffer 0 bytes) = bytes := by
  apply map_range_eq
  intro p hp
  simp [store, hp]

/-- In fixed-length mode, when the first read reports an error or delivers
the whole request, the loop ends after that read. -/
theorem val_print_string_fixed_one_read (T : Target) (H : Heap) (G : Policy) (junk : Nat → Nat)
    (addr len : Nat) (hlen : len ≠ 0)
    (hstop : (T.partial_read addr (fetchlimit G len)).2 ≠ 0 ∨
      fetchlimit G len ≤ (T.partial_read addr (fetchlimit G len)).1.length) :
    val_print_string T H G junk addr len = some (finish_string T G len
      { addr := addr + ((T.partial_read addr (fetchlimit G len)).1.take
          (fetchlimit G len)).length,
        buffer := store junk 0 ((T.partial_read addr (fetchlimit G len)).1.take
          (fetchlimit G len)),
        allocated := true,
        bufsize := fetchlimit G len,
        bufptr := ((T.partial_read addr (fetchlimit G len)).1.take
          (fetchlimit G len)).length,
        nfetch := ((T.partial_read addr (fetchlimit G len)).1.take
          (fetchlimit G len)).length,
        errcode := (T.partial_read addr (fetchlimit G len)).2,
        reads := 1 }) := by
  have hsize : fetch_size (fetchlimit G len) (chunksize G len) (fetch_start junk addr) =
      fetchlimit G len := by
    simp [fetch_size, chunksize, hlen, fetch_start]
  have hb := fetch_body_fixed T len (fetchlimit G len) (chunksize G len)
    (fetch_start junk addr) (fun _ => rfl) hlen
  simp only [fetched, hsize] at hb
  unfold val_print_string
  rw [do_while_exit _ _ _ _ _ hb, Option.map_some']
  · simp [fetch_start]
  · apply fetch_cond_eq_false
    simp only [fetch_start, Nat.zero_add, List.length_take]
    rcases hstop with h | h
    · exact Or.inl h
    · exact Or.inr (Or.inl (by omega))


theorem fetchlimit_fixed (G : Policy) {len : Nat} (hlen : len ≠ 0) :
    fetchlimit G len = min len G.print_max := by
  simp [fetchlimit, hlen]

theorem force_ellipsis_fixed (T : Target) {len : Nat} (hlen : len ≠ 0) (s : FetchState) :
    force_ellipsis T len s = true ↔ (s.errcode ≠ 0 ∨ s.bufptr < len) := by
  simp [force_ellipsis, hlen]

/-- C7: in fixed-length mode (`len > 0`) the result is marked truncated
exactly when the error code is nonzero or the count of bytes in the buffer is
below `len`, which is always so when `len` exceeds the print budget; for a
read primitive that is short only with an error, the count is the number of
bytes the single read delivered and the error code is that read's; and when
`len` is within the budget and the read delivers all `len` bytes, the
function returns `len`, not truncated, and prints exactly the bytes
delivered, embedded zero bytes included. -/
theorem val_print_string_fixed_length (T : Target) (H : Heap) (G : Policy)
    (junk : Nat → Nat) (addr len : Nat) (hlen : 0 < len) :
    (∃ r, val_print_string T H G junk addr len = some r ∧
      (r.force_ellipsis = true ↔ (r.errcode ≠ 0 ∨ r.count < len)) ∧
      (G.print_max < len → r.force_ellipsis = true) ∧
      (short_read_reports_error T →
        r.reads = 1 ∧
        r.errcode = (T.partial_read addr (min len G.print_max)).2 ∧
        r.count = min (min len G.print_max)
          (T.partial_read addr (min len G.print_max)).1.length)) ∧
    (∀ bytes, len ≤ G.print_max → T.partial_read addr len = (bytes, 0) →
      bytes.length = len →
      val_print_string T H G junk addr len =
        some { out := printed G bytes false, exit := Exit.returned len, count := len,
               force_ellipsis := false, errcode := 0, addr := addr + len, reads := 1 }) := by
  have hne : len ≠ 0 := by omega
  have hF := fetchlimit_fixed G hne
  constructor
  · obtain ⟨s, hs, hsz, hptr, _⟩ := val_print_string_total T H G junk addr len
    obtain ⟨h1, h2, _, h4, _, _⟩ := finish_string_cases T G len s
    have hcount : s.bufptr ≤ min len G.print_max := by
      have := hptr hne
      omega
    refine ⟨finish_string T G len s, hs, ?_, ?_, ?_⟩
    · rw [h1, h2, h4]
      exact force_ellipsis_fixed T hne s
    · intro hlt
      rw [h4]
      exact (force_ellipsis_fixed T hne s).2 (Or.inr (by omega))
    · intro hcontract
      have hone := val_print_string_fixed_one_read T H G junk addr len hne (by
        by_cases he : (T.partial_read addr (fetchlimit G len)).2 = 0
        · right
          by_contra hlt
          exact hcontract addr (fetchlimit G len) (by omega) he
        · left
          exact he)
      rw [hs] at hone
      simp only [Option.some.injEq] at hone
      rw [hone]
      obtain ⟨g1, g2, _, _, _, _⟩ := finish_string_cases T G len
        { addr := addr + ((T.partial_read addr (fetchlimit G len)).1.take
            (fetchlimit G len)).length,
          buffer := store junk 0 ((T.partial_read addr (fetchlimit G len)).1.take
            (fetchlimit G len)),
          allocated := true,
          bufsize := fetchlimit G len,
          bufptr := ((T.partial_read addr (fetchlimit G len)).1.take
            (fetchlimit G len)).length,
          nfetch := ((T.partial_read addr (fetchlimit G len)).1.take
            (fetchlimit G len)).length,
          errcode := (T.partial_read addr (fetchlimit G len)).2,
          reads := 1 }
      refine ⟨?_, ?_, ?_⟩
      · unfold finish_string
        simp only
        split
        · split <;> rfl
        · rfl
      · rw [g2, hF]
      · rw [g1, hF]
        simp only [List.length_take]
  · intro bytes hle hread hbytes
    subst hbytes
    have hF' : fetchlimit G bytes.length = bytes.length := by
      rw [hF]
      omega
    have hone := val_print_string_fixed_one_read T H G junk addr bytes.length hne (by
      right
      rw [hF', hread])
    rw [hone]
    simp only [hF', hread, List.take_length]
    have hfe : force_ellipsis T bytes.length
        { addr := addr + bytes.length, buffer := store junk 0 bytes, allocated := true,
          bufsize := bytes.length, bufptr := bytes.length, nfetch := bytes.length,
          errcode := 0, reads := 1 } = false := by
      have hb : bytes.length ≠ 0 := by omega
      simp [force_ellipsis, hb]
    simp only [finish_string, hfe, map_store, ne_eq, not_true_eq_false, false_and, if_false]

/-- Witness for C7: three bytes with an embedded zero byte, budget 200. -/
theorem val_print_string_fixed_length_witness :
    0 < 3 ∧
    val_print_string (memory_target embedded_null_memory) low_heap ⟨200, 10, false, true⟩
        (fun _ => 65) 4096 3 =
      some { out := printed ⟨200, 10, false, true⟩ [97, 0, 98] false,
             exit := Exit.returned 3, count := 3, force_ellipsis := false, errcode := 0,
             addr := 4096 + 3, reads := 1 } :=
  ⟨by decide,
    (val_print_string_fixed_length (memory_target embedded_null_memory) low_heap
      ⟨200, 10, false, true⟩ (fun _ => 65) 4096 3 (by decide)).2 [97, 0, 98]
      (by decide) (by decide) (by decide)⟩


/-! ### Terminator search over readable memory -/

theorem store_map_range (buffer : Nat → Nat) (b n : Nat) (f : Nat → Nat) (p : Nat) :
    store buffer b ((List.range n).map f) p =
      if b ≤ p ∧ p < b + n then f (p - b) else buffer p := by
  unfold store
  by_cases h : b ≤ p ∧ p < b + n
  · have hlt : p - b < n := by omega
    simp [h, hlt, List.getD_eq_getElem?_getD, List.getElem?_range hlt]
  · simp [h]

/-- One iteration of the search loop over readable memory: the chunk of `n`
bytes is delivered in full; the cursor stops at offset `E` when `E` lies in
the chunk and at the end of the chunk otherwise. -/
theorem fetch_search_chunk (T : Target) (F c : Nat) (mem : Nat → Nat) (addr E : Nat)
    (hc : 1 ≤ c) (hE1 : 1 ≤ E) (hEF : E ≤ F)
    (hread : ∀ a n, addr ≤ a → a + n ≤ addr + F →
      T.partial_read a n = ((List.range n).map fun k => mem (a + k), 0))
    (hnn : ∀ p, p + 1 < E → mem (addr + p) ≠ 0)
    (hend : E = F ∨ mem (addr + (E - 1)) = 0)
    (b : Nat) (s : FetchState) (hbE : b < E) (hptr : s.bufptr = b) (hsz : s.bufsize = b)
    (haddr : s.addr = addr + b) (hal : s.allocated = false → b = 0)
    (hbuf : ∀ p, p < b → s.buffer p = mem (addr + p)) :
    ∃ s', fetch_body T 0 F c s = some s' ∧ s'.errcode = 0 ∧ s'.allocated = true ∧
      s'.reads = s.reads + 1 ∧ s'.bufsize = b + min c (F - b) ∧
      (∀ p, p < b + min c (F - b) → s'.buffer p = mem (addr + p)) ∧
      ((E ≤ b + min c (F - b) ∧ s'.bufptr = E ∧ s'.addr = addr + E) ∨
       (b + min c (F - b) < E ∧ s'.bufptr = b + min c (F - b) ∧
        s'.addr = addr + (b + min c (F - b)))) := by
  have hn1 : 1 ≤ min c (F - b) := by omega
  have hnF : b + min c (F - b) ≤ F := by omega
  have hsize : fetch_size F c s = min c (F - b) := by simp [fetch_size, hsz]
  have hrd := hread s.addr (min c (F - b)) (by omega) (by omega)
  have hfetched : fetched T F c s = (List.range (min c (F - b))).map fun k => mem (s.addr + k) := by
    unfold fetched
    rw [hsize, hrd]
    exact List.take_of_length_le (by simp)
  have hflen : (fetched T F c s).length = min c (F - b) := by simp [hfetched]
  have hstore : ∀ p, p < b + min c (F - b) →
      store s.buffer s.bufsize (fetched T F c s) p = mem (addr + p) := by
    intro p hp
    rw [hfetched, store_map_range, hsz]
    by_cases h : b ≤ p ∧ p < b + min c (F - b)
    · rw [if_pos h, haddr]
      congr 1
      omega
    · rw [if_neg h]
      exact hbuf p (by omega)
  have hstore' : ∀ p, p < b + min c (F - b) →
      store s.buffer b (fetched T F c s) p = mem (addr + p) := by
    intro p hp
    have := hstore p hp
    rwa [hsz] at this
  have herr : (T.partial_read s.addr (fetch_size F c s)).2 = 0 := by
    rw [hsize, hrd]
  have hI : s.allocated = false → s.bufsize = 0 := fun h => by rw [hsz]; exact hal h
  by_cases hin : E ≤ b + min c (F - b)
  · have hscan := scan_chunk_eq (store s.buffer s.bufsize (fetched T F c s))
      (s.bufsize + (fetched T F c s).length) (fetched T F c s).length s.addr s.bufsize
      (E - 1 - b) (by rw [hflen]; omega)
      (by
        intro u hu
        rw [hflen, hsz]
        refine ⟨by omega, ?_⟩
        rw [hstore' (b + u) (by omega)]
        exact hnn (b + u) (by omega))
      (by
        rw [hflen, hsz]
        rintro ⟨h1, h2⟩
        rcases hend with h | h
        · omega
        · rw [hstore' (b + (E - 1 - b)) (by omega)] at h2
          apply h2
          rw [← h]
          congr 1
          omega)
    refine ⟨_, fetch_body_search T F c s hI _ hscan, herr, rfl, rfl, by simp only [hsize, hsz],
      fun p hp => hstore p hp, Or.inl ⟨hin, ?_, ?_⟩⟩
    · simp only [hsz]
      omega
    · simp only [haddr]
      omega
  · have hscan := scan_chunk_eq (store s.buffer s.bufsize (fetched T F c s))
      (s.bufsize + (fetched T F c s).length) (fetched T F c s).length s.addr s.bufsize
      (min c (F - b) - 1) (by rw [hflen]; omega)
      (by
        intro u hu
        rw [hflen, hsz]
        refine ⟨by omega, ?_⟩
        rw [hstore' (b + u) (by omega)]
        exact hnn (b + u) (by omega))
      (by
        rw [hflen, hsz]
        rintro ⟨h1, _⟩
        omega)
    refine ⟨_, fetch_body_search T F c s hI _ hscan, herr, rfl, rfl, by simp only [hsize, hsz],
      fun p hp => hstore p hp, Or.inr ⟨by omega, ?_, ?_⟩⟩
    · simp only [hsz]
      omega
    · simp only [haddr]
      omega


theorem fetch_cond_search_false (H : Heap) {F : Nat} {s : FetchState}
    (h : F ≤ s.bufptr ∨ s.buffer (s.bufptr - 1) = 0) : fetch_cond H 0 F s = false := by
  apply fetch_cond_eq_false
  rcases h with h | h
  · exact Or.inr (Or.inl h)
  · exact Or.inr (Or.inr ⟨rfl, h⟩)

theorem fetch_cond_search_true (H : Heap) {F : Nat} {s : FetchState}
    (hno : H.buffer_address s.reads + F < 2 ^ H.pointer_bits) (he : s.errcode = 0)
    (hlt : s.bufptr < F) (hb : s.buffer (s.bufptr - 1) ≠ 0) : fetch_cond H 0 F s = true :=
  fetch_cond_eq_true H hno he hlt (fun h => hb h.2)

/-- The search loop over readable memory whose bytes before offset `E - 1` are
nonzero, with `E` either the ceiling or just past a zero byte, on a host
where the sum `buffer + fetchlimit` stays within the range of a pointer at
every iteration that ends before offset `E`: the loop ends with the cursor at
offset `E`, no error, and the first `E` bytes of the memory in the buffer. -/
theorem fetch_search_run (T : Target) (H : Heap) (F c : Nat) (mem : Nat → Nat) (addr E : Nat)
    (hc : 1 ≤ c) (hE1 : 1 ≤ E) (hEF : E ≤ F)
    (hread : ∀ a n, addr ≤ a → a + n ≤ addr + F →
      T.partial_read a n = ((List.range n).map fun k => mem (a + k), 0))
    (hnn : ∀ p, p + 1 < E → mem (addr + p) ≠ 0)
    (hend : E = F ∨ mem (addr + (E - 1)) = 0)
    (hwrap : ∀ n, 1 ≤ n → n * c < E → H.buffer_address n + F < 2 ^ H.pointer_bits) :
    ∀ (fuel b : Nat) (s : FetchState), E ≤ b + fuel + 1 → b < E → s.bufptr = b →
      s.bufsize = b → s.addr = addr + b → (s.allocated = false → b = 0) →
      s.reads * c = b →
      (∀ p, p < b → s.buffer p = mem (addr + p)) →
      ∃ sf, do_while (fetch_body T 0 F c) (fetch_cond H 0 F) fuel s = some sf ∧
        sf.bufptr = E ∧ sf.addr = addr + E ∧ sf.errcode = 0 ∧
        ∀ p, p < E → sf.buffer p = mem (addr + p) := by
  have hexit : ∀ (fuel b : Nat) (s s' : FetchState), fetch_body T 0 F c s = some s' →
      s'.errcode = 0 → (∀ p, p < b + min c (F - b) → s'.buffer p = mem (addr + p)) →
      E ≤ b + min c (F - b) → s'.bufptr = E → s'.addr = addr + E →
      ∃ sf, do_while (fetch_body T 0 F c) (fetch_cond H 0 F) fuel s = some sf ∧
        sf.bufptr = E ∧ sf.addr = addr + E ∧ sf.errcode = 0 ∧
        ∀ p, p < E → sf.buffer p = mem (addr + p) := by
    intro fuel b s s' hb he hbuf hin hp ha
    refine ⟨s', do_while_exit _ _ _ _ _ hb (fetch_cond_search_false H ?_), hp, ha, he,
      fun p hpE => hbuf p (by omega)⟩
    rcases hend with h | h
    · left
      omega
    · right
      rw [hp, hbuf (E - 1) (by omega)]
      exact h
  intro fuel
  induction fuel with
  | zero =>
    intro b s hfuel hbE hptr hsz haddr hal hrd hbuf
    obtain ⟨s', hb, he, _, _, _, hbuf', hcase⟩ := fetch_search_chunk T F c mem addr E hc hE1
      hEF hread hnn hend b s hbE hptr hsz haddr hal hbuf
    rcases hcase with ⟨hin, hp, ha⟩ | ⟨hlt, _, _⟩
    · exact hexit 0 b s s' hb he hbuf' hin hp ha
    · omega
  | succ fuel ih =>
    intro b s hfuel hbE hptr hsz haddr hal hrd hbuf
    obtain ⟨s', hb, he, hal', hrd', hsz', hbuf', hcase⟩ := fetch_search_chunk T F c mem addr E
      hc hE1 hEF hread hnn hend b s hbE hptr hsz haddr hal hbuf
    rcases hcase with ⟨hin, hp, ha⟩ | ⟨hlt, hp, ha⟩
    · exact hexit (fuel + 1) b s s' hb he hbuf' hin hp ha
    · have hmin : min c (F - b) = c := by omega
      have hrd'' : s'.reads * c = b + min c (F - b) := by
        rw [hrd', Nat.succ_mul, hrd, hmin]
      have hcond : fetch_cond H 0 F s' = true := by
        apply fetch_cond_search_true H (hwrap s'.reads (by omega) (by omega)) he (by omega)
        rw [hp, hbuf' (b + min c (F - b) - 1) (by omega)]
        exact hnn _ (by omega)
      rw [do_while_continue _ _ _ _ _ hb hcond]
      exact ih (b + min c (F - b)) s' (by omega) hlt hp hsz' ha
        (fun h => by rw [hal'] at h; exact Bool.noConfusion h) hrd'' hbuf'

/-- The partial read of `memory_target` over a stretch of mapped memory
delivers the whole stretch without error. -/
theorem memory_target_read (memory : Nat → Option Nat) (mem : Nat → Nat) (n : Nat) :
    ∀ a, (∀ k, k < n → memory (a + k) = some (mem (a + k))) →
      (memory_target memory).partial_read a n =
        ((List.range n).map fun k => mem (a + k), 0) := by
  have hrun : ∀ n a, (∀ k, k < n → memory (a + k) = some (mem (a + k))) →
      readable_run memory a n = (List.range n).map fun k => mem (a + k) := by
    intro n
    induction n with
    | zero => intro a _; rfl
    | succ n ih =>
      intro a h
      have h0 := h 0 (by omega)
      rw [Nat.add_zero] at h0
      simp only [readable_run, h0, List.range_succ_eq_map, List.map_cons, List.map_map,
        Nat.add_zero]
      rw [ih (a + 1) (fun k hk => by
        have := h (k + 1) (by omega)
        rw [show a + 1 + k = a + (k + 1) by omega]
        exact this)]
      congr 1
      apply List.map_congr_left
      intro k _
      simp only [Function.comp, Nat.succ_eq_add_one]
      congr 1
      omega
  intro a h
  simp only [memory_target, hrun n a h, List.length_map, List.length_range, if_true]


theorem chunksize_search_pos (G : Policy) (h : 1 ≤ G.print_max) : 1 ≤ chunksize G 0 := by
  simp only [chunksize, fetchlimit, if_true, PRINT_MAX_DEFAULT]
  omega

/-- Terminator search over readable memory, from the start of
`val_print_string` to its result. -/
theorem val_print_string_search (T : Target) (H : Heap) (G : Policy) (junk : Nat → Nat)
    (addr : Nat) (mem : Nat → Nat) (E : Nat) (hE1 : 1 ≤ E) (hEF : E ≤ G.print_max)
    (hread : ∀ a n, addr ≤ a → a + n ≤ addr + G.print_max →
      T.partial_read a n = ((List.range n).map fun k => mem (a + k), 0))
    (hnn : ∀ p, p + 1 < E → mem (addr + p) ≠ 0)
    (hend : E = G.print_max ∨ mem (addr + (E - 1)) = 0)
    (hwrap : ∀ n, 1 ≤ n → n * chunksize G 0 < E →
      H.buffer_address n + G.print_max < 2 ^ H.pointer_bits) :
    ∃ sf, val_print_string T H G junk addr 0 = some (finish_string T G 0 sf) ∧
      sf.bufptr = E ∧ sf.addr = addr + E ∧ sf.errcode = 0 ∧
      (List.range E).map sf.buffer = (List.range E).map fun k => mem (addr + k) := by
  have hF : fetchlimit G 0 = G.print_max := by simp [fetchlimit]
  obtain ⟨sf, hrun, hp, ha, he, hbuf⟩ := fetch_search_run T H G.print_max (chunksize G 0) mem
    addr E (chunksize_search_pos G (by omega)) hE1 hEF hread hnn hend hwrap (G.print_max + 1) 0
    (fetch_start junk addr) (by omega) (by omega) rfl rfl rfl (fun _ => rfl)
    (by simp [fetch_start]) (fun p hp => absurd hp (Nat.not_lt_zero p))
  refine ⟨sf, ?_, hp, ha, he, ?_⟩
  · unfold val_print_string
    rw [hF, hrun, Option.map_some']
  · apply List.map_congr_left
    intro p hp'
    exact hbuf p (List.mem_range.1 hp')

/-- C5 (as the code behaves): in terminator-search mode, when every read
within the fetch ceiling succeeds and the first zero byte lies at offset `k`
below the ceiling, with `k + 1` within the range of the `int` returned and,
at every iteration that ends before the terminator is fetched, the sum
`buffer + fetchlimit` within the range of a pointer (nothing is asked of the
host when the terminator lies in the first chunk), `val_print_string` returns
`k + 1`, hands the `k` characters before the terminator and the terminator
itself to the string printer, and marks the result not truncated. -/
theorem val_print_string_terminator_found (T : Target) (H : Heap) (G : Policy)
    (junk : Nat → Nat) (addr : Nat) (mem : Nat → Nat) (k : Nat) (hk : k < G.print_max)
    (hint : k + 1 ≤ 2147483647)
    (hread : ∀ a n, addr ≤ a → a + n ≤ addr + G.print_max →
      T.partial_read a n = ((List.range n).map fun j => mem (a + j), 0))
    (hnn : ∀ j, j < k → mem (addr + j) ≠ 0) (hz : mem (addr + k) = 0)
    (hwrap : ∀ n, 1 ≤ n → n * chunksize G 0 ≤ k →
      H.buffer_address n + G.print_max < 2 ^ H.pointer_bits) :
    ∃ r, val_print_string T H G junk addr 0 = some r ∧
      r.exit = Exit.returned (k + 1) ∧ r.count = k + 1 ∧ r.force_ellipsis = false ∧
      r.out = printed G ((List.range k).map (fun j => mem (addr + j)) ++ [0]) false := by
  obtain ⟨sf, hs, hp, _, he, hchars⟩ := val_print_string_search T H G junk addr mem (k + 1)
    (by omega) (by omega) hread (fun p hp => hnn p (by omega)) (Or.inr hz)
    (fun n h1 h2 => hwrap n h1 (by omega))
  obtain ⟨h1, _, _, h4, h5, h6⟩ := finish_string_cases T G 0 sf
  have hlast : sf.buffer (sf.bufptr - 1) = 0 := by
    have := congrArg (fun l => l.getD k 1) hchars
    simp only [List.getD_eq_getElem?_getD, List.getElem?_map,
      List.getElem?_range (Nat.lt_succ_self k), Option.map_some', Option.getD_some] at this
    rw [hp, Nat.add_sub_cancel, this, hz]
  have hfe : force_ellipsis T 0 sf = false := by
    simp [force_ellipsis, hlast]
  refine ⟨finish_string T G 0 sf, hs, ?_, ?_, ?_, ?_⟩
  · rw [h5, if_neg (fun h => h.1 he), hp]
  · rw [h1, hp]
  · rw [h4, hfe]
  · rw [h6, hfe, hp, hchars, if_neg (fun h => by simp at h), List.append_nil,
      List.range_succ, List.map_append, List.map_singleton, hz]

/-- Witness for the amended C5: the memory `"abc\0xyz"` at address 4096 with
ceiling 200 gives the count 4. -/
theorem val_print_string_terminator_found_witness :
    3 < 200 ∧
    ∃ r, val_print_string (memory_target abc_memory) low_heap ⟨200, 10, false, true⟩
        (fun _ => 65) 4096 0 = some r ∧
      r.exit = Exit.returned (3 + 1) ∧ r.count = 3 + 1 ∧ r.force_ellipsis = false ∧
      r.out = printed ⟨200, 10, false, true⟩
        ((List.range 3).map (fun j => abc_bytes (4096 + j)) ++ [0]) false :=
  ⟨by decide,
    val_print_string_terminator_found (memory_target abc_memory) low_heap
      ⟨200, 10, false, true⟩ (fun _ => 65) 4096 abc_bytes 3 (by decide) (by decide)
      (fun a n _ _ => memory_target_read abc_memory abc_bytes n a (fun _ _ => rfl))
      (by decide) (by decide) (fun _ _ _ => by simp [low_heap])⟩

/-- Where the pointer sum does not wrap, the ceiling is reached: in
terminator-search mode with a fetch ceiling `C` of at least 1 and within the
range of the `int` returned, a target memory whose first `C` bytes are
readable and nonzero, and a host on which the sum `buffer + fetchlimit` is
within the range of a pointer at every iteration that ends before the
ceiling, `val_print_string` returns `C`, prints these `C` bytes, and marks
the result truncated exactly when the one-byte read at offset `C` fails or
delivers a nonzero byte (so not truncated when that read succeeds with a zero
byte). -/
theorem val_print_string_ceiling_reached (T : Target) (H : Heap) (G : Policy)
    (junk : Nat → Nat) (addr : Nat) (mem : Nat → Nat) (hC : 1 ≤ G.print_max)
    (hint : G.print_max ≤ 2147483647)
    (hread : ∀ a n, addr ≤ a → a + n ≤ addr + G.print_max →
      T.partial_read a n = ((List.range n).map fun j => mem (a + j), 0))
    (hnn : ∀ j, j < G.print_max → mem (addr + j) ≠ 0)
    (hwrap : ∀ n, 1 ≤ n → n * chunksize G 0 < G.print_max →
      H.buffer_address n + G.print_max < 2 ^ H.pointer_bits) :
    ∃ r, val_print_string T H G junk addr 0 = some r ∧
      r.exit = Exit.returned G.print_max ∧ r.count = G.print_max ∧
      r.out = printed G ((List.range G.print_max).map fun j => mem (addr + j))
        r.force_ellipsis ∧
      (r.force_ellipsis = true ↔
        ((T.exact_read (addr + G.print_max) 1).1 ≠ 0 ∨
         (T.exact_read (addr + G.print_max) 1).2 0 ≠ 0)) := by
  obtain ⟨sf, hs, hp, ha, he, hchars⟩ := val_print_string_search T H G junk addr mem
    G.print_max hC (le_refl _) hread (fun p hp => hnn p (by omega)) (Or.inl rfl) hwrap
  obtain ⟨h1, _, _, h4, h5, h6⟩ := finish_string_cases T G 0 sf
  have hlast : sf.buffer (sf.bufptr - 1) ≠ 0 := by
    have hlt : G.print_max - 1 < G.print_max := by omega
    have := congrArg (fun l => l.getD (G.print_max - 1) 0) hchars
    simp only [List.getD_eq_getElem?_getD, List.getElem?_map,
      List.getElem?_range hlt, Option.map_some', Option.getD_some] at this
    rw [hp, this]
    exact hnn _ hlt
  have hfe : force_ellipsis T 0 sf = true ↔
      ((T.exact_read (addr + G.print_max) 1).1 ≠ 0 ∨
       (T.exact_read (addr + G.print_max) 1).2 0 ≠ 0) := by
    simp [force_ellipsis, hlast, ha]
  refine ⟨finish_string T G 0 sf, hs, ?_, ?_, ?_, ?_⟩
  · rw [h5, if_neg (fun h => h.1 he), hp]
  · rw [h1, hp]
  · rw [h6, h4, hp, hchars, if_neg (fun h => by rw [he] at h; exact absurd h.1 (by decide)),
      List.append_nil]
  · rw [h4]
    exact hfe

/-- An instance of `val_print_string_ceiling_reached`: 500 mapped nonzero
bytes and ceiling 50; the byte at offset 50 is nonzero, so the result is
marked truncated. -/
theorem val_print_string_ceiling_reached_witness :
    1 ≤ 50 ∧
    ∃ r, val_print_string (memory_target five_hundred_memory) low_heap ⟨50, 10, false, true⟩
        (fun _ => 0) 4096 0 = some r ∧
      r.exit = Exit.returned 50 ∧ r.count = 50 ∧ r.force_ellipsis = true :=
  ⟨by decide, by
    obtain ⟨r, h1, h2, h3, _, h5⟩ := val_print_string_ceiling_reached
      (memory_target five_hundred_memory) low_heap ⟨50, 10, false, true⟩ (fun _ => 0) 4096
      (fun _ => 65) (by decide) (by decide)
      (fun a n ha hn => memory_target_read five_hundred_memory (fun _ => 65) n a
        (fun k hk => by
          have h : 4096 ≤ a + k ∧ a + k < 4596 := by
            simp only at hn
            omega
          simp only [five_hundred_memory, h, and_self, if_true]))
      (fun _ _ h => by simp at h) (fun _ _ _ => by simp [low_heap])
    exact ⟨r, h1, h2, h3, h5.2 (Or.inr (by decide))⟩⟩


/-! ## Evaluations at concrete inputs -/

/-- When the loop ends after its first iteration on a host `H0` on which the
sum `buffer + fetchlimit` stays within the range of a pointer, it ends after
its first iteration on every host, with the same result. -/
theorem val_print_string_first_stop (T : Target) (H H0 : Heap) (G : Policy)
    (junk : Nat → Nat) (addr len : Nat)
    (hfirst : (fetch_body T len (fetchlimit G len) (chunksize G len)
      (fetch_start junk addr)).map (fetch_cond H0 len (fetchlimit G len)) = some false)
    (hno : H0.buffer_address 1 + fetchlimit G len < 2 ^ H0.pointer_bits) :
    val_print_string T H G junk addr len = val_print_string T H0 G junk addr len := by
  obtain ⟨s1, hb, _, _, _, _, hrd⟩ := fetch_body_spec T len (fetchlimit G len)
    (chunksize G len) (fetch_start junk addr) (fun _ => rfl)
  rw [hb] at hfirst
  simp only [Option.map_some', Option.some.injEq] at hfirst
  have hrd1 : s1.reads = 1 := by
    rw [hrd]
    rfl
  have hstop : fetch_cond H len (fetchlimit G len) s1 = false := by
    cases hc : fetch_cond H len (fetchlimit G len) s1 with
    | false => rfl
    | true =>
      obtain ⟨h1, h2, h3⟩ := fetch_cond_offsets hc
      rw [fetch_cond_eq_true H0 (by rw [hrd1]; exact hno) h1 h2 h3] at hfirst
      exact Bool.noConfusion hfirst
  unfold val_print_string
  rw [do_while_exit _ _ _ _ _ hb hstop, do_while_exit _ _ _ _ _ hb hfirst]

set_option maxRecDepth 100000 in
/-- C5 (as stated) fails: for the memory `"abc\0xyz"` at address 4096, in
terminator-search mode with ceiling 200 and every read succeeding, the first
zero byte is at offset 3, yet `val_print_string` returns 4 and hands the four
bytes `'a'`, `'b'`, `'c'`, `0` to the string printer. -/
theorem val_print_string_abc_returns_four :
    val_print_string (memory_target abc_memory) low_heap ⟨200, 10, false, true⟩ (fun _ => 65)
        4096 0 =
      some { out := [Out.text " ", Out.print_string [97, 98, 99, 0] false],
             exit := Exit.returned 4, count := 4, force_ellipsis := false, errcode := 0,
             addr := 4100, reads := 1 } := by
  decide

set_option maxRecDepth 100000 in
/-- C6 fails on the code: with 32-bit pointers the sum `buffer + fetchlimit`
of the loop test can wrap around, and the loop then ends after its first
chunk of 200 bytes although every byte is readable and nonzero.  With the
ceiling `UINT_MAX` (the stored form of "no limit") the sum is `buffer - 1`
wherever the buffer lies; with the ceiling `INT_MAX` it wraps for a buffer
in the upper half of the address space.  In both cases `val_print_string`
returns 200, not the ceiling. -/
theorem val_print_string_ceiling_wraps :
    (low_heap.buffer_address 1 + fetchlimit ⟨UINT_MAX, 10, false, true⟩ 0) %
        2 ^ low_heap.pointer_bits = low_heap.buffer_address 1 - 1 ∧
    val_print_string (memory_target all_a_memory) low_heap ⟨UINT_MAX, 10, false, true⟩
        (fun _ => 0) 0 0 =
      some { out := [Out.text " ", Out.print_string (List.replicate 200 65) true],
             exit := Exit.returned 200, count := 200, force_ellipsis := true, errcode := 0,
             addr := 200, reads := 1 } ∧
    val_print_string (memory_target all_a_memory) high_heap ⟨2147483647, 10, false, true⟩
        (fun _ => 0) 4096 0 =
      some { out := [Out.text " ", Out.print_string (List.replicate 200 65) true],
             exit := Exit.returned 200, count := 200, force_ellipsis := true, errcode := 0,
             addr := 4296, reads := 1 } := by
  decide

set_option maxRecDepth 100000 in
/-- The same wrap cuts a terminated string: with the ceiling `UINT_MAX` and
32-bit pointers, a string of 300 characters followed by its terminator is
fetched up to the end of the first chunk only; `val_print_string` returns
200 and marks the result truncated. -/
theorem val_print_string_long_string_cut :
    val_print_string (memory_target three_hundred_memory) low_heap
        ⟨UINT_MAX, 10, false, true⟩ (fun _ => 0) 4096 0 =
      some { out := [Out.text " ", Out.print_string (List.replicate 200 65) true],
             exit := Exit.returned 200, count := 200, force_ellipsis := true, errcode := 0,
             addr := 4296, reads := 1 } := by
  decide

/-- C8 fails on the code: when the first partial read in terminator-search
mode delivers no byte (the address is not mapped), `val_print_string` still
returns 1 and hands one byte to the string printer, the byte found in the
fresh buffer (`'A'` here), which no read stored; this is so on every host. -/
theorem val_print_string_counts_unfilled_byte (H : Heap) :
    ((memory_target unmapped_memory).partial_read 4096 200).1 = [] ∧
    val_print_string (memory_target unmapped_memory) H ⟨200, 10, false, true⟩ (fun _ => 65)
        4096 0 =
      some { out := [Out.text " ", Out.print_string [65] true, Out.out_of_bounds 4097],
             exit := Exit.returned 1, count := 1, force_ellipsis := true, errcode := EIO,
             addr := 4097, reads := 1 } := by
  refine ⟨by decide, ?_⟩
  rw [val_print_string_first_stop (memory_target unmapped_memory) H low_heap
    ⟨200, 10, false, true⟩ (fun _ => 65) 4096 0 (by decide) (by decide)]
  decide

/-- C9 fails on the code: with a budget of 0 in terminator-search mode the
fetch ceiling is 0, the only read requests and delivers no byte, yet
`val_print_string` returns 1 and hands one byte to the string printer; this
is so on every host. -/
theorem val_print_string_exceeds_zero_ceiling (H : Heap) :
    fetchlimit ⟨0, 10, false, true⟩ 0 = 0 ∧
    ((memory_target abc_memory).partial_read 4096 0).1 = [] ∧
    val_print_string (memory_target abc_memory) H ⟨0, 10, false, true⟩ (fun _ => 65) 4096 0 =
      some { out := [Out.text " ", Out.print_string [65] true],
             exit := Exit.returned 1, count := 1, force_ellipsis := true, errcode := 0,
             addr := 4097, reads := 1 } := by
  refine ⟨by decide, by decide, ?_⟩
  rw [val_print_string_first_stop (memory_target abc_memory) H low_heap
    ⟨0, 10, false, true⟩ (fun _ => 65) 4096 0 (by decide) (by decide)]
  decide

/-! ## Claims about the radix commands -/

/-- C16: `set_output_radix_1` with radix 16, 10 or 8 stores the radix in
`output_radix` and sets `output_format` to `'x'`, 0 or `'o'`, leaving
`input_radix` alone; with any other radix it ends in `error` and leaves
`output_radix`, `output_format` and `input_radix` as they were. -/
theorem set_output_radix_1_spec (from_tty : Bool) (s : RadixState) :
    ((set_output_radix_1 from_tty 16 s).error = none ∧
      (set_output_radix_1 from_tty 16 s).state =
        { input_radix := s.input_radix, output_radix := 16, output_format := Char.toNat 'x' }) ∧
    ((set_output_radix_1 from_tty 10 s).error = none ∧
      (set_output_radix_1 from_tty 10 s).state =
        { input_radix := s.input_radix, output_radix := 10, output_format := 0 }) ∧
    ((set_output_radix_1 from_tty 8 s).error = none ∧
      (set_output_radix_1 from_tty 8 s).state =
        { input_radix := s.input_radix, output_radix := 8, output_format := Char.toNat 'o' }) ∧
    (∀ radix, radix ≠ 16 → radix ≠ 10 → radix ≠ 8 →
      (set_output_radix_1 from_tty radix s).error ≠ none ∧
      (set_output_radix_1 from_tty radix s).state = s) := by
  refine ⟨by simp [set_output_radix_1], by simp [set_output_radix_1],
    by simp [set_output_radix_1], ?_⟩
  intro radix h16 h10 h8
  simp [set_output_radix_1, h16, h10, h8]

/-- Witness for C16: radix 7 is rejected from the state with output radix 16
and the state is kept. -/
theorem set_output_radix_1_spec_witness :
    (set_output_radix_1 true 7 hex_output_state).error ≠ none ∧
    (set_output_radix_1 true 7 hex_output_state).state =
      hex_output_state :=
  (set_output_radix_1_spec true hex_output_state).2.2.2 7 (by decide) (by decide) (by decide)

/-- C17: `set_input_radix_1` accepts every radix of at least 2 and stores it
in `input_radix`, leaving `output_radix` and `output_format` alone; for radix
0 and radix 1 it ends in `error` and leaves the state as it was. -/
theorem set_input_radix_1_spec (from_tty : Bool) (s : RadixState) :
    (∀ radix, 2 ≤ radix →
      (set_input_radix_1 from_tty radix s).error = none ∧
      (set_input_radix_1 from_tty radix s).state =
        { input_radix := radix, output_radix := s.output_radix,
          output_format := s.output_format }) ∧
    ((set_input_radix_1 from_tty 0 s).error ≠ none ∧
      (set_input_radix_1 from_tty 0 s).state = s) ∧
    ((set_input_radix_1 from_tty 1 s).error ≠ none ∧
      (set_input_radix_1 from_tty 1 s).state = s) := by
  refine ⟨?_, by simp [set_input_radix_1], by simp [set_input_radix_1]⟩
  intro radix h
  have : ¬ radix < 2 := by omega
  simp [set_input_radix_1, this]

/-- Witness for C17: input radix 36 is accepted. -/
theorem set_input_radix_1_spec_witness :
    (set_input_radix_1 false 36 initial_radix).error = none ∧
    (set_input_radix_1 false 36 initial_radix).state =
      { input_radix := 36, output_radix := initial_radix.output_radix,
        output_format := initial_radix.output_format } :=
  (set_input_radix_1_spec false initial_radix).1 36 (by decide)

/-- The radix that `set_radix` works with: 10 without an argument, otherwise
the argument converted to `unsigned`. -/
theorem set_radix_eq (arg : Option Nat) (from_tty : Bool) (s : RadixState) (radix : Nat)
    (hr : radix = match arg with
      | none => 10
      | some v => uint v) :
    (radix = 16 → (set_radix arg from_tty s).error = none ∧ (set_radix arg from_tty s).state =
      { input_radix := 16, output_radix := 16, output_format := Char.toNat 'x' }) ∧
    (radix = 10 → (set_radix arg from_tty s).error = none ∧ (set_radix arg from_tty s).state =
      { input_radix := 10, output_radix := 10, output_format := 0 }) ∧
    (radix = 8 → (set_radix arg from_tty s).error = none ∧ (set_radix arg from_tty s).state =
      { input_radix := 8, output_radix := 8, output_format := Char.toNat 'o' }) ∧
    (radix ≠ 16 → radix ≠ 10 → radix ≠ 8 →
      (set_radix arg from_tty s).error ≠ none ∧ (set_radix arg from_tty s).state = s) := by
  unfold set_radix
  rw [← hr]
  refine ⟨?_, ?_, ?_, ?_⟩
  · intro h
    subst h
    simp [set_output_radix_1, set_input_radix_1]
  · intro h
    subst h
    simp [set_output_radix_1, set_input_radix_1]
  · intro h
    subst h
    simp [set_output_radix_1, set_input_radix_1]
  · intro h16 h10 h8
    simp [set_output_radix_1, h16, h10, h8]

/-- C18: `set_radix` is all-or-nothing.  With the radix (10 when there is no
argument) in {8, 10, 16} it succeeds and sets `input_radix` and
`output_radix` to the radix and `output_format` to the matching letter; with
every other radix it ends in `error` and changes nothing.  The second setter
never fails after the first succeeded: a radix that `set_output_radix_1`
accepts is accepted by `set_input_radix_1` in every state. -/
theorem set_radix_all_or_nothing (arg : Option Nat) (from_tty : Bool) (s : RadixState) :
    ((set_radix none from_tty s).error = none ∧ (set_radix none from_tty s).state =
      { input_radix := 10, output_radix := 10, output_format := 0 }) ∧
    (∀ v, arg = some v →
      (uint v = 16 → (set_radix arg from_tty s).error = none ∧
        (set_radix arg from_tty s).state =
          { input_radix := 16, output_radix := 16, output_format := Char.toNat 'x' }) ∧
      (uint v = 10 → (set_radix arg from_tty s).error = none ∧
        (set_radix arg from_tty s).state =
          { input_radix := 10, output_radix := 10, output_format := 0 }) ∧
      (uint v = 8 → (set_radix arg from_tty s).error = none ∧
        (set_radix arg from_tty s).state =
          { input_radix := 8, output_radix := 8, output_format := Char.toNat 'o' }) ∧
      (uint v ≠ 16 → uint v ≠ 10 → uint v ≠ 8 →
        (set_radix arg from_tty s).error ≠ none ∧ (set_radix arg from_tty s).state = s)) ∧
    (∀ radix t t', (set_output_radix_1 false radix t).error = none →
      (set_input_radix_1 false radix t').error = none) := by
  refine ⟨(set_radix_eq none from_tty s 10 rfl).2.1 rfl, ?_, ?_⟩
  · intro v hv
    subst hv
    exact set_radix_eq (some v) from_tty s (uint v) rfl
  · intro radix t t' h
    have h2 : ¬ radix < 2 := by
      intro hlt
      have h16 : radix ≠ 16 := by omega
      have h10 : radix ≠ 10 := by omega
      have h8 : radix ≠ 8 := by omega
      simp [set_output_radix_1, h16, h10, h8] at h
    simp [set_input_radix_1, h2]

/-- Witness for C18: `set radix 7` from the state with both radices 16 fails
and changes nothing. -/
theorem set_radix_all_or_nothing_witness :
    (set_radix (some 7) true hex_state).error ≠ none ∧
    (set_radix (some 7) true hex_state).state =
      hex_state :=
  ((set_radix_all_or_nothing (some 7) true hex_state).2.1 7 rfl).2.2.2 (by decide) (by decide) (by decide)

/-! ## Claims about `val_print_type_code_int` -/


/-- C11 fails on the code for a little-endian target: the scan for zero bytes
starts at `valaddr + TYPE_LENGTH (type)`, one byte past the value.  For the
16-byte value 5 followed in memory by a nonzero byte, the scan stops at once
and `val_print_type_code_int` writes the hex dump of all 16 bytes instead of
the decimal `5`.  The same value followed by a zero byte is written as `5`,
and so is the big-endian value 5 followed by a nonzero byte. -/
theorem val_print_type_code_int_reads_past_value :
    val_print_type_code_int little_endian_config 16 true five_then_one =
      some ([Out.text "0x"] ++ List.replicate 15 (Out.text "00") ++
        [Out.text "05", Out.text ""]) ∧
    val_print_type_code_int little_endian_config 16 true five_alone = some [Out.text "5"] ∧
    val_print_type_code_int big_endian_config 16 true big_endian_five_then_one =
      some [Out.text "5"] := by
  decide

/-- C12 fails on the code for a little-endian target: because the scan starts
one byte past the value, it stops one byte early.  The 16-byte value
2^64 + 5 is written as the decimal `5`, and the value 2^72 + 5 as a hex dump
of its 9 low bytes; in both the most significant nonzero byte is dropped.
On a big-endian target the value 2^64 + 5 is written as the hex dump of its
9 low bytes, from the most significant nonzero byte on. -/
theorem val_print_type_code_int_drops_byte :
    val_print_type_code_int little_endian_config 16 true two_pow_64_plus_five =
      some [Out.text "5"] ∧
    val_print_type_code_int little_endian_config 16 true two_pow_72_plus_five =
      some ([Out.text "0x"] ++ List.replicate 8 (Out.text "00") ++
        [Out.text "05", Out.text ""]) ∧
    val_print_type_code_int big_endian_config 16 true big_endian_two_pow_64_plus_five =
      some ([Out.text "0x", Out.text "01"] ++ List.replicate 7 (Out.text "00") ++
        [Out.text "05", Out.text ""]) := by
  decide

set_option maxRecDepth 100000 in
theorem hex_padded_two_length : ∀ b, b < 256 → (hex_padded 2 b).length = 2 := by
  decide

/-- C13: for a signed integer type longer than `sizeof (LONGEST)`,
`val_print_type_code_int` writes the hex prefix, then `"%02x"` of each of the
`L` bytes of the value from the most significant to the least significant
(buffer order on a big-endian target, reversed buffer order on a
little-endian one), then the hex suffix; each byte gives exactly two hex
digits, and no decimal rendering is made whatever the value is. -/
theorem val_print_type_code_int_signed_wide (cfg : Config) (type_length : Nat)
    (valaddr : Nat → Nat) (hL : cfg.sizeof_longest < type_length) :
    val_print_type_code_int cfg type_length false valaddr =
      some ([Out.text cfg.hex_format_pre] ++
        ((if cfg.big_endian then List.range type_length
          else (List.range type_length).reverse).map fun k =>
            Out.text (hex_padded 2 (valaddr k))) ++
        [Out.text cfg.hex_format_suf]) ∧
    (∀ b, b < 256 → (hex_padded 2 b).length = 2) := by
  refine ⟨?_, hex_padded_two_length⟩
  simp [val_print_type_code_int, hL, print_hex_chars]

/-- Witness for C13: the 16-byte signed value 2^64 + 5 on a little-endian target
with 8-byte `LONGEST` is written as a hex dump. -/
theorem val_print_type_code_int_signed_wide_witness :
    val_print_type_code_int little_endian_config 16 false two_pow_64_plus_five =
      some ([Out.text little_endian_config.hex_format_pre] ++
        ((if little_endian_config.big_endian then List.range 16
          else (List.range 16).reverse).map fun k =>
            Out.text (hex_padded 2 (two_pow_64_plus_five k))) ++
        [Out.text little_endian_config.hex_format_suf]) :=
  (val_print_type_code_int_signed_wide little_endian_config 16 two_pow_64_plus_five
    (by decide)).1

/-! ## Claims about `print_floating` -/

theorem and_mask (x n : Nat) : x &&& (2 ^ n - 1) = x % 2 ^ n :=
  Nat.and_pow_two_sub_one_eq_mod x n

theorem target_word_lt (cfg : Config) (valaddr : Nat → Nat) (off : Nat)
    (hbytes : ∀ k, k < 4 → valaddr (off + k) < 256) :
    target_word cfg valaddr off < 4294967296 := by
  have h0 : valaddr off < 256 := hbytes 0 (by decide)
  have h1 := hbytes 1 (by decide)
  have h2 := hbytes 2 (by decide)
  have h3 := hbytes 3 (by decide)
  unfold target_word target_value
  cases hbe : cfg.big_endian
  · simp only [Bool.false_eq_true, if_false, bytes_at, be_value, List.range_succ,
      List.range_zero, List.nil_append, List.cons_append, List.map_cons, List.map_nil,
      List.foldl_cons, List.foldl_nil, List.reverse_cons, List.reverse_nil, Nat.add_zero,
      Nat.zero_add, Nat.reduceAdd]
    omega
  · simp only [if_true, bytes_at, be_value, List.range_succ, List.range_zero,
      List.nil_append, List.cons_append, List.map_cons, List.map_nil, List.foldl_cons,
      List.foldl_nil, Nat.add_zero, Nat.zero_add, Nat.reduceAdd]
    omega

/-- The eight bytes of a double in target byte order are the word `high`
followed by the word `low`. -/
theorem target_value_eight (cfg : Config) (valaddr : Nat → Nat)
    (hbytes : ∀ k, k < 8 → valaddr k < 256) :
    target_value cfg valaddr 0 8 =
      target_word cfg valaddr (if cfg.big_endian then 0 else 4) * 4294967296 +
        target_word cfg valaddr (if cfg.big_endian then 4 else 0) := by
  have h0 := hbytes 0 (by decide)
  have h1 := hbytes 1 (by decide)
  have h2 := hbytes 2 (by decide)
  have h3 := hbytes 3 (by decide)
  have h4 := hbytes 4 (by decide)
  have h5 := hbytes 5 (by decide)
  have h6 := hbytes 6 (by decide)
  have h7 := hbytes 7 (by decide)
  unfold target_word target_value
  cases hbe : cfg.big_endian
  · simp only [Bool.false_eq_true, if_false, bytes_at, be_value, List.range_succ,
      List.range_zero, List.nil_append, List.cons_append, List.map_cons, List.map_nil,
      List.foldl_cons, List.foldl_nil, List.reverse_cons, List.reverse_nil, Nat.add_zero,
      Nat.zero_add, Nat.reduceAdd]
    omega
  · simp only [if_true, bytes_at, be_value, List.range_succ, List.range_zero,
      List.nil_append, List.cons_append, List.map_cons, List.map_nil, List.foldl_cons,
      List.foldl_nil, Nat.add_zero, Nat.zero_add, Nat.reduceAdd]
    omega

/-- Where `long` has 4 bytes, the `long` read from four bytes is their word
in target byte order, whatever the byte order of the host. -/
theorem long_word_four (cfg : Config) (valaddr : Nat → Nat) (off : Nat)
    (hlong : cfg.sizeof_long = 4) : long_word cfg valaddr off 4 = target_word cfg valaddr off := by
  unfold long_word host_value swap_target_and_host target_word target_value
  rw [hlong]
  cases cfg.big_endian <;> cases cfg.host_big_endian <;>
    simp [bytes_at, List.range_succ]

theorem float_bits_single (cfg : Config) (valaddr : Nat → Nat) (hlong : cfg.sizeof_long = 4) :
    float_bits cfg valaddr 4 =
      { low := target_value cfg valaddr 0 4 % 8388608, high := 0,
        nonnegative := decide (target_value cfg valaddr 0 4 < 2147483648),
        is_nan := decide (target_value cfg valaddr 0 4 / 8388608 % 256 = 255) &&
          decide (0 ≠ target_value cfg valaddr 0 4 % 8388608) } := by
  have h1 : ∀ x : Nat, x &&& 0xFF = x % 256 := fun x => and_mask x 8
  have h2 : ∀ x : Nat, x &&& 0x7FFFFF = x % 8388608 := fun x => and_mask x 23
  simp only [float_bits, if_true, long_word_four cfg valaddr 0 hlong, target_word, h1, h2,
    Nat.shiftRight_eq_div_pow, hlong, Nat.reduceMul, Nat.reduceSub, Nat.reducePow]

theorem float_bits_double (cfg : Config) (valaddr : Nat → Nat) (len : Nat) (hlen : len ≠ 4)
    (hlong : cfg.sizeof_long = 4) :
    float_bits cfg valaddr len =
      { low := target_word cfg valaddr (if cfg.big_endian then 4 else 0),
        high := target_word cfg valaddr (if cfg.big_endian then 0 else 4) % 1048576,
        nonnegative :=
          decide (target_word cfg valaddr (if cfg.big_endian then 0 else 4) < 2147483648),
        is_nan :=
          decide (target_word cfg valaddr (if cfg.big_endian then 0 else 4) / 1048576 % 2048
            = 2047) &&
          !(decide (target_word cfg valaddr (if cfg.big_endian then 0 else 4) % 1048576 = 0) &&
            decide (target_word cfg valaddr (if cfg.big_endian then 4 else 0) = 0)) } := by
  have h1 : ∀ x : Nat, x &&& 0x7ff = x % 2048 := fun x => and_mask x 11
  have h2 : ∀ x : Nat, x &&& 0xfffff = x % 1048576 := fun x => and_mask x 20
  have h3 : ∀ off, long_word cfg valaddr off 4 = target_word cfg valaddr off :=
    fun off => long_word_four cfg valaddr off hlong
  simp only [float_bits, hlen, if_false, h1, h2, Nat.shiftRight_eq_div_pow, hlong,
    Nat.reduceMul, Nat.reduceSub, Nat.reducePow, h3]

/-- The words of an 8-byte pattern: bounds and the fields of the pattern in
terms of `high` and `low`. -/
theorem double_fields (cfg : Config) (valaddr : Nat → Nat)
    (hbytes : ∀ k, k < 8 → valaddr k < 256) :
    ∃ high low, high < 4294967296 ∧ low < 4294967296 ∧
      target_word cfg valaddr (if cfg.big_endian then 0 else 4) = high ∧
      target_word cfg valaddr (if cfg.big_endian then 4 else 0) = low ∧
      target_value cfg valaddr 0 8 = high * 4294967296 + low := by
  refine ⟨_, _, ?_, ?_, rfl, rfl, target_value_eight cfg valaddr hbytes⟩
  · apply target_word_lt
    intro k hk
    apply hbytes
    split <;> omega
  · apply target_word_lt
    intro k hk
    apply hbytes
    split <;> omega

/-- On a build where `long` has 4 bytes and `IEEE_FLOAT` is defined: for a
4-byte pattern whose exponent field is all ones and whose 23-bit mantissa `m`
is nonzero, `print_floating` writes `NaN(0x<m in hex>)` when the sign bit is
0 and `-NaN(0x<m in hex>)` when it is 1; for an 8-byte pattern with exponent
all ones and nonzero 52-bit mantissa `m` it writes the high 20 bits of `m` in
hex followed by the low 32 bits as 8 hex digits when the high part is
nonzero, and the low 32 bits alone when the high part is zero, with the same
sign rule. -/
theorem print_floating_nan {δ : Type} (cfg : Config) (ops : FloatOps δ) (valaddr : Nat → Nat)
    (hieee : cfg.ieee_float = true) (hlong : cfg.sizeof_long = 4)
    (hbytes : ∀ k, k < 8 → valaddr k < 256) :
    (∀ m, target_value cfg valaddr 0 4 / 2 ^ 23 % 2 ^ 8 = 255 →
      target_value cfg valaddr 0 4 % 2 ^ 23 = m → m ≠ 0 →
      print_floating cfg ops valaddr 4 =
        [Out.text ((if target_value cfg valaddr 0 4 < 2 ^ 31 then "" else "-") ++
          ("NaN(0x" ++ digits 16 m ++ ")"))]) ∧
    (∀ m, target_value cfg valaddr 0 8 / 2 ^ 52 % 2 ^ 11 = 2047 →
      target_value cfg valaddr 0 8 % 2 ^ 52 = m → m ≠ 0 →
      print_floating cfg ops valaddr 8 =
        [Out.text ((if target_value cfg valaddr 0 8 < 2 ^ 63 then "" else "-") ++
          (if m / 2 ^ 32 ≠ 0 then
            "NaN(0x" ++ digits 16 (m / 2 ^ 32) ++ hex_padded 8 (m % 2 ^ 32) ++ ")"
          else "NaN(0x" ++ digits 16 (m % 2 ^ 32) ++ ")"))]) := by
  constructor
  · intro m hexp hm hm0
    have hexp' : target_value cfg valaddr 0 4 / 8388608 % 256 = 255 := hexp
    have hm' : target_value cfg valaddr 0 4 % 8388608 = m := hm
    have hnan : (float_bits cfg valaddr 4).is_nan = true := by
      rw [float_bits_single cfg valaddr hlong]
      simp only [hexp', hm', decide_True, Bool.true_and, decide_eq_true_eq]
      exact fun h => hm0 h.symm
    simp only [print_floating, hieee, hnan, and_self, if_true]
    rw [float_bits_single cfg valaddr hlong, hm']
    simp [nan_text]
  · intro m hexp hm hm0
    obtain ⟨high, low, hh, hl, hhigh, hlow, hV⟩ := double_fields cfg valaddr hbytes
    have hexp' : (high * 4294967296 + low) / 4503599627370496 % 2048 = 2047 := by
      rw [← hV]
      exact hexp
    have hm' : (high * 4294967296 + low) % 4503599627370496 = m := by
      rw [← hV]
      exact hm
    have e1 : high / 1048576 % 2048 = 2047 := by omega
    have e2 : high % 1048576 = m / 4294967296 := by omega
    have e3 : low = m % 4294967296 := by omega
    have e4 : ¬ (high % 1048576 = 0 ∧ low = 0) := by omega
    have e5 : high < 2147483648 ↔ target_value cfg valaddr 0 8 < 2 ^ 63 := by
      rw [hV]
      constructor <;> intro h <;> omega
    have hbits : float_bits cfg valaddr 8 =
        { low := m % 4294967296, high := m / 4294967296,
          nonnegative := decide (target_value cfg valaddr 0 8 < 2 ^ 63), is_nan := true } := by
      rw [float_bits_double cfg valaddr 8 (by decide) hlong, hhigh, hlow, ← e2, ← e3]
      congr 1
      · simp only [e5]
      · simp only [e1, decide_True, Bool.true_and, Bool.not_eq_true', Bool.and_eq_false_iff,
          decide_eq_false_iff_not]
        by_cases h0 : high % 1048576 = 0
        · right
          exact fun hl0 => e4 ⟨h0, hl0⟩
        · left
          exact h0
    simp only [print_floating, hieee, hbits, and_self, if_true]
    simp [nan_text]

set_option maxRecDepth 100000 in
/-- An instance of `print_floating_nan`: the pattern `0x7FC00000` on a
big-endian build with a 4-byte `long` is written as `NaN(0x400000)`. -/
theorem print_floating_nan_witness :
    print_floating big_endian_config no_float_ops quiet_nan_bytes 4 =
      [Out.text ((if target_value big_endian_config quiet_nan_bytes 0 4 < 2 ^ 31 then ""
        else "-") ++ ("NaN(0x" ++ digits 16 4194304 ++ ")"))] ∧
    print_floating big_endian_config no_float_ops quiet_nan_bytes 4 =
      [Out.text "NaN(0x400000)"] :=
  ⟨(print_floating_nan big_endian_config no_float_ops quiet_nan_bytes rfl rfl
      (by decide)).1 4194304 (by decide) (by decide) (by decide),
    by decide⟩

/-- On a build where `long` has 4 bytes and `IEEE_FLOAT` is defined: for a
4-byte and for an 8-byte pattern the NaN test of `print_floating` succeeds
exactly when the exponent field is all ones and the mantissa field is
nonzero; when it succeeds the NaN text is written, and when it fails
(infinities, zeros, denormals, normal values of either sign) nothing but the
output of the unpack path is written. -/
theorem print_floating_nan_test {δ : Type} (cfg : Config) (ops : FloatOps δ)
    (valaddr : Nat → Nat) (hieee : cfg.ieee_float = true) (hlong : cfg.sizeof_long = 4)
    (hbytes : ∀ k, k < 8 → valaddr k < 256) :
    ((float_bits cfg valaddr 4).is_nan = true ↔
      (target_value cfg valaddr 0 4 / 2 ^ 23 % 2 ^ 8 = 2 ^ 8 - 1 ∧
        target_value cfg valaddr 0 4 % 2 ^ 23 ≠ 0)) ∧
    ((float_bits cfg valaddr 8).is_nan = true ↔
      (target_value cfg valaddr 0 8 / 2 ^ 52 % 2 ^ 11 = 2 ^ 11 - 1 ∧
        target_value cfg valaddr 0 8 % 2 ^ 52 ≠ 0)) ∧
    (∀ len, (float_bits cfg valaddr len).is_nan = true →
      print_floating cfg ops valaddr len = [Out.text (nan_text (float_bits cfg valaddr len))]) ∧
    (∀ len, (float_bits cfg valaddr len).is_nan = false →
      print_floating cfg ops valaddr len = unpack_out ops valaddr len) := by
  refine ⟨?_, ?_, ?_, ?_⟩
  · rw [float_bits_single cfg valaddr hlong]
    simp only [Bool.and_eq_true, decide_eq_true_eq]
    constructor
    · rintro ⟨h1, h2⟩
      exact ⟨h1, fun h => h2 h.symm⟩
    · rintro ⟨h1, h2⟩
      exact ⟨h1, fun h => h2 h.symm⟩
  · obtain ⟨high, low, hh, hl, hhigh, hlow, hV⟩ := double_fields cfg valaddr hbytes
    rw [float_bits_double cfg valaddr 8 (by decide) hlong, hhigh, hlow, hV]
    simp only [Bool.and_eq_true, decide_eq_true_eq, Bool.not_eq_true', Bool.and_eq_false_iff,
      decide_eq_false_iff_not]
    constructor
    · rintro ⟨h1, h2⟩
      refine ⟨?_, ?_⟩
      · show (high * 4294967296 + low) / 4503599627370496 % 2048 = 2047
        omega
      · show (high * 4294967296 + low) % 4503599627370496 ≠ 0
        omega
    · rintro ⟨h1, h2⟩
      have h1' : (high * 4294967296 + low) / 4503599627370496 % 2048 = 2047 := h1
      have h2' : (high * 4294967296 + low) % 4503599627370496 ≠ 0 := h2
      refine ⟨by omega, ?_⟩
      by_cases h0 : high % 1048576 = 0
      · right
        omega
      · left
        exact h0
  · intro len h
    simp only [print_floating, hieee, h, and_self, if_true]
  · intro len h
    simp only [print_floating, h, Bool.false_eq_true, and_false, if_false]

/-- An instance of `print_floating_nan_test`: on a big-endian build with a
4-byte `long` the single-precision pattern of +infinity is not a NaN and goes
to the unpack path. -/
theorem print_floating_nan_test_witness :
    (float_bits big_endian_config infinity_bytes 4).is_nan = false ∧
    print_floating big_endian_config no_float_ops infinity_bytes 4 =
      unpack_out no_float_ops infinity_bytes 4 :=
  ⟨by decide,
    (print_floating_nan_test big_endian_config no_float_ops infinity_bytes rfl rfl
      (by decide)).2.2.2 4 (by decide)⟩

/-- C14 fails on the code where `long` has 8 bytes: in the single-precision
branch `memcpy` fills all 8 bytes of `low` and the test `low >= 0` looks at
bit 63, not at the sign bit of the 4-byte pattern.  The pattern `0xFFC00000`
(a NaN with sign bit 1, followed by zero bytes) is written as
`NaN(0x400000)`, without the minus sign; where `long` has 4 bytes the same
bytes are written as `-NaN(0x400000)`. -/
theorem print_floating_sign_lost {δ : Type} (ops : FloatOps δ) :
    target_value lp64_config negative_nan_bytes 0 4 = 0xFFC00000 ∧
    print_floating lp64_config ops negative_nan_bytes 4 = [Out.text "NaN(0x400000)"] ∧
    print_floating little_endian_config ops negative_nan_bytes 4 =
      [Out.text "-NaN(0x400000)"] := by
  refine ⟨by decide, ?_, ?_⟩
  · unfold print_floating
    rw [if_pos ⟨rfl, by decide⟩]
    decide
  · unfold print_floating
    rw [if_pos ⟨rfl, by decide⟩]
    decide

/-- C15 fails on the code where `long` has 8 bytes: in the double-precision
branch `low` holds all 8 bytes of the pattern, so the test `low == 0` fails
for every pattern with a nonzero exponent.  The pattern of +infinity
(exponent all ones, mantissa zero, followed by zero bytes) takes the NaN
branch and is written as `NaN(0x7ff0000000000000)`; where `long` has 4 bytes
the same bytes go to the unpack path. -/
theorem print_floating_infinity_as_nan {δ : Type} (ops : FloatOps δ) :
    target_value lp64_config double_infinity_bytes 0 8 / 2 ^ 52 % 2 ^ 11 = 2 ^ 11 - 1 ∧
    target_value lp64_config double_infinity_bytes 0 8 % 2 ^ 52 = 0 ∧
    print_floating lp64_config ops double_infinity_bytes 8 =
      [Out.text "NaN(0x7ff0000000000000)"] ∧
    print_floating little_endian_config ops double_infinity_bytes 8 =
      unpack_out ops double_infinity_bytes 8 := by
  refine ⟨by decide, by decide, ?_, ?_⟩
  · unfold print_floating
    rw [if_pos ⟨rfl, by decide⟩]
    decide
  · unfold print_floating
    rw [if_neg (fun h => absurd h.2 (by decide))]

/-! ## Claims about `value_print` -/

theorem value_count_reps_eq (contents : Nat → Nat) (typelen n i : Nat) :
    value_count_reps contents typelen n i = count_reps contents typelen n i := by
  unfold value_count_reps count_reps
  have h : ∀ a, typelen * a = a * typelen := fun a => Nat.mul_comm typelen a
  simp only [h]

/-- One iteration of the loop of `value_print_array_elements` at an index
below `n` completes and raises the index, which stays within `n`. -/
theorem value_array_body_progress (G : Policy) (val : Value) (s : ArrState)
    (hi : s.i < val.repetitions) :
    ∃ s', value_array_body G val s = some s' ∧ s.i < s'.i ∧ s'.i ≤ val.repetitions := by
  obtain ⟨p, hp, h1, h2, h3, _, _⟩ :=
    count_reps_spec val.contents val.type.length val.repetitions s.i
  rw [← value_count_reps_eq] at hp
  have hle := h3 hi
  by_cases hT : G.repeat_count_threshold < p.2
  · refine ⟨{ i := (p.1 - 1) + 1,
              things_printed := uint (s.things_printed + G.repeat_count_threshold),
              out := s.out ++ (if s.i ≠ 0 then [Out.text ", "] else []) ++ [Out.wrap_here 0] ++
                [Out.val_print (uint (val.type.length * s.i))
                   (val.address + uint (val.type.length * s.i)) 1 0,
                 Out.repeats p.2 false] }, ?_, by simp only; omega, by simp only; omega⟩
    unfold value_array_body
    simp only [hp, Option.some_bind, gt_iff_lt, hT, if_true]
  · refine ⟨{ i := s.i + 1, things_printed := s.things_printed + 1,
              out := s.out ++ (if s.i ≠ 0 then [Out.text ", "] else []) ++ [Out.wrap_here 0] ++
                [Out.val_print (uint (val.type.length * s.i))
                   (val.address + uint (val.type.length * s.i)) 1 0] }, ?_,
      by simp only; omega, by simp only; omega⟩
    unfold value_array_body
    simp only [hp, Option.some_bind, gt_iff_lt, hT, if_false]

/-- The function `value_print_array_elements` always produces a result. -/
theorem value_print_array_elements_total (G : Policy) (val : Value) :
    ∃ r, value_print_array_elements G val = some r := by
  obtain ⟨r, hr⟩ := while_loop_total (array_cond G val.repetitions) (value_array_body G val)
    (fun _ => True) (fun s => val.repetitions - s.i)
    (by
      intro s _ hc
      simp only [array_cond, Bool.and_eq_true, decide_eq_true_eq] at hc
      obtain ⟨s', hb, h1, h2⟩ := value_array_body_progress G val s hc.1
      exact ⟨s', hb, trivial, by simp only; omega⟩)
    val.repetitions { i := 0, things_printed := 0, out := [] } trivial (by simp)
  unfold value_print_array_elements
  simp only [hr, Option.map_some']
  exact ⟨_, rfl⟩

/-- C19: for a repeated value (present, not optimized out) with `n`
repetitions of an element of `L` bytes, `n * L` within the range of `int`,
`value_print` writes `"{"` first and `"}"` last on the stream and returns
`n * L`, whatever the print budget, the repeat threshold, the format and the
contents are. -/
theorem value_print_repeated (G : Policy) (type_name : String) (val_print_ret : Int)
    (v : Value) (format : Int) (hrep : v.repeated = true) (hopt : v.optimized_out = false)
    (hsize : v.repetitions * v.type.length ≤ 2147483647) :
    ∃ mid, value_print G type_name val_print_ret (some v) format =
      some { out := [Out.text "\x7b"] ++ mid ++ [Out.text "\x7d"], stdout := [],
             ret := ((v.repetitions * v.type.length : Nat) : Int) } := by
  have hret : to_signed 32 (uint (v.repetitions * v.type.length)) =
      ((v.repetitions * v.type.length : Nat) : Int) := by
    have h1 : uint (v.repetitions * v.type.length) = v.repetitions * v.type.length :=
      uint_of_lt (by omega)
    have h2 : v.repetitions * v.type.length % 2 ^ 32 = v.repetitions * v.type.length :=
      Nat.mod_eq_of_lt (by omega)
    have h3 : v.repetitions * v.type.length < 2 ^ (32 - 1) := by
      show v.repetitions * v.type.length < 2147483648
      omega
    rw [h1]
    unfold to_signed
    rw [h2, if_pos h3]
  by_cases hstr : v.type.length = 1 ∧ v.type.code = TypeCode.TYPE_CODE_INT ∧ format = 0
  · refine ⟨[Out.print_string ((List.range v.repetitions).map v.contents) false], ?_⟩
    simp only [value_print, hopt, hrep, if_pos hstr, if_true, Option.map_some', hret,
      Bool.false_eq_true, if_false]
  · obtain ⟨r, hr⟩ := value_print_array_elements_total G v
    refine ⟨r.out, ?_⟩
    simp only [value_print, hopt, hrep, if_neg hstr, if_true, if_false, hr, Option.map_some',
      hret, Bool.false_eq_true]

/-- Witness for C19: three 4-byte integers, budget 200, threshold 1. -/
theorem value_print_repeated_witness :
    ∃ mid, value_print ⟨200, 1, false, true⟩ "int" 0 (some three_ints) 0 =
      some { out := [Out.text "\x7b"] ++ mid ++ [Out.text "\x7d"], stdout := [],
             ret := ((three_ints.repetitions * three_ints.type.length : Nat) : Int) } :=
  value_print_repeated ⟨200, 1, false, true⟩ "int" 0 three_ints 0 rfl rfl (by decide)

/-- C20 (as stated) fails: for a value whose type is a reference to a
single-byte signed integer, `value_print` writes the `"(<type-name>) "`
annotation. -/
theorem value_print_char_reference_annotated :
    value_print ⟨200, 10, false, true⟩ "char &" 0 (some char_reference) 0 =
      some { out := [Out.text "(", Out.text "char &", Out.text ") ",
                     Out.val_print 0 4096 1 0],
             stdout := [], ret := 0 } := by
  decide

/-- C20 (as the code behaves): for a value that is present, not optimized out
and not repeated, whose type is a pointer or a reference, `value_print`
writes no annotation exactly when the type is a pointer whose target type is
a single-byte signed integer, and writes `"("`, the type name, `") "` before
the value in every other case: a reference of any target type, and a
pointer whose target is unsigned, longer than one byte or not an integer. -/
theorem value_print_type_shown (G : Policy) (type_name : String) (val_print_ret : Int)
    (v : Value) (format : Int) (hrep : v.repeated = false) (hopt : v.optimized_out = false)
    (hcode : v.type.code = TypeCode.TYPE_CODE_PTR ∨ v.type.code = TypeCode.TYPE_CODE_REF) :
    ((v.type.code = TypeCode.TYPE_CODE_PTR ∧ v.type.target_type.length = 1 ∧
        v.type.target_type.code = TypeCode.TYPE_CODE_INT ∧
        v.type.target_type.is_unsigned = false) →
      value_print G type_name val_print_ret (some v) format =
        some { out := [Out.val_print 0 v.address 1 0], stdout := [], ret := val_print_ret }) ∧
    (¬ (v.type.code = TypeCode.TYPE_CODE_PTR ∧ v.type.target_type.length = 1 ∧
        v.type.target_type.code = TypeCode.TYPE_CODE_INT ∧
        v.type.target_type.is_unsigned = false) →
      value_print G type_name val_print_ret (some v) format =
        some { out := [Out.text "(", Out.text type_name, Out.text ") ",
                       Out.val_print 0 v.address 1 0],
               stdout := [], ret := val_print_ret }) := by
  constructor
  · intro h
    simp [value_print, hopt, hrep, hcode, h]
  · intro h
    have h' : ¬ (v.type.code = TypeCode.TYPE_CODE_PTR ∧ v.type.target_type.length = 1 ∧
        v.type.target_type.code = TypeCode.TYPE_CODE_INT ∧
        ¬ v.type.target_type.is_unsigned = true) := by
      simpa using h
    simp only [value_print, hopt, hrep, hcode, h', Bool.false_eq_true, if_false, if_true,
      List.cons_append, List.nil_append]

/-- Witness for the amended C20: a pointer to `signed char` is printed
without annotation. -/
theorem value_print_type_shown_witness :
    value_print ⟨200, 10, false, true⟩ "char *" 0 (some char_pointer) 0 =
      some { out := [Out.val_print 0 char_pointer.address 1 0], stdout := [], ret := 0 } :=
  (value_print_type_shown ⟨200, 10, false, true⟩ "char *" 0 char_pointer 0 rfl rfl
    (Or.inl rfl)).1 ⟨rfl, rfl, rfl, rfl⟩

/-! ## Claims on the radix invariant, the zero budget and float lengths -/

theorem radix_ok_output (from_tty : Bool) (radix : Nat) (s : RadixState) (h : radix_ok s) :
    radix_ok (set_output_radix_1 from_tty radix s).state := by
  unfold set_output_radix_1
  by_cases h16 : radix = 16
  · subst h16
    simp [radix_ok]
  · by_cases h10 : radix = 10
    · subst h10
      simp [radix_ok]
    · by_cases h8 : radix = 8
      · subst h8
        simp [radix_ok]
      · simpa [h16, h10, h8] using h

theorem radix_ok_input (from_tty : Bool) (radix : Nat) (s : RadixState) (h : radix_ok s) :
    radix_ok (set_input_radix_1 from_tty radix s).state := by
  unfold set_input_radix_1
  by_cases h2 : radix < 2
  · simpa [h2] using h
  · simpa [h2, radix_ok] using h

/-- C27: the pair `(output_radix, output_format)` is one of `(10, 0)`,
`(16, 'x')`, `(8, 'o')` in the initial state, and every call of
`set_output_radix_1`, `set_input_radix_1` or `set_radix`, whether it succeeds
or ends in `error`, from a state where this holds leaves a state where it
holds. -/
theorem radix_ok_invariant :
    radix_ok initial_radix ∧
    ∀ s, radix_ok s → ∀ (from_tty : Bool) (radix : Nat) (arg : Option Nat),
      radix_ok (set_output_radix_1 from_tty radix s).state ∧
      radix_ok (set_input_radix_1 from_tty radix s).state ∧
      radix_ok (set_radix arg from_tty s).state := by
  refine ⟨Or.inl ⟨rfl, rfl⟩, ?_⟩
  intro s hs from_tty radix arg
  refine ⟨radix_ok_output from_tty radix s hs, radix_ok_input from_tty radix s hs, ?_⟩
  unfold set_radix
  simp only
  split
  · exact radix_ok_output false _ s hs
  · split
    · exact radix_ok_input false _ _ (radix_ok_output false _ s hs)
    · exact radix_ok_input false _ _ (radix_ok_output false _ s hs)

/-- Witness for C27: from the state with output radix 8, a failing
`set_output_radix_1` with radix 7, `set_input_radix_1` with radix 2 and
`set_radix` with 16 all leave a valid pair. -/
theorem radix_ok_invariant_witness :
    radix_ok octal_output_state ∧
    radix_ok (set_output_radix_1 true 7 octal_output_state).state ∧
    radix_ok (set_input_radix_1 true 2 octal_output_state).state ∧
    radix_ok (set_radix (some 16) true octal_output_state).state :=
  ⟨Or.inr (Or.inr ⟨rfl, rfl⟩),
    radix_ok_invariant.2 octal_output_state (Or.inr (Or.inr ⟨rfl, rfl⟩)) true 7 (some 16) |>.1,
    radix_ok_invariant.2 octal_output_state (Or.inr (Or.inr ⟨rfl, rfl⟩)) true 2 (some 16) |>.2.1,
    radix_ok_invariant.2 octal_output_state (Or.inr (Or.inr ⟨rfl, rfl⟩)) true 2 (some 16)
      |>.2.2⟩

/-- C24 (as stated) fails: with a print budget of literal zero and a
sequence that is not empty, both printers render no element but write the
ellipsis `"..."`. -/
theorem array_printers_zero_budget_ellipsis :
    val_print_array_elements ⟨0, 10, false, true⟩ 1 1 (fun _ => 65) 1 0 0 =
      some { i := 0, things_printed := 0, out := [Out.text "..."] } ∧
    value_print_array_elements ⟨0, 10, false, true⟩ three_ints =
      some { i := 0, things_printed := 0, out := [Out.text "..."] } := by
  decide

/-- C24 (as the code behaves): with a print budget of literal zero,
`val_print_array_elements` (started at index 0) and
`value_print_array_elements` render no element; they write nothing for an
empty sequence and only the ellipsis `"..."` for a sequence that is not
empty. -/
theorem array_printers_zero_budget (G : Policy) (type_length eltlen : Nat)
    (valaddr : Nat → Nat) (deref_ref recurse : Int) (val : Value)
    (he : 1 ≤ eltlen) (hB : G.print_max = 0) :
    val_print_array_elements G type_length eltlen valaddr deref_ref recurse 0 =
      some { i := 0, things_printed := 0,
             out := if 0 < type_length / eltlen then [Out.text "..."] else [] } ∧
    value_print_array_elements G val =
      some { i := 0, things_printed := 0,
             out := if 0 < val.repetitions then [Out.text "..."] else [] } := by
  constructor
  · unfold val_print_array_elements
    simp only
    rw [while_loop_of_cond_false _ _ _ _ (by simp [array_cond, hB])]
    by_cases h : 0 < type_length / eltlen <;> simp [h]
  · unfold value_print_array_elements
    simp only
    rw [while_loop_of_cond_false _ _ _ _ (by simp [array_cond, hB])]
    by_cases h : 0 < val.repetitions <;> simp [h]

/-- Witness for the amended C24: budget zero and three repeated integers. -/
theorem array_printers_zero_budget_witness :
    val_print_array_elements ⟨0, 10, false, true⟩ 12 4 three_ints.contents 1 0 0 =
      some { i := 0, things_printed := 0,
             out := if 0 < 12 / 4 then [Out.text "..."] else [] } ∧
    value_print_array_elements ⟨0, 10, false, true⟩ three_ints =
      some { i := 0, things_printed := 0,
             out := if 0 < three_ints.repetitions then [Out.text "..."] else [] } :=
  array_printers_zero_budget ⟨0, 10, false, true⟩ 12 4 three_ints.contents 1 0 three_ints
    (by decide) rfl

/-- C25 fails on the code: for a floating type of 16 bytes `print_floating`
takes the double-precision branch and applies the double-precision NaN test
to the first 8 bytes.  Whatever the unpack routine is, the 16 bytes
`7F F8 00 ... 00` are written as `NaN(0x8000000000000)` and the unpack path,
which here would have written the placeholder for an invalid value, is not
taken. -/
theorem print_floating_sixteen_bytes_nan {δ : Type} (ops : FloatOps δ) :
    (float_bits big_endian_config sixteen_byte_float 16).is_nan = true ∧
    print_floating big_endian_config ops sixteen_byte_float 16 =
      [Out.text "NaN(0x8000000000000)"] ∧
    unpack_out no_float_ops sixteen_byte_float 16 = [Out.text "<invalid float value>"] := by
  refine ⟨by decide, ?_, by decide⟩
  unfold print_floating
  rw [if_pos ⟨rfl, by decide⟩]
  decide

/-! ## Claims on the repeat threshold -/

theorem var_uinteger_zero : var_uinteger 0 = UINT_MAX := rfl

theorem value_array_body_individual (G : Policy) (val : Value) (s : ArrState) {p : Nat × Nat}
    (hp : count_reps val.contents val.type.length val.repetitions s.i = some p)
    (hT : p.2 ≤ G.repeat_count_threshold) (hoff : val.type.length * s.i < 4294967296) :
    value_array_body G val s =
      some { i := s.i + 1, things_printed := s.things_printed + 1,
             out := s.out ++ value_element_out val s.i } := by
  rw [← value_count_reps_eq] at hp
  unfold value_array_body
  simp only [hp, Option.some_bind, gt_iff_lt, not_lt.2 hT, if_false, uint_of_lt hoff,
    value_element_out, List.append_assoc, List.cons_append, List.nil_append]

theorem value_individual_out_succ (val : Value) (first count : Nat) :
    value_individual_out val first (count + 1) =
      value_element_out val first ++ value_individual_out val (first + 1) count := by
  simp [value_individual_out, List.range'_succ]

/-- A stretch of `n` indices of a repeated value at which no run exceeds the
threshold, within the budget, is printed element by element. -/
theorem value_loop_individual (G : Policy) (val : Value) (n : Nat) :
    ∀ (fuel a t : Nat) (out : List Out),
      a + n ≤ val.repetitions → t + n ≤ G.print_max →
      (∀ j, j < val.repetitions → val.type.length * j < 4294967296) →
      (∀ j, a ≤ j → j < a + n →
        ∃ p, count_reps val.contents val.type.length val.repetitions j = some p ∧
          p.2 ≤ G.repeat_count_threshold) →
      while_loop (array_cond G val.repetitions) (value_array_body G val)
          (fuel + n) { i := a, things_printed := t, out := out } =
        while_loop (array_cond G val.repetitions) (value_array_body G val)
          fuel { i := a + n, things_printed := t + n,
                 out := out ++ value_individual_out val a n } := by
  induction n with
  | zero =>
    intro fuel a t out _ _ _ _
    simp [value_individual_out]
  | succ n ih =>
    intro fuel a t out hlen hbud hoff hreps
    obtain ⟨p, hp, hpT⟩ := hreps a (le_refl a) (by omega)
    have hbody := value_array_body_individual G val
      { i := a, things_printed := t, out := out } hp hpT (hoff a (by omega))
    have hcond : array_cond G val.repetitions
        { i := a, things_printed := t, out := out } = true := by
      simp only [array_cond, Bool.and_eq_true, decide_eq_true_eq]
      omega
    rw [show fuel + (n + 1) = (fuel + n) + 1 by omega,
      while_loop_step _ _ _ _ _ hcond hbody,
      ih fuel (a + 1) (t + 1) _ (by omega) (by omega) hoff
        (fun j hj1 hj2 => hreps j (by omega) (by omega)),
      value_individual_out_succ, List.append_assoc]
    have e1 : a + 1 + n = a + (n + 1) := by omega
    have e2 : t + 1 + n = t + (n + 1) := by omega
    rw [e1, e2]

/-- When every index up to `n` of a repeated value is printed individually and
the loop then stops at index `n`, the call yields the `n` individual
renderings, followed by the ellipsis when `n` is below the repetition count. -/
theorem value_print_array_elements_individual (G : Policy) (val : Value) (n : Nat)
    (hoff : ∀ j, j < val.repetitions → val.type.length * j < 4294967296)
    (hn : n ≤ val.repetitions) (hbud : n ≤ G.print_max)
    (hstop : n = val.repetitions ∨ n = G.print_max)
    (hreps : ∀ j, j < n →
      ∃ p, count_reps val.contents val.type.length val.repetitions j = some p ∧
        p.2 ≤ G.repeat_count_threshold) :
    value_print_array_elements G val =
      some { i := n, things_printed := n,
             out := value_individual_out val 0 n ++
               (if n < val.repetitions then [Out.text "..."] else []) } := by
  unfold value_print_array_elements
  simp only
  have hfuel : val.repetitions = (val.repetitions - n) + n := by omega
  have hrun := value_loop_individual G val n (val.repetitions - n) 0 0 []
    (by omega) (by omega) hoff (fun j _ hj => hreps j (by omega))
  rw [← hfuel] at hrun
  rw [hrun, while_loop_of_cond_false]
  · by_cases hlt : n < val.repetitions <;> simp [hlt]
  · simp only [array_cond, Bool.and_eq_false_iff, decide_eq_false_iff_not]
    omega

/-- A run found by the repeat scan at an index below `len` is no longer than
`len`. -/
theorem count_reps_le (valaddr : Nat → Nat) (eltlen len j : Nat) (hj : j < len) :
    ∃ p, count_reps valaddr eltlen len j = some p ∧ p.2 ≤ len := by
  obtain ⟨p, hp, h1, _, h3, _, _⟩ := count_reps_spec valaddr eltlen len j
  have := h3 hj
  exact ⟨p, hp, by omega⟩

/-- A threshold stored as literal 0, which no `set print repeats` command
stores, would be exceeded by every run: every run, those of a single element
included, would be annotated with `" <repeats K times>"` and no budget
charged. -/
theorem array_printers_threshold_zero_annotates :
    val_print_array_elements ⟨200, 0, false, true⟩ 2 1 (fun k => k) 1 0 0 =
      some { i := 2, things_printed := 0,
             out := [Out.wrap_here 2, Out.val_print 0 0 1 1, Out.repeats 1 true,
                     Out.text ", ",
                     Out.wrap_here 2, Out.val_print 1 0 1 1, Out.repeats 1 true] } ∧
    value_print_array_elements ⟨200, 0, false, true⟩ three_ints =
      some { i := 3, things_printed := 0,
             out := [Out.wrap_here 0, Out.val_print 0 4096 1 0, Out.repeats 2 false,
                     Out.text ", ",
                     Out.wrap_here 0, Out.val_print 8 4104 1 0, Out.repeats 1 false] } := by
  decide

/-- C21: with the repeat threshold configured as 0, which the command
`set print repeats` stores as `UINT_MAX`, no run is compressed: for every
sequence, `val_print_array_elements` (started at index 0) and
`value_print_array_elements` print the elements one by one, in index order,
all of them when the print budget allows and otherwise up to the budget,
followed by the ellipsis, and the output holds no `" <repeats K times>"`
annotation. -/
theorem array_printers_threshold_unlimited (G : Policy) (type_length eltlen : Nat)
    (valaddr : Nat → Nat) (deref_ref recurse : Int) (val : Value)
    (he : 1 ≤ eltlen) (hL : type_length < 4294967296)
    (hv : 1 ≤ val.type.length) (hV : val.repetitions * val.type.length < 4294967296)
    (hT : G.repeat_count_threshold = var_uinteger 0) :
    val_print_array_elements G type_length eltlen valaddr deref_ref recurse 0 =
      some { i := min (type_length / eltlen) G.print_max,
             things_printed := min (type_length / eltlen) G.print_max,
             out := individual_out G eltlen deref_ref recurse 0
                 (min (type_length / eltlen) G.print_max) ++
               (if min (type_length / eltlen) G.print_max < type_length / eltlen
                then [Out.text "..."] else []) } ∧
    value_print_array_elements G val =
      some { i := min val.repetitions G.print_max,
             things_printed := min val.repetitions G.print_max,
             out := value_individual_out val 0 (min val.repetitions G.print_max) ++
               (if min val.repetitions G.print_max < val.repetitions
                then [Out.text "..."] else []) } ∧
    ∀ reps filtered count,
      Out.repeats reps filtered ∉ individual_out G eltlen deref_ref recurse 0 count ∧
      Out.repeats reps filtered ∉ value_individual_out val 0 count := by
  have hNle : type_length / eltlen ≤ type_length := Nat.div_le_self _ _
  have hnle : val.repetitions ≤ val.repetitions * val.type.length :=
    Nat.le_mul_of_pos_right _ hv
  refine ⟨?_, ?_, ?_⟩
  · apply val_print_array_elements_individual G valaddr deref_ref recurse _ hL
      (Nat.min_le_left _ _) (Nat.min_le_right _ _)
    · rw [Nat.min_def]
      split <;> simp
    · intro j hj
      obtain ⟨p, hp, hle⟩ := count_reps_le valaddr eltlen (type_length / eltlen) j
        (lt_of_lt_of_le hj (Nat.min_le_left _ _))
      refine ⟨p, hp, ?_⟩
      rw [hT]
      show p.2 ≤ 4294967295
      omega
  · apply value_print_array_elements_individual G val _ _
      (Nat.min_le_left _ _) (Nat.min_le_right _ _)
    · rw [Nat.min_def]
      split <;> simp
    · intro j hj
      obtain ⟨p, hp, hle⟩ := count_reps_le val.contents val.type.length val.repetitions j
        (lt_of_lt_of_le hj (Nat.min_le_left _ _))
      refine ⟨p, hp, ?_⟩
      rw [hT]
      show p.2 ≤ 4294967295
      omega
    · intro j hj
      have : val.type.length * j ≤ val.type.length * val.repetitions :=
        Nat.mul_le_mul_left _ (le_of_lt hj)
      rw [Nat.mul_comm val.type.length val.repetitions] at this
      omega
  · intro reps filtered count
    constructor
    · unfold individual_out element_out separator
      simp only [List.mem_flatten, List.mem_map, not_exists, not_and]
      rintro l ⟨j, _, rfl⟩
      by_cases hj : j ≠ 0 <;> by_cases hp : G.prettyprint_arrays = true <;> simp [hj, hp]
    · unfold value_individual_out value_element_out
      simp only [List.mem_flatten, List.mem_map, not_exists, not_and]
      rintro l ⟨j, _, rfl⟩
      by_cases hj : j ≠ 0 <;> simp [hj]

/-- Witness for C21: threshold `UINT_MAX`, budget 200, three 4-byte integers
as an array and as a repeated value. -/
theorem array_printers_threshold_unlimited_witness :
    val_print_array_elements ⟨200, UINT_MAX, false, true⟩ 12 4 three_ints.contents 1 0 0 =
      some { i := min (12 / 4) 200, things_printed := min (12 / 4) 200,
             out := individual_out ⟨200, UINT_MAX, false, true⟩ 4 1 0 0 (min (12 / 4) 200) ++
               (if min (12 / 4) 200 < 12 / 4 then [Out.text "..."] else []) } ∧
    value_print_array_elements ⟨200, UINT_MAX, false, true⟩ three_ints =
      some { i := min three_ints.repetitions 200,
             things_printed := min three_ints.repetitions 200,
             out := value_individual_out three_ints 0 (min three_ints.repetitions 200) ++
               (if min three_ints.repetitions 200 < three_ints.repetitions
                then [Out.text "..."] else []) } :=
  have h := array_printers_threshold_unlimited ⟨200, UINT_MAX, false, true⟩ 12 4
    three_ints.contents 1 0 three_ints (by decide) (by decide) (by decide) (by decide) rfl
  ⟨h.1, h.2.1⟩

/-! ## The iterations of the array loop -/

theorem loop_steps_succ {σ : Type} (cond : σ → Bool) (body : σ → Option σ) (s : σ) (k : Nat) :
    loop_steps cond body s (k + 1) =
      (if cond s then body s else none).bind fun s' => loop_steps cond body s' k := by
  induction k with
  | zero => simp [loop_steps]
  | succ k ih =>
    rw [loop_steps, ih, Option.bind_assoc]
    congr 1

/-- The state in which a loop ends is the state at the top of the loop after
some number of iterations. -/
theorem while_loop_steps {σ : Type} (cond : σ → Bool) (body : σ → Option σ) :
    ∀ (fuel : Nat) (s r : σ), while_loop cond body fuel s = some r →
      ∃ k, loop_steps cond body s k = some r := by
  intro fuel
  induction fuel with
  | zero =>
    intro s r h
    by_cases hc : cond s = true
    · simp [while_loop, hc] at h
    · simp only [while_loop, hc, Bool.false_eq_true, if_false, Option.some.injEq] at h
      exact ⟨0, by rw [← h]; rfl⟩
  | succ fuel ih =>
    intro s r h
    by_cases hc : cond s = true
    · simp only [while_loop, hc, if_true] at h
      cases hb : body s with
      | none => simp [hb] at h
      | some s' =>
        rw [hb, Option.some_bind] at h
        obtain ⟨k, hk⟩ := ih s' r h
        exact ⟨k + 1, by rw [loop_steps_succ, if_pos hc, hb, Option.some_bind, hk]⟩
    · simp only [while_loop, hc, Bool.false_eq_true, if_false, Option.some.injEq] at h
      exact ⟨0, by rw [← h]; rfl⟩

/-- A property of the start state that every iteration preserves holds at the
top of the loop after any number of iterations. -/
theorem loop_steps_inv {σ : Type} (cond : σ → Bool) (body : σ → Option σ) (I : σ → Prop)
    (hI : ∀ s s', I s → cond s = true → body s = some s' → I s') (s0 : σ) (h0 : I s0) :
    ∀ (k : Nat) (s : σ), loop_steps cond body s0 k = some s → I s := by
  intro k
  induction k with
  | zero =>
    intro s h
    simp only [loop_steps, Option.some.injEq] at h
    rw [← h]
    exact h0
  | succ k ih =>
    intro s h
    rw [loop_steps] at h
    cases hk : loop_steps cond body s0 k with
    | none => simp [hk] at h
    | some t =>
      rw [hk, Option.some_bind] at h
      by_cases hc : cond t = true
      · rw [if_pos hc] at h
        exact hI t s (ih t hk) hc h
      · rw [if_neg hc] at h
        exact Option.noConfusion h

/-- The result of the repeat scan at an index below the element count is the
length of the maximal run that starts there. -/
theorem count_reps_maximal_run (valaddr : Nat → Nat) {type_length eltlen i : Nat}
    (hL : type_length < 4294967296) (hi : i < type_length / eltlen) :
    ∃ reps, count_reps valaddr eltlen (type_length / eltlen) i = some (i + reps, reps) ∧
      maximal_run valaddr eltlen (type_length / eltlen) i reps := by
  obtain ⟨p, hp, h1, h2, h3, h4, h5⟩ :=
    count_reps_spec valaddr eltlen (type_length / eltlen) i
  have hle := h3 hi
  refine ⟨p.2, ?_, h2, by omega, ?_, ?_⟩
  · rw [hp, ← h1]
  · intro j hij hj
    by_cases hji : j = i
    · rw [hji]
    · exact ((same_elt_iff hL hi (by omega)).1 (h4 j (by omega) (by omega))).symm
  · intro hlt heq
    rw [← h1] at hlt heq
    exact h5 hlt ((same_elt_iff hL hi hlt).2 heq.symm)

/-- The maximal run that starts at an index has one length only. -/
theorem maximal_run_unique {valaddr : Nat → Nat} {eltlen N i a b : Nat}
    (ha : maximal_run valaddr eltlen N i a) (hb : maximal_run valaddr eltlen N i b) :
    a = b := by
  obtain ⟨_, ha2, ha3, ha4⟩ := ha
  obtain ⟨_, hb2, hb3, hb4⟩ := hb
  by_contra hne
  rcases Nat.lt_or_gt_of_ne hne with h | h
  · exact ha4 (by omega) (hb3 (i + a) (by omega) (by omega))
  · exact hb4 (by omega) (ha3 (i + b) (by omega) (by omega))

/-- The array loop started at any index with nothing charged ends. -/
theorem array_loop_total (G : Policy) (valaddr : Nat → Nat) (eltlen len : Nat)
    (deref_ref recurse : Int) (start : Nat) :
    ∃ r, while_loop (array_cond G len) (array_body G valaddr eltlen len deref_ref recurse)
        len { i := start, things_printed := 0, out := [] } = some r ∧
      array_cond G len r = false := by
  obtain ⟨r, hr⟩ := while_loop_total (array_cond G len)
    (array_body G valaddr eltlen len deref_ref recurse)
    (fun s => s.things_printed ≤ s.i ∧ Out.text "..." ∉ s.out)
    (fun s => len - s.i)
    (by
      intro s hs hc
      simp only [array_cond, Bool.and_eq_true, decide_eq_true_eq] at hc
      obtain ⟨s', hb, h1, h2, h3, h4⟩ := array_body_progress G valaddr eltlen
        len deref_ref recurse s hc.1 hs.1 hs.2
      exact ⟨s', hb, ⟨h3, h4⟩, by simp only; omega⟩)
    len { i := start, things_printed := 0, out := [] }
    ⟨Nat.zero_le _, by simp⟩ (by simp)
  exact ⟨r, hr, (while_loop_inv (array_cond G len)
    (array_body G valaddr eltlen len deref_ref recurse) (fun _ => True)
    (fun _ _ _ _ _ => trivial) len _ r trivial hr).2⟩

/-- C22: at every state `s` that the loop of `val_print_array_elements`
reaches (after any number `k` of iterations from the start index), with `N`
the element count: the loop stops exactly when the index has reached `N` or
the charged budget has reached the print budget; otherwise, with `reps` the
length of the maximal run of elements byte-identical to element `s.i` that
starts at `s.i`, the iteration renders the element once and, when `reps`
exceeds the threshold `T`, appends `" <repeats reps times>"`, moves the
index to `s.i + reps` and charges `T`; when it does not, it writes no
annotation, moves the index to `s.i + 1` and charges 1.  The state in which
the function leaves the loop is one of these states. -/
theorem val_print_array_elements_iteration (G : Policy) (type_length eltlen : Nat)
    (valaddr : Nat → Nat) (deref_ref recurse : Int) (start k : Nat) (s : ArrState)
    (he : 1 ≤ eltlen) (hL : type_length < 4294967296)
    (hs : loop_steps (array_cond G (type_length / eltlen))
      (array_body G valaddr eltlen (type_length / eltlen) deref_ref recurse)
      { i := start, things_printed := 0, out := [] } k = some s) :
    (array_cond G (type_length / eltlen) s = false ↔
      (type_length / eltlen ≤ s.i ∨ G.print_max ≤ s.things_printed)) ∧
    (array_cond G (type_length / eltlen) s = true →
      ∃ reps, maximal_run valaddr eltlen (type_length / eltlen) s.i reps ∧
        (∀ m, maximal_run valaddr eltlen (type_length / eltlen) s.i m → m = reps) ∧
        array_body G valaddr eltlen (type_length / eltlen) deref_ref recurse s =
          some (if G.repeat_count_threshold < reps then
            { i := s.i + reps,
              things_printed := s.things_printed + G.repeat_count_threshold,
              out := s.out ++ separator G recurse s.i ++
                [Out.wrap_here (2 + 2 * recurse),
                 Out.val_print (s.i * eltlen) 0 deref_ref (recurse + 1),
                 Out.repeats reps true] }
          else
            { i := s.i + 1, things_printed := s.things_printed + 1,
              out := s.out ++ separator G recurse s.i ++
                [Out.wrap_here (2 + 2 * recurse),
                 Out.val_print (s.i * eltlen) 0 deref_ref (recurse + 1)] })) ∧
    (∃ m r, loop_steps (array_cond G (type_length / eltlen))
        (array_body G valaddr eltlen (type_length / eltlen) deref_ref recurse)
        { i := start, things_printed := 0, out := [] } m = some r ∧
      array_cond G (type_length / eltlen) r = false ∧
      val_print_array_elements G type_length eltlen valaddr deref_ref recurse start =
        some (if r.i < type_length / eltlen then { r with out := r.out ++ [Out.text "..."] }
          else r)) := by
  have hinv := loop_steps_inv (array_cond G (type_length / eltlen))
    (array_body G valaddr eltlen (type_length / eltlen) deref_ref recurse)
    (fun s => s.things_printed ≤ s.i ∧ Out.text "..." ∉ s.out)
    (by
      intro s s' hI hc hb
      simp only [array_cond, Bool.and_eq_true, decide_eq_true_eq] at hc
      obtain ⟨s'', hb', _, _, h3, h4⟩ := array_body_progress G valaddr eltlen
        (type_length / eltlen) deref_ref recurse s hc.1 hI.1 hI.2
      rw [hb] at hb'
      simp only [Option.some.injEq] at hb'
      subst hb'
      exact ⟨h3, h4⟩)
    { i := start, things_printed := 0, out := [] } ⟨Nat.zero_le _, by simp⟩ k s hs
  refine ⟨?_, ?_, ?_⟩
  · simp only [array_cond, Bool.and_eq_false_iff, decide_eq_false_iff_not, not_lt]
  · intro hc
    simp only [array_cond, Bool.and_eq_true, decide_eq_true_eq] at hc
    obtain ⟨reps, hp, hrun⟩ := count_reps_maximal_run valaddr hL hc.1
    refine ⟨reps, hrun, fun m hm => maximal_run_unique hm hrun, ?_⟩
    have hoff := mul_eltlen_lt hL hc.1
    have hNle : type_length / eltlen ≤ type_length := Nat.div_le_self _ _
    by_cases hT : G.repeat_count_threshold < reps
    · rw [if_pos hT, array_body_repeat G deref_ref recurse s hp hT (by simp only; omega)]
      have hu : uint (s.things_printed + G.repeat_count_threshold) =
          s.things_printed + G.repeat_count_threshold := by
        apply uint_of_lt
        have := hrun.2.1
        have := hinv.1
        omega
      simp only [hu, uint_of_lt hoff, List.append_assoc, List.cons_append, List.nil_append]
    · rw [if_neg hT, array_body_individual G deref_ref recurse s hp (by simp only; omega) hoff]
      simp only [element_out, List.append_assoc]
  · obtain ⟨r, hr, hcr⟩ := array_loop_total G valaddr eltlen (type_length / eltlen)
      deref_ref recurse start
    obtain ⟨m, hm⟩ := while_loop_steps _ _ _ _ _ hr
    refine ⟨m, r, hm, hcr, ?_⟩
    unfold val_print_array_elements
    simp only [hr, Option.map_some']

/-- Witness for C22: three 4-byte integers 7, 7, 9 with threshold 1; after
the first iteration the loop is at index 2, and there the run has length 1. -/
theorem val_print_array_elements_iteration_witness :
    ∃ reps, maximal_run three_ints.contents 4 (12 / 4) after_first_run.i reps ∧
      (∀ m, maximal_run three_ints.contents 4 (12 / 4) after_first_run.i m → m = reps) ∧
      array_body ⟨200, 1, false, true⟩ three_ints.contents 4 (12 / 4) 1 0 after_first_run =
        some (if 1 < reps then
          { i := after_first_run.i + reps,
            things_printed := after_first_run.things_printed + 1,
            out := after_first_run.out ++
              separator ⟨200, 1, false, true⟩ 0 after_first_run.i ++
              [Out.wrap_here (2 + 2 * 0),
               Out.val_print (after_first_run.i * 4) 0 1 (0 + 1),
               Out.repeats reps true] }
        else
          { i := after_first_run.i + 1,
            things_printed := after_first_run.things_printed + 1,
            out := after_first_run.out ++
              separator ⟨200, 1, false, true⟩ 0 after_first_run.i ++
              [Out.wrap_here (2 + 2 * 0),
               Out.val_print (after_first_run.i * 4) 0 1 (0 + 1)] }) :=
  (val_print_array_elements_iteration ⟨200, 1, false, true⟩ 12 4 three_ints.contents 1 0 0 1
    after_first_run (by decide) (by decide) (by decide)).2.1 (by decide)

/-! ## The two sequence printers -/

/-- Two loops whose conditions agree and whose bodies lead from related states
to related states end in related states, or both run out of iterations. -/
theorem while_loop_sim {σ τ ρ : Type} (c1 : σ → Bool) (b1 : σ → Option σ) (c2 : τ → Bool)
    (b2 : τ → Option τ) (f : σ → ρ) (g : τ → ρ)
    (hc : ∀ s t, f s = g t → c1 s = c2 t)
    (hb : ∀ s t, f s = g t → c1 s = true → (b1 s).map f = (b2 t).map g) :
    ∀ (fuel : Nat) (s : σ) (t : τ), f s = g t →
      (while_loop c1 b1 fuel s).map f = (while_loop c2 b2 fuel t).map g := by
  intro fuel
  induction fuel with
  | zero =>
    intro s t h
    have hcc := hc s t h
    by_cases h1 : c1 s = true
    · have h2 : c2 t = true := by rw [← hcc]; exact h1
      simp [while_loop, h1, h2]
    · have h2 : ¬ c2 t = true := by rw [← hcc]; exact h1
      simp [while_loop, h1, h2, h]
  | succ fuel ih =>
    intro s t h
    have hcc := hc s t h
    by_cases h1 : c1 s = true
    · have h2 : c2 t = true := by rw [← hcc]; exact h1
      have hbody := hb s t h h1
      simp only [while_loop, h1, h2, if_true]
      cases hb1 : b1 s with
      | none =>
        cases hb2 : b2 t with
        | none => simp
        | some t' =>
          rw [hb1, hb2] at hbody
          simp at hbody
      | some s' =>
        cases hb2 : b2 t with
        | none =>
          rw [hb1, hb2] at hbody
          simp at hbody
        | some t' =>
          rw [hb1, hb2] at hbody
          simp only [Option.map_some', Option.some.injEq] at hbody
          simp only [Option.some_bind]
          exact ih s' t' hbody
    · have h2 : ¬ c2 t = true := by rw [← hcc]; exact h1
      simp [while_loop, h1, h2, h]

/-- From states with the same selection, one iteration of
`value_print_array_elements` and one of `val_print_array_elements` over the
same bytes (array pretty-printing off) lead to states with the same
selection. -/
theorem array_bodies_agree (G : Policy) (val : Value) (deref_ref recurse : Int)
    (hpretty : G.prettyprint_arrays = false) (s t : ArrState)
    (h : selection s = selection t) :
    (value_array_body G val s).map selection =
      (array_body G val.contents val.type.length val.repetitions deref_ref recurse t).map
        selection := by
  obtain ⟨si, sp, so⟩ := s
  obtain ⟨ti, tp, tout⟩ := t
  simp only [selection, ArrState.mk.injEq] at h
  obtain ⟨rfl, rfl, hout⟩ := h
  obtain ⟨p, hp, _⟩ := count_reps_spec val.contents val.type.length val.repetitions si
  have hp' := hp
  rw [← value_count_reps_eq] at hp'
  unfold value_array_body array_body
  simp only [hp, hp', Option.some_bind]
  by_cases hT : p.2 > G.repeat_count_threshold <;> by_cases hi : si ≠ 0 <;>
    simp [hT, hi, selection, skeleton, separator, hpretty, hout, Nat.mul_comm]

/-- C23: for every repeated value (bytes, element length of at least 1,
repetition count), print budget and repeat threshold,
`value_print_array_elements` produces a result, and it agrees with
`val_print_array_elements` run on an array of the same elements (start index
0, array pretty-printing off) in the final index, the budget charged and the
selection written: the same elements (by offset) in the same order, the same
separators, the same repeat annotations and the same ellipsis. -/
theorem array_printers_agree (G : Policy) (val : Value) (deref_ref recurse : Int)
    (he : 1 ≤ val.type.length) (hpretty : G.prettyprint_arrays = false) :
    (∃ r, value_print_array_elements G val = some r) ∧
    (value_print_array_elements G val).map selection =
      (val_print_array_elements G (val.repetitions * val.type.length) val.type.length
        val.contents deref_ref recurse 0).map selection := by
  refine ⟨value_print_array_elements_total G val, ?_⟩
  have hlen : val.repetitions * val.type.length / val.type.length = val.repetitions :=
    Nat.mul_div_cancel _ (by omega)
  have hsim := while_loop_sim (array_cond G val.repetitions) (value_array_body G val)
    (array_cond G val.repetitions)
    (array_body G val.contents val.type.length val.repetitions deref_ref recurse)
    selection selection
    (by
      intro s t h
      simp only [selection, ArrState.mk.injEq] at h
      simp only [array_cond, h.1, h.2.1])
    (fun s t h _ => array_bodies_agree G val deref_ref recurse hpretty s t h)
    val.repetitions { i := 0, things_printed := 0, out := [] }
    { i := 0, things_printed := 0, out := [] } rfl
  unfold value_print_array_elements val_print_array_elements
  simp only [hlen]
  cases h1 : while_loop (array_cond G val.repetitions) (value_array_body G val)
      val.repetitions { i := 0, things_printed := 0, out := [] } with
  | none =>
    rw [h1] at hsim
    cases h2 : while_loop (array_cond G val.repetitions)
        (array_body G val.contents val.type.length val.repetitions deref_ref recurse)
        val.repetitions { i := 0, things_printed := 0, out := [] } with
    | none => simp
    | some t =>
      rw [h2] at hsim
      simp at hsim
  | some s =>
    rw [h1] at hsim
    cases h2 : while_loop (array_cond G val.repetitions)
        (array_body G val.contents val.type.length val.repetitions deref_ref recurse)
        val.repetitions { i := 0, things_printed := 0, out := [] } with
    | none =>
      rw [h2] at hsim
      simp at hsim
    | some t =>
      rw [h2] at hsim
      simp only [Option.map_some', Option.some.injEq] at hsim
      simp only [selection, ArrState.mk.injEq] at hsim
      obtain ⟨hi, htp, hout⟩ := hsim
      simp only [Option.map_some', Option.some.injEq, hi]
      by_cases hlt : t.i < val.repetitions
      · simp [hlt, selection, hi, htp, hout, skeleton]
      · simp [hlt, selection, hi, htp, hout]

/-- Witness for C23: the three integers 7, 7, 9 with threshold 1, as a
repeated value and as an array. -/
theorem array_printers_agree_witness :
    (∃ r, value_print_array_elements ⟨200, 1, false, true⟩ three_ints = some r) ∧
    (value_print_array_elements ⟨200, 1, false, true⟩ three_ints).map selection =
      (val_print_array_elements ⟨200, 1, false, true⟩
        (three_ints.repetitions * three_ints.type.length) three_ints.type.length
        three_ints.contents 1 0 0).map selection :=
  array_printers_agree ⟨200, 1, false, true⟩ three_ints 1 0 (by decide) rfl

/-! ## The number of reads of the fetch loop -/

/-- The scan of a chunk of `n` delivered bytes ends after `j + 1` steps, at
the end of the chunk or just after a zero byte. -/
theorem scan_chunk_stop (buffer : Nat → Nat) (n addr bufptr : Nat) :
    ∃ j, (j + 1 ≤ n ∨ j = 0) ∧
      scan_chunk buffer (bufptr + n) n addr bufptr = some (addr + j + 1, bufptr + j + 1) ∧
      ¬ (bufptr + j + 1 < bufptr + n ∧ buffer (bufptr + j) ≠ 0) := by
  have hex : ∃ j, ¬ (bufptr + j + 1 < bufptr + n ∧ buffer (bufptr + j) ≠ 0) :=
    ⟨n, fun h => by omega⟩
  classical
  refine ⟨Nat.find hex, ?_, ?_, Nat.find_spec hex⟩
  · by_cases hn : n = 0
    · right
      have : Nat.find hex ≤ 0 := Nat.find_min' hex (fun h => by omega)
      omega
    · left
      have : Nat.find hex ≤ n - 1 := Nat.find_min' hex (fun h => by omega)
      omega
  · apply scan_chunk_eq
    · exact Nat.find_min' hex (fun h => by omega)
    · intro u hu
      have := Nat.find_min hex hu
      exact not_not.1 this
    · exact Nat.find_spec hex

/-- One iteration of the fetch loop in terminator-search mode over a read
primitive that is short only with an error: when the loop goes on after it,
the cursor has reached the end of the buffer. -/
theorem fetch_body_search_full (T : Target) (H : Heap) (F c : Nat) (s : FetchState)
    (hT : short_read_reports_error T) (hI : s.allocated = false → s.bufsize = 0) :
    ∃ s', fetch_body T 0 F c s = some s' ∧
      s'.bufsize = s.bufsize + min c (F - s.bufsize) ∧
      s'.allocated = true ∧ s'.reads = s.reads + 1 ∧
      (fetch_cond H 0 F s' = true → s'.bufsize ≤ s'.bufptr) := by
  obtain ⟨j, _, hj, hstop⟩ := scan_chunk_stop
    (store s.buffer s.bufsize (fetched T F c s)) (fetched T F c s).length s.addr s.bufsize
  refine ⟨_, fetch_body_search T F c s hI _ hj, rfl, rfl, rfl, ?_⟩
  intro hcond
  simp only [fetch_cond, Bool.and_eq_true, decide_eq_true_eq, Bool.not_eq_true',
    Bool.and_eq_false_iff, decide_eq_false_iff_not, not_true_eq_false, false_or,
    Nat.add_sub_cancel] at hcond
  obtain ⟨⟨herr, _⟩, hnz⟩ := hcond
  have hfull : ¬ (T.partial_read s.addr (fetch_size F c s)).1.length < fetch_size F c s :=
    fun h => hT _ _ h herr
  have hlen : (fetched T F c s).length = fetch_size F c s := by
    simp only [fetched, List.length_take]
    omega
  rw [hlen] at hstop
  have hle : ¬ (s.bufsize + j + 1 < s.bufsize + fetch_size F c s) := fun h => hstop ⟨h, hnz⟩
  show s.bufsize + fetch_size F c s ≤ s.bufsize + j + 1
  omega

theorem finish_string_reads (T : Target) (G : Policy) (len : Nat) (s : FetchState) :
    (finish_string T G len s).reads = s.reads := by
  unfold finish_string
  simp only
  split
  · split <;> rfl
  · rfl

/-- The read primitives over a target memory are short only with an error. -/
theorem memory_target_contract (mem : Nat → Option Nat) :
    short_read_reports_error (memory_target mem) := by
  intro memaddr len h
  simp only [memory_target] at h ⊢
  rw [if_neg (by omega)]
  decide

/-- C26: over a read primitive that delivers fewer bytes than requested only
when it also reports a nonzero error code, `val_print_string` produces a
result for every address, requested length and budget (its fetch loop ends)
after at least one partial read; in terminator-search mode (`len = 0`) after
at most `max 1 ⌈fetchlimit / chunksize⌉` reads, and in fixed-length mode
after exactly one. -/
theorem val_print_string_reads (T : Target) (H : Heap) (G : Policy) (junk : Nat → Nat)
    (addr len : Nat) (hT : short_read_reports_error T) :
    ∃ r, val_print_string T H G junk addr len = some r ∧ 1 ≤ r.reads ∧
      (len = 0 → r.reads ≤
        max 1 ((fetchlimit G len + chunksize G len - 1) / chunksize G len)) ∧
      (len ≠ 0 → r.reads = 1) := by
  by_cases hlen : len = 0
  · subst hlen
    have hc0 := chunksize_eq_zero G 0
    obtain ⟨s, hs, _, _, _⟩ := fetch_loop_total T H 0 (fetchlimit G 0) (chunksize G 0)
      hc0 (fetch_start junk addr) (fun _ => rfl) (Nat.zero_le _)
    obtain ⟨s1, hb1, hsz1, hal1, hrd1, hptr1⟩ := fetch_body_search_full T H
      (fetchlimit G 0) (chunksize G 0) (fetch_start junk addr) hT (fun _ => rfl)
    unfold do_while at hs
    rw [hb1, Option.some_bind] at hs
    have hinv := while_loop_inv (fetch_cond H 0 (fetchlimit G 0))
      (fetch_body T 0 (fetchlimit G 0) (chunksize G 0))
      (fun s => s.allocated = true ∧ 1 ≤ s.reads ∧
        s.reads ≤ max 1 ((fetchlimit G 0 + chunksize G 0 - 1) / chunksize G 0) ∧
        s.bufsize = min (s.reads * chunksize G 0) (fetchlimit G 0) ∧
        (fetch_cond H 0 (fetchlimit G 0) s = true → s.bufsize ≤ s.bufptr))
      (by
        intro s s' hI hcond hb
        obtain ⟨hal, hr1, _, hsz, hptr⟩ := hI
        obtain ⟨s'', hb', hsz', hal', hrd', hptr'⟩ := fetch_body_search_full T H
          (fetchlimit G 0) (chunksize G 0) s hT (fun h => by simp [hal] at h)
        rw [hb] at hb'
        simp only [Option.some.injEq] at hb'
        subst hb'
        have hlt := fetch_cond_bufptr hcond
        have hle := hptr hcond
        have hmul : (s.reads + 1) * chunksize G 0 = s.reads * chunksize G 0 + chunksize G 0 :=
          Nat.succ_mul _ _
        have hprod : s.reads * chunksize G 0 < fetchlimit G 0 := by
          rw [Nat.min_def] at hsz
          split at hsz <;> omega
        have hcpos : 0 < chunksize G 0 := by
          rcases Nat.eq_zero_or_pos (chunksize G 0) with h | h
          · have := hc0 h
            omega
          · exact h
        refine ⟨hal', by omega, ?_, ?_, hptr'⟩
        · rw [hrd']
          apply le_trans _ (Nat.le_max_right _ _)
          rw [Nat.le_div_iff_mul_le hcpos, hmul]
          omega
        · rw [hsz', hrd', hmul]
          rw [Nat.min_def] at hsz
          rw [Nat.min_def, Nat.min_def]
          split at hsz <;> split <;> split <;> omega)
      (fetchlimit G 0 + 1) s1 s
      ⟨hal1, by rw [hrd1]; simp [fetch_start], by
          rw [hrd1]
          simp [fetch_start], by
          rw [hsz1, hrd1]
          simp [fetch_start], hptr1⟩ hs
    obtain ⟨⟨_, h1, h2, _, _⟩, _⟩ := hinv
    refine ⟨finish_string T G 0 s, ?_, ?_, ?_, fun h => absurd rfl h⟩
    · unfold val_print_string do_while
      rw [hb1, Option.some_bind, hs, Option.map_some']
    · rw [finish_string_reads]
      exact h1
    · intro _
      rw [finish_string_reads]
      exact h2
  · have hstop : (T.partial_read addr (fetchlimit G len)).2 ≠ 0 ∨
        fetchlimit G len ≤ (T.partial_read addr (fetchlimit G len)).1.length := by
      by_cases h : (T.partial_read addr (fetchlimit G len)).1.length < fetchlimit G len
      · exact Or.inl (hT _ _ h)
      · exact Or.inr (by omega)
    have h := val_print_string_fixed_one_read T H G junk addr len hlen hstop
    refine ⟨_, h, ?_, fun h0 => absurd h0 hlen, fun _ => ?_⟩
    · rw [finish_string_reads]
    · rw [finish_string_reads]

/-- Witness for C26: a terminator search over the fully mapped memory that
holds `"abc\0xyz"` at address 4096. -/
theorem val_print_string_reads_witness :
    short_read_reports_error (memory_target abc_memory) ∧
    ∃ r, val_print_string (memory_target abc_memory) low_heap ⟨200, 10, false, true⟩ (fun _ => 0)
        4096 0 = some r ∧ 1 ≤ r.reads ∧
      (0 = 0 → r.reads ≤ max 1 ((fetchlimit ⟨200, 10, false, true⟩ 0 +
        chunksize ⟨200, 10, false, true⟩ 0 - 1) / chunksize ⟨200, 10, false, true⟩ 0)) ∧
      (0 ≠ 0 → r.reads = 1) :=
  ⟨memory_target_contract abc_memory,
    val_print_string_reads (memory_target abc_memory) low_heap ⟨200, 10, false, true⟩ (fun _ => 0)
      4096 0 (memory_target_contract abc_memory)⟩

end Valprint
